import Mathlib

/-! vector-search-go: random-hyperplane LSH hashing and brute-force search

A shallow embedding of `lsh/lsh/lsh.go`, `algorithm/algorithm.go` and
`annbench/annbench.go`.

Conventions of the embedding.

* The functions are embedded twice.  The first embedding computes with exact
  numbers: `float64` is an arbitrary linearly ordered field `F`,
  `math.Signbit x` is `x < 0` and `math.Sqrt` is a parameter `sqrt : F → F`.
  It carries the statements that do not depend on rounding (control flow,
  panics, counts, bit positions, the order of distances).
* The second embedding, in the namespace `fp`, computes with the float64
  operations themselves, a structure `FloatOps` of which nothing is assumed;
  `binary64.ops` is IEEE 754 binary64 with rounding to nearest even, and
  evaluates.  It carries the statements about the computed numbers.
* `uint64` is `Nat` reduced modulo `2 ^ 64` where a result could overflow.
* A Go slice is a `List`; an index out of range, a negative `make` length or a
  BLAS length mismatch is a run-time panic, modelled by `none`.
* `blas64.Vector` is built only through `cm.NewVec` (`N = len Data`,
  `Inc = 1`), so it is modelled by its data.
* Locks are dropped: every method is modelled as run on its own.
* A byte slice written by `encoding/gob` is modelled by the value that its
  stream transmits: the exported fields of the encoded struct.  Decoding
  stores the transmitted fields into the receiver; a field that holds the zero
  value of its type is not transmitted and keeps the value of the receiver.
-/

namespace VectorSearch

/-! ## Go loop and slice primitives -/

/-- Go `for i := 0; i < n; i++ { s = body(i, s) }` where the body may panic. -/
def forRange {σ : Type} (n : Nat) (body : Nat → σ → Option σ) (init : σ) : Option σ :=
  (List.range n).foldlM (fun s i => body i s) init

/-- Go `make([]float64, n)`: panics on a negative length. -/
def makeSlice {F : Type} [Zero F] (n : Int) : Option (List F) :=
  if 0 ≤ n then some (List.replicate n.toNat 0) else none

/-- Go `xs[i]` for an `int` index. -/
def idxInt {α : Type} (xs : List α) (i : Int) : Option α :=
  if 0 ≤ i then xs[i.toNat]? else none

/-- Go `xs[i] = v`: panics when `i` is out of range. -/
def setIdx {α : Type} (xs : List α) (i : Nat) (v : α) : Option (List α) :=
  if i < xs.length then some (xs.set i v) else none

/-- Go `xs[i] = v` for an `int` index. -/
def setIdxInt {α : Type} (xs : List α) (i : Int) (v : α) : Option (List α) :=
  if 0 ≤ i then setIdx xs i.toNat v else none

/-- Go `xs[:n]` for an `int` bound (capacity equal to the length). -/
def sliceTo {α : Type} (xs : List α) (n : Int) : Option (List α) :=
  if 0 ≤ n ∧ n ≤ xs.length then some (xs.take n.toNat) else none

/-- The pseudo-random source: the sequence of the future results of
`rand.Float64()`. -/
abbrev Rand (F : Type) := Nat → F

/-- Go `rand.Float64()`: the next draw and the source after it. -/
def Float64 {F : Type} (rnd : Rand F) : F × Rand F :=
  (rnd 0, fun k => rnd (k + 1))

/-- Go `math.Signbit` on exact numbers: the sign bit is set for negative values. -/
def Signbit {F : Type} [LinearOrderedField F] (x : F) : Bool :=
  decide (x < 0)

/-- Go `hash |= (1 << i)` on a `uint64`: the shifted constant is a `uint64`,
so a shift by 64 or more gives 0. -/
def setBit64 (hash i : Nat) : Nat :=
  hash ||| ((1 <<< i) % 2 ^ 64)

/-! ## Go standard library `encoding/gob` -/

/-- A byte slice as a `gob.Decoder` reads it: the stream that a `gob.Encoder`
wrote for a value whose transmitted part is `w`, or bytes that do not decode,
with the error that the decoder returns for them. -/
inductive GobBytes (W : Type) where
  | stream (w : W)
  | malformed (err : String)

/-- Decoding of a struct field of a basic type: a field that holds the zero
value of its type is not transmitted, and the decoder leaves that field of
the receiver as it is. -/
def gobField {α : Type} [DecidableEq α] (zero sent recv : α) : α :=
  if sent = zero then recv else sent

/-- Decoding of a slice field: an empty slice is not transmitted; a
transmitted slice of `n` elements is decoded element by element into the
first `n` elements of the receiver's slice when it has room for them (its
capacity is taken equal to its length), and into a new slice of `n` zero
values otherwise. -/
def gobSlice {α : Type} (elem : α → α → α) (zero : α) (sent recv : List α) : List α :=
  if sent.length = 0 then recv
  else if recv.length < sent.length then sent.map fun s => elem s zero
  else List.zipWith elem sent recv

/-- Decoding of a slice of numbers or strings: every element of a transmitted
slice is transmitted, the zero ones included. -/
def gobBasicSlice {α : Type} (zero : α) (sent recv : List α) : List α :=
  gobSlice (fun s _ => s) zero sent recv

/-! ## gonum `blas64` level-1 routines used by `lsh.go` -/

/-- The call `blas64.Copy(x, y)`: the new content of `y`. -/
def blasCopy {F : Type} (x y : List F) : Option (List F) :=
  if x.length = y.length then some x else none

/-- The call `blas64.Axpy(alpha, x, y)`: the new content of `y`, `y + alpha * x`. -/
def blasAxpy {F : Type} [LinearOrderedField F] (alpha : F) (x y : List F) : Option (List F) :=
  if x.length = y.length then some (List.zipWith (fun xi yi => yi + alpha * xi) x y) else none

/-- The call `blas64.Dot(x, y)`. -/
def blasDot {F : Type} [LinearOrderedField F] (x y : List F) : Option F :=
  if x.length = y.length then some (List.zipWith (fun xi yi => xi * yi) x y).sum else none

/-- The call `blas64.Scal(alpha, x)`: the new content of `x`. -/
def blasScal {F : Type} [LinearOrderedField F] (alpha : F) (x : List F) : List F :=
  x.map (fun xi => alpha * xi)

/-- The call `blas64.Nrm2(x)`: the Euclidean norm. -/
def blasNrm2 {F : Type} [LinearOrderedField F] (sqrt : F → F) (x : List F) : F :=
  sqrt (x.map (fun xi => xi * xi)).sum

/-! ## Package `lsh` (`lsh/lsh/lsh.go`) -/

namespace lsh

/-- Go `Plane`: coefficients and offset. -/
structure Plane (F : Type) where
  Coefs : List F
  D : F

/-- Go `HasherInstance`. -/
structure HasherInstance (F : Type) where
  Planes : List (Plane F)

/-- Go `Config`. -/
structure Config (F : Type) where
  IsAngularDistance : Int
  NPermutes : Int
  NPlanes : Int
  BiasMultiplier : F
  DistanceThrsh : F
  Dims : Int
  Bias : F
  MeanVec : List F

/-- Go `Hasher` (without its mutex). -/
structure Hasher (F : Type) where
  Config : Config F
  Instances : List (HasherInstance F)
  HashFieldsNames : List String

/-- The loop of `HasherInstance.GetHash` over the planes still to visit, with
the loop index `i`, the scratch vector `vec` and the code built so far. -/
def getHashLoop {F : Type} [LinearOrderedField F] (shiftedVec : List F) :
    List (Plane F) → Nat → List F → Nat → Option Nat
  | [], _, _, hash => some hash
  | plane :: rest, i, vec, hash =>
    (blasCopy shiftedVec vec).bind fun vec1 =>
    (blasDot vec1 plane.Coefs).bind fun dot =>
    let dp := dot - plane.D
    let dpSign := Signbit dp
    getHashLoop shiftedVec rest (i + 1) vec1 (if !dpSign then setBit64 hash i else hash)

/-- Go `HasherInstance.GetHash`. -/
def HasherInstance.GetHash {F : Type} [LinearOrderedField F]
    (lshInstance : HasherInstance F) (inpVec meanVec : List F) : Option Nat :=
  (blasCopy inpVec (List.replicate inpVec.length (0 : F))).bind fun shiftedVec0 =>
  (blasAxpy (-1) meanVec shiftedVec0).bind fun shiftedVec =>
  getHashLoop shiftedVec lshInstance.Planes 0 (List.replicate inpVec.length (0 : F)) 0

/-- Go `NewLSHIndex`. -/
def NewLSHIndex {F : Type} (config : Config F) : Option (Hasher F) :=
  if 0 ≤ config.NPermutes then
    some { Config := config
           Instances := List.replicate config.NPermutes.toNat { Planes := [] }
           HashFieldsNames := List.replicate config.NPermutes.toNat "" }
  else none

/-- Go `Hasher.getRandomPlane`: the `Dims + 1` coefficients and the random
source after the draws. -/
def Hasher.getRandomPlane {F : Type} [LinearOrderedField F] (sqrt : F → F)
    (lshIndex : Hasher F) (rnd : Rand F) : Option (List F × Rand F) :=
  (makeSlice (lshIndex.Config.Dims + 1)).bind fun coefs0 =>
  (forRange lshIndex.Config.Dims.toNat (fun i (st : List F × F × Rand F) =>
      let draw := Float64 st.2.2
      (setIdx st.1 i (-1 + draw.1 * 2)).bind fun coefs =>
      coefs[i]?.bind fun ci =>
      some (coefs, st.2.1 + ci * ci, draw.2)) (coefs0, 0, rnd)).bind fun st =>
  let l2 := sqrt st.2.1
  let bias := l2 * lshIndex.Config.Bias
  let draw := Float64 st.2.2
  (setIdxInt st.1 ((st.1.length : Int) - 1) (-1 * bias + draw.1 * bias * 2)).bind fun coefs =>
  some (coefs, draw.2)

/-- The loop of `Hasher.newHasherInstance` over the planes still to generate. -/
def newHasherInstanceLoop {F : Type} [LinearOrderedField F] (sqrt : F → F)
    (lshIndex : Hasher F) : Nat → HasherInstance F → Rand F → Option (HasherInstance F)
  | 0, lshInstance, _ => some lshInstance
  | n + 1, lshInstance, rnd =>
    (Hasher.getRandomPlane sqrt lshIndex rnd).bind fun res =>
    let coefs := res.1
    (sliceTo coefs ((coefs.length : Int) - 1)).bind fun c =>
    (idxInt coefs ((coefs.length : Int) - 1)).bind fun d =>
    newHasherInstanceLoop sqrt lshIndex n
      { Planes := lshInstance.Planes ++ [{ Coefs := c, D := d }] } res.2

/-- Go `Hasher.newHasherInstance`; `rnd` is the source as `rand.Seed` leaves
it.  The result is the instance and the error (`none` for `nil`). -/
def Hasher.newHasherInstance {F : Type} [LinearOrderedField F] (sqrt : F → F)
    (lshIndex : Hasher F) (rnd : Rand F) : Option (HasherInstance F × Option String) :=
  if lshIndex.Config.Dims ≤ 0 then
    some ({ Planes := [] }, some "dimensions number must be a positive integer")
  else
    (newHasherInstanceLoop sqrt lshIndex lshIndex.Config.NPlanes.toNat { Planes := [] } rnd).bind
      fun lshInstance => some (lshInstance, none)

/-- The loop of `Hasher.Generate`: `n` permutations still to create, the next
one has index `i`; `seeded i` is the random source after the `rand.Seed` call
of permutation `i`. -/
def generateLoop {F : Type} [LinearOrderedField F] (sqrt : F → F) (seeded : Nat → Rand F) :
    Nat → Nat → Hasher F → Option (Hasher F × Option String)
  | 0, _, lshIndex => some (lshIndex, none)
  | n + 1, i, lshIndex =>
    match Hasher.newHasherInstance sqrt lshIndex (seeded i) with
    | none => none
    | some (_, some err) => some (lshIndex, some err)
    | some (tmpLSHIndex, none) =>
      (setIdx lshIndex.Instances i tmpLSHIndex).bind fun instances =>
      (setIdx lshIndex.HashFieldsNames i (toString i)).bind fun names =>
      generateLoop sqrt seeded n (i + 1)
        { lshIndex with Instances := instances, HashFieldsNames := names }

/-- Go `Hasher.Generate`: the hasher after the call and the returned error
(`none` for `nil`). -/
def Hasher.Generate {F : Type} [LinearOrderedField F] (sqrt : F → F) (seeded : Nat → Rand F)
    (lshIndex : Hasher F) (convMean convStd : List F) : Option (Hasher F × Option String) :=
  let convStd1 := if lshIndex.Config.IsAngularDistance = 1 then blasScal 0 convStd else convStd
  let lshIndex1 : Hasher F := { lshIndex with Config := { lshIndex.Config with MeanVec := convMean } }
  let lshIndex2 : Hasher F :=
    { lshIndex1 with
      Config := { lshIndex1.Config with Bias := blasNrm2 sqrt convStd1 * lshIndex1.Config.BiasMultiplier } }
  generateLoop sqrt seeded lshIndex2.Config.NPermutes.toNat 0 lshIndex2

/-- The goroutines of `Hasher.GetHashes`, run one after the other in the order
`schedule` of their indices: each one holds the lock of the map while it
computes the code of its instance and stores it under its index.  The map
`map[int]uint64` is a function from the key to the value, `none` for an absent
key. -/
def getHashesSteps {F : Type} [LinearOrderedField F] (lshIndex : Hasher F) (vec : List F) :
    List Nat → (Nat → Option Nat) → Option (Nat → Option Nat)
  | [], v => some v
  | i :: rest, v =>
    lshIndex.Instances[i]?.bind fun lshInstance =>
    (lshInstance.GetHash vec lshIndex.Config.MeanVec).bind fun hash =>
    getHashesSteps lshIndex vec rest (fun k => if k = i then some hash else v k)

/-- Go `Hasher.GetHashes`: the map returned after `wg.Wait()`, when the
goroutines take the lock in the order `schedule` (a permutation of the indices
of `Instances`). -/
def Hasher.GetHashes {F : Type} [LinearOrderedField F] (lshIndex : Hasher F) (vec : List F)
    (schedule : List Nat) : Option (Nat → Option Nat) :=
  getHashesSteps lshIndex vec schedule (fun _ => none)

/-- Modelled from the spec: `cm.IsZeroVector`, which "returns true when every
component is exactly 0.0". -/
def cmIsZeroVector {F : Type} [LinearOrderedField F] (v : List F) : Bool :=
  v.all fun x => decide (x = 0)

/-- Modelled from the spec: `cm.CosineSim`, "cosine similarity defined as
`1 − (a·b)/(‖a‖·‖b‖)`". -/
def cmCosineSim {F : Type} [LinearOrderedField F] (sqrt : F → F) (a b : List F) : F :=
  1 - (List.zipWith (fun x y => x * y) a b).sum
    / (sqrt (a.map fun x => x * x).sum * sqrt (b.map fun x => x * x).sum)

/-- Modelled from the spec: `cm.L2`, the Euclidean distance `‖a−b‖₂`. -/
def cmL2 {F : Type} [LinearOrderedField F] (sqrt : F → F) (a b : List F) : F :=
  sqrt (List.zipWith (fun x y => (x - y) * (x - y)) a b).sum

/-- Go `Hasher.GetDist`: the distance and the flag. -/
def Hasher.GetDist {F : Type} [LinearOrderedField F] (sqrt : F → F) (lshIndex : Hasher F)
    (lv rv : List F) : F × Bool :=
  if lshIndex.Config.IsAngularDistance = 1 then
    if cmIsZeroVector lv || cmIsZeroVector rv then (1, false)
    else
      let dist := cmCosineSim sqrt lv rv
      if dist ≤ lshIndex.Config.DistanceThrsh then (dist, true) else (dist, false)
  else
    let dist := cmL2 sqrt lv rv
    if dist ≤ lshIndex.Config.DistanceThrsh then (dist, true) else (dist, false)

/-- Decoding of a `Plane` into the plane `recv`. -/
def gobDecodePlane {F : Type} [LinearOrderedField F] (sent recv : Plane F) : Plane F :=
  { Coefs := gobBasicSlice 0 sent.Coefs recv.Coefs
    D := gobField 0 sent.D recv.D }

/-- Decoding of a `HasherInstance` into the instance `recv`. -/
def gobDecodeInstance {F : Type} [LinearOrderedField F] (sent recv : HasherInstance F) :
    HasherInstance F :=
  { Planes := gobSlice gobDecodePlane { Coefs := [], D := 0 } sent.Planes recv.Planes }

/-- Decoding of a `Config` into the configuration `recv`. -/
def gobDecodeConfig {F : Type} [LinearOrderedField F] (sent recv : Config F) : Config F :=
  { IsAngularDistance := gobField 0 sent.IsAngularDistance recv.IsAngularDistance
    NPermutes := gobField 0 sent.NPermutes recv.NPermutes
    NPlanes := gobField 0 sent.NPlanes recv.NPlanes
    BiasMultiplier := gobField 0 sent.BiasMultiplier recv.BiasMultiplier
    DistanceThrsh := gobField 0 sent.DistanceThrsh recv.DistanceThrsh
    Dims := gobField 0 sent.Dims recv.Dims
    Bias := gobField 0 sent.Bias recv.Bias
    MeanVec := gobBasicSlice 0 sent.MeanVec recv.MeanVec }

/-- The call `dec.Decode(&lshIndex)` on the stream of the hasher `sent`: the
exported fields `Config`, `Instances` and `HashFieldsNames` are decoded into
the receiver (the unexported `mutex` is never transmitted). -/
def gobDecodeHasher {F : Type} [LinearOrderedField F] (sent recv : Hasher F) : Hasher F :=
  { Config := gobDecodeConfig sent.Config recv.Config
    Instances := gobSlice gobDecodeInstance { Planes := [] } sent.Instances recv.Instances
    HashFieldsNames := gobBasicSlice "" sent.HashFieldsNames recv.HashFieldsNames }

/-- Go `Hasher.Dump`: the bytes (`none` for `nil`) and the error (`none` for
`nil`).  `enc.Encode` does not fail on a `Hasher`. -/
def Hasher.Dump {F : Type} (lshIndex : Hasher F) :
    Option (GobBytes (Hasher F)) × Option String :=
  if lshIndex.Instances.length = 0 then
    (none, some "search index must contain at least one object")
  else (some (GobBytes.stream lshIndex), none)

/-- Go `Hasher.Load`: the receiver after the call and the error. -/
def Hasher.Load {F : Type} [LinearOrderedField F] (lshIndex : Hasher F)
    (inp : GobBytes (Hasher F)) : Hasher F × Option String :=
  match inp with
  | GobBytes.stream w => (gobDecodeHasher w lshIndex, none)
  | GobBytes.malformed err => (lshIndex, some err)

end lsh

/-! ## Package `algorithm` (`algorithm/algorithm.go`) -/

namespace algorithm

/-- Go `Vector`: the values and the recorded size. -/
structure Vector (F : Type) where
  Values : List F
  Size : Int

/-- Go `Plane` of package `algorithm`: all `dims + 1` coefficients and a point
of the plane. -/
structure Plane (F : Type) where
  Coefs : Vector F
  InnerPoint : Vector F

/-- Go `LSHIndex`. -/
structure LSHIndex (F : Type) where
  dims : Int
  nPlanes : Int
  bias : F
  Planes : List (Plane F)
  MeanVec : Vector F

/-- Go `NewVector`. -/
def NewVector {F : Type} (inpVec : List F) : Vector F :=
  { Values := inpVec, Size := inpVec.length }

/-- Go `Vector.Add`. -/
def Vector.Add {F : Type} [LinearOrderedField F] (vec rvec : Vector F) : Option (Vector F) :=
  (makeSlice vec.Size).bind fun buf =>
  let sum := NewVector buf
  (forRange vec.Values.length (fun i vals =>
      vec.Values[i]?.bind fun a =>
      rvec.Values[i]?.bind fun b =>
      setIdx vals i (a + b)) sum.Values).bind fun vals =>
  some { sum with Values := vals }

/-- Go `Vector.ConstMul`. -/
def Vector.ConstMul {F : Type} [LinearOrderedField F] (vec : Vector F) (constant : F) :
    Option (Vector F) :=
  (makeSlice vec.Size).bind fun buf =>
  let newVec := NewVector buf
  (forRange vec.Values.length (fun i vals =>
      vec.Values[i]?.bind fun a =>
      setIdx vals i (a * constant)) newVec.Values).bind fun vals =>
  some { newVec with Values := vals }

/-- Go `Vector.DotProd`. -/
def Vector.DotProd {F : Type} [LinearOrderedField F] (vec inpVec : Vector F) : Option F :=
  forRange vec.Values.length (fun i dp =>
      vec.Values[i]?.bind fun a =>
      inpVec.Values[i]?.bind fun b =>
      some (dp + a * b)) 0

/-- Go `Vector.L2`. -/
def Vector.L2 {F : Type} [LinearOrderedField F] (sqrt : F → F) (vec inpVec : Vector F) :
    Option F :=
  (forRange vec.Values.length (fun i l2 =>
      vec.Values[i]?.bind fun a =>
      inpVec.Values[i]?.bind fun b =>
      let diff := a - b
      some (l2 + diff * diff)) 0).bind fun l2 =>
  some (sqrt l2)

/-- Go `Vector.CosineSim`. -/
def Vector.CosineSim {F : Type} [LinearOrderedField F] (sqrt : F → F) (vec inpVec : Vector F) :
    Option F :=
  (makeSlice vec.Size).bind fun zeros =>
  let zeroVec : Vector F := { Values := zeros, Size := 0 }
  (vec.DotProd inpVec).bind fun dp =>
  (vec.L2 sqrt zeroVec).bind fun n1 =>
  (inpVec.L2 sqrt zeroVec).bind fun n2 =>
  let cosine := dp / (n1 * n2)
  some cosine

/-- Go `GetPointPlaneDist`. -/
def GetPointPlaneDist {F : Type} [LinearOrderedField F] (planeCoefs : Vector F) :
    Option (Vector F) :=
  (makeSlice (planeCoefs.Size - 1)).bind fun values =>
  (idxInt planeCoefs.Values (planeCoefs.Size - 1)).bind fun dCoef =>
  (forRange values.length (fun i denom =>
      planeCoefs.Values[i]?.bind fun c => some (denom + c * c)) 0).bind fun denom =>
  (forRange values.length (fun i vals =>
      planeCoefs.Values[i]?.bind fun c => setIdx vals i (c * dCoef / denom)) values).bind
    fun values1 =>
  some { Values := values1, Size := values1.length }

/-- The plane that `LSHIndex.Build` appends for the coefficients `coefs`:
`Plane{Coefs: coefs, InnerPoint: GetPointPlaneDist(coefs)}`. -/
def newPlane {F : Type} [LinearOrderedField F] (coefs : Vector F) : Option (Plane F) :=
  (GetPointPlaneDist coefs).bind fun point => some { Coefs := coefs, InnerPoint := point }

/-- Go `LSHIndex.GetHash`. -/
def LSHIndex.GetHash {F : Type} [LinearOrderedField F] (lsh : LSHIndex F) (inpVec : Vector F) :
    Option Nat :=
  forRange lsh.nPlanes.toNat (fun i hash =>
      lsh.Planes[i]?.bind fun plane =>
      (lsh.MeanVec.ConstMul (-1)).bind fun negMean =>
      (inpVec.Add negMean).bind fun vec0 =>
      (plane.InnerPoint.ConstMul (-1)).bind fun negPoint =>
      (vec0.Add negPoint).bind fun vec =>
      (vec.DotProd plane.Coefs).bind fun dp =>
      let dpSign := Signbit dp
      some (if !dpSign then setBit64 hash i else hash)) 0

/-- Go `LSHIndex.getRandomPlane`: the `dims + 1` coefficients and the random
source after the draws. -/
def LSHIndex.getRandomPlane {F : Type} [LinearOrderedField F] (sqrt : F → F)
    (lsh : LSHIndex F) (rnd : Rand F) : Option (Vector F × Rand F) :=
  (makeSlice (lsh.dims + 1)).bind fun buf =>
  let coefs0 : Vector F := { Values := buf, Size := lsh.dims + 1 }
  (forRange lsh.dims.toNat (fun i (st : List F × F × Rand F) =>
      let draw := Float64 st.2.2
      (setIdx st.1 i (-1 + draw.1 * 2)).bind fun vals =>
      vals[i]?.bind fun ci =>
      some (vals, st.2.1 + ci * ci, draw.2)) (coefs0.Values, 0, rnd)).bind fun st =>
  let l2 := sqrt st.2.1
  let bias := l2 * lsh.bias
  let draw := Float64 st.2.2
  (setIdxInt st.1 (coefs0.Size - 1) (-1 * bias + draw.1 * bias * 2)).bind fun vals =>
  some ({ coefs0 with Values := vals }, draw.2)

/-- The part of an `LSHIndex` that gob transmits: its exported fields `Planes`
and `MeanVec`; the fields `dims`, `nPlanes` and `bias` are unexported. -/
structure LSHIndexGob (F : Type) where
  Planes : List (Plane F)
  MeanVec : Vector F

/-- The files of the disk: the content of each path that exists. -/
abbrev Disk (F : Type) := String → Option (GobBytes (LSHIndexGob F))

/-- Decoding of a `Vector` into the vector `recv`. -/
def gobDecodeVector {F : Type} [LinearOrderedField F] (sent recv : Vector F) : Vector F :=
  { Values := gobBasicSlice 0 sent.Values recv.Values
    Size := gobField 0 sent.Size recv.Size }

/-- Decoding of a `Plane` into the plane `recv`. -/
def gobDecodePlane {F : Type} [LinearOrderedField F] (sent recv : Plane F) : Plane F :=
  { Coefs := gobDecodeVector sent.Coefs recv.Coefs
    InnerPoint := gobDecodeVector sent.InnerPoint recv.InnerPoint }

/-- Go `LSHIndex.Dump`: the disk after the call and the error; creating,
writing and syncing the file succeed. -/
def LSHIndex.Dump {F : Type} (lsh : LSHIndex F) (path : String) (disk : Disk F) :
    Disk F × Option String :=
  (fun p => if p = path then
      some (GobBytes.stream { Planes := lsh.Planes, MeanVec := lsh.MeanVec })
    else disk p, none)

/-- Go `LSHIndex.Load`: the receiver after the call and the error. -/
def LSHIndex.Load {F : Type} [LinearOrderedField F] (lsh : LSHIndex F) (path : String)
    (disk : Disk F) : LSHIndex F × Option String :=
  match disk path with
  | none => (lsh, some "open: no such file or directory")
  | some (GobBytes.malformed err) => (lsh, some err)
  | some (GobBytes.stream w) =>
    ({ lsh with
        Planes := gobSlice gobDecodePlane
          { Coefs := { Values := [], Size := 0 }, InnerPoint := { Values := [], Size := 0 } }
          w.Planes lsh.Planes
        MeanVec := gobDecodeVector w.MeanVec lsh.MeanVec }, none)

end algorithm

/-! ## Neighbors, `lsh.FloatMinHeap` and the Go standard library `container/heap` -/

namespace annbench

/-- Go `lsh.Record`, as `annbench.go` builds it. -/
structure Record (F : Type) where
  ID : String
  Vec : List F

/-- Go `lsh.Neighbor`, as `annbench.go` builds it: the embedded record and the
distance. -/
structure Neighbor (F : Type) where
  Record : annbench.Record F
  Dist : F

/-- Modelled from the spec: `lsh.FloatMinHeap`, the slice of neighbors that
implements `heap.Interface` as "a min-heap ordered by `dist`". -/
abbrev FloatMinHeap (F : Type) := List (Neighbor F)

/-- Modelled from the spec: `FloatMinHeap.Less`, `h[i].Dist < h[j].Dist`. -/
def FloatMinHeap.Less {F : Type} [LinearOrder F] (h : FloatMinHeap F) (i j : Nat) : Option Bool :=
  h[i]?.bind fun a => h[j]?.bind fun b => some (decide (a.Dist < b.Dist))

/-- Modelled from the spec: `FloatMinHeap.Swap`, `h[i], h[j] = h[j], h[i]`. -/
def FloatMinHeap.Swap {F : Type} (h : FloatMinHeap F) (i j : Nat) : Option (FloatMinHeap F) :=
  h[i]?.bind fun a => h[j]?.bind fun b => some ((h.set i b).set j a)

/-- Modelled from the spec: `FloatMinHeap.Push`, an append. -/
def FloatMinHeap.Push {F : Type} (h : FloatMinHeap F) (x : Neighbor F) : FloatMinHeap F :=
  h ++ [x]

/-- Modelled from the spec: `FloatMinHeap.Pop`, which removes and returns the
last element. -/
def FloatMinHeap.Pop {F : Type} (h : FloatMinHeap F) : Option (FloatMinHeap F × Neighbor F) :=
  h.getLast?.bind fun x => some (h.dropLast, x)

/-- Go `heap.up(h, j)`.  The loop runs at most `j + 1` times; `fuel` bounds it. -/
def up {F : Type} [LinearOrder F] : Nat → FloatMinHeap F → Nat → Option (FloatMinHeap F)
  | 0, _, _ => none
  | fuel + 1, h, j =>
    let i := (j - 1) / 2
    if i = j then some h
    else
      (h.Less j i).bind fun lt =>
      if !lt then some h
      else (h.Swap i j).bind fun h1 => up fuel h1 i

/-- Go `heap.down(h, i, n)` (its boolean result is not used by `Push` and
`Pop`).  The loop runs at most `n + 1` times; `fuel` bounds it. -/
def down {F : Type} [LinearOrder F] : Nat → FloatMinHeap F → Nat → Nat → Option (FloatMinHeap F)
  | 0, _, _, _ => none
  | fuel + 1, h, i, n =>
    let j1 := 2 * i + 1
    if n ≤ j1 then some h
    else
      let j2 := j1 + 1
      (if j2 < n then h.Less j2 j1 else some false).bind fun right =>
      let j := if right then j2 else j1
      (h.Less j i).bind fun lt =>
      if !lt then some h
      else (h.Swap i j).bind fun h1 => down fuel h1 j n

/-- Go `heap.Push(h, x)`. -/
def heapPush {F : Type} [LinearOrder F] (h : FloatMinHeap F) (x : Neighbor F) :
    Option (FloatMinHeap F) :=
  let h1 := h.Push x
  up h1.length h1 (h1.length - 1)

/-- Go `heap.Pop(h)`: the heap after the call and the removed element. -/
def heapPop {F : Type} [LinearOrder F] (h : FloatMinHeap F) :
    Option (FloatMinHeap F × Neighbor F) :=
  if h.length = 0 then none
  else
    let n := h.length - 1
    (h.Swap 0 n).bind fun h1 =>
    (down (n + 1) h1 0 n).bind fun h2 =>
    h2.Pop

/-! ## Package `annbench` (`annbench/annbench.go`) -/

/-- Modelled from the spec: the state of a `store.Store` (§4.5): the vector of
each id, the set of ids of each bucket, and the order in which an iterator
yields a bucket ("not specified"). -/
structure Store (F : Type) where
  vectors : String → Option (List F)
  buckets : String → List String
  iterOrder : List String → List String

/-- Modelled from the spec: `Clear()`, "drop everything". -/
def Store.Clear {F : Type} (s : Store F) : Store F × Option String :=
  ({ s with vectors := fun _ => none, buckets := fun _ => [] }, none)

/-- Modelled from the spec: `SetVector(id, vec)`, "insert or replace". -/
def Store.SetVector {F : Type} (s : Store F) (id : String) (vec : List F) : Store F :=
  { s with vectors := fun k => if k = id then some vec else s.vectors k }

/-- Modelled from the spec: `SetHash(table, id)`, "add id to the set at
(table); idempotent". -/
def Store.SetHash {F : Type} (s : Store F) (table id : String) : Store F :=
  { s with
    buckets := fun t =>
      if t = table then (if id ∈ s.buckets t then s.buckets t else s.buckets t ++ [id])
      else s.buckets t }

/-- Modelled from the spec: `GetVector(id) → vec | NotFound`. -/
def Store.GetVector {F : Type} (s : Store F) (id : String) : Except String (List F) :=
  match s.vectors id with
  | some vec => .ok vec
  | none => .error "not found"

/-- Modelled from the spec: `GetHashIterator(table)`, the sequence of ids that
the iterator yields through `Next()`. -/
def Store.GetHashIterator {F : Type} (s : Store F) (table : String) : List String :=
  s.iterOrder (s.buckets table)

/-- Go `lsh.Metric`, as `annbench.go` uses it; `GetDist` is `none` when the
computation panics. -/
structure Metric (F : Type) where
  GetDist : List F → List F → Option F
  IsAngular : Bool

/-- Modelled from the spec: `lsh.NewL2()`, the Euclidean metric `‖a − b‖₂`,
computed by `Vector.L2` of `algorithm.go`. -/
def NewL2 {F : Type} [LinearOrderedField F] (sqrt : F → F) : Metric F :=
  { GetDist := fun a b => (algorithm.NewVector a).L2 sqrt (algorithm.NewVector b)
    IsAngular := false }

/-- Go `NNMock` (without its mutex). -/
structure NNMock (F : Type) where
  index : Store F
  distanceMetric : Metric F
  MaxCandidates : Int

/-- Go `NewNNMock`. -/
def NewNNMock {F : Type} (maxCandidates : Int) (store : Store F) (metric : Metric F) : NNMock F :=
  { index := store, distanceMetric := metric, MaxCandidates := maxCandidates }

/-- Go `NNMock.Train`: the mock after the call and the returned error. -/
def NNMock.Train {F : Type} (nn : NNMock F) (records : List (Record F)) :
    NNMock F × Option String :=
  match nn.index.Clear with
  | (store, some err) => ({ nn with index := store }, some err)
  | (store, none) =>
    ({ nn with
       index := records.foldl (fun st rec => (st.SetVector rec.ID rec.Vec).SetHash "0" rec.ID)
         store }, none)

/-- The local state of the gathering loop of `NNMock.Search`.  `examined` is a
ghost log, absent from the Go code and never read by the loop: the candidates
for which a vector was fetched and a distance computed, latest first. -/
structure SearchState (F : Type) where
  closestSet : List String
  minHeap : FloatMinHeap F
  examined : List (Neighbor F)

/-- The gathering loop of `NNMock.Search` over the ids that the iterator still
has to yield: the final state, or the error returned from inside the loop. -/
def searchLoop {F : Type} [LinearOrder F] (nn : NNMock F) (maxCandidates : Int)
    (query : List F) (distanceThrsh : WithTop F) :
    List String → SearchState F → Option (Except String (SearchState F))
  | [], st => some (.ok st)
  | id :: rest, st =>
    if maxCandidates ≤ (st.minHeap.length : Int) then some (.ok st)
    else if id ∈ st.closestSet then searchLoop nn maxCandidates query distanceThrsh rest st
    else
      match nn.index.GetVector id with
      | .error err => some (.error err)
      | .ok vec =>
        (nn.distanceMetric.GetDist vec query).bind fun dist =>
        if (dist : WithTop F) ≤ distanceThrsh then
          (heapPush st.minHeap { Record := { ID := id, Vec := vec }, Dist := dist }).bind fun h =>
          searchLoop nn maxCandidates query distanceThrsh rest
            { closestSet := id :: st.closestSet, minHeap := h,
              examined := { Record := { ID := id, Vec := vec }, Dist := dist } :: st.examined }
        else searchLoop nn maxCandidates query distanceThrsh rest
          { st with examined := { Record := { ID := id, Vec := vec }, Dist := dist } :: st.examined }

/-- The final loop of `NNMock.Search`, `for i := 0; i < maxNN && minHeap.Len() > 0; i++`,
with `n` iterations of the counter left. -/
def popLoop {F : Type} [LinearOrder F] :
    Nat → FloatMinHeap F → List (Neighbor F) → Option (List (Neighbor F))
  | 0, _, closest => some closest
  | n + 1, minHeap, closest =>
    if 0 < minHeap.length then
      (heapPop minHeap).bind fun res => popLoop n res.1 (closest ++ [res.2])
    else some closest

/-- Go `NNMock.Search`: the returned list and error (`none` for `nil`). -/
def NNMock.Search {F : Type} [LinearOrder F] (nn : NNMock F) (query : List F) (maxNN : Int)
    (distanceThrsh : WithTop F) : Option (List (Neighbor F) × Option String) :=
  let maxCandidates := nn.MaxCandidates
  let iter := nn.index.GetHashIterator "0"
  (searchLoop nn maxCandidates query distanceThrsh iter
      { closestSet := [], minHeap := [], examined := [] }).bind
    fun res =>
    match res with
    | .error err => some ([], some err)
    | .ok st => (popLoop maxNN.toNat st.minHeap []).bind fun closest => some (closest, none)

/-- Go `PrecisionRecall`: the precision and the recall, in this order (the
Go variable `recall` is named `recallValue` here). -/
def PrecisionRecall {F : Type} [LinearOrderedField F] (prediction groundTruth : List Int) :
    F × F :=
  let gtSet : Int → Bool :=
    groundTruth.foldl (fun m gt => fun k => if k = gt then true else m k) (fun _ => false)
  let valid : Int := prediction.foldl (fun valid val => if gtSet val then valid + 1 else valid) 0
  let validFloat : F := (valid : F)
  let precision : F :=
    if 0 < prediction.length then validFloat / (prediction.length : F) else 0
  let recallValue : F := validFloat / (groundTruth.length : F)
  (precision, recallValue)

end annbench

/-! ## float64 arithmetic

The definitions above compute with exact numbers.  The namespace `fp` below
embeds the same functions over the float64 operations themselves, of which
nothing is assumed: every result may be rounded. -/

/-- The float64 operations that the code uses: the constants, `+`, `-`, `*`,
`/`, `math.Sqrt` and `math.Signbit`. -/
structure FloatOps (F : Type) where
  ofInt : Int → F
  add : F → F → F
  sub : F → F → F
  mul : F → F → F
  div : F → F → F
  sqrt : F → F
  signbit : F → Bool

/-- Exact arithmetic: the operations of an ordered field, with `sqrt` for the
square root. -/
def exactOps {F : Type} [LinearOrderedField F] (sqrt : F → F) : FloatOps F :=
  { ofInt := fun n => (n : F)
    add := fun a b => a + b
    sub := fun a b => a - b
    mul := fun a b => a * b
    div := fun a b => a / b
    sqrt := sqrt
    signbit := fun a => decide (a < 0) }

/-- Rounded arithmetic: the exact result of each operation, rounded by `fl`
to a representable number. -/
def roundedOps {F : Type} [LinearOrderedField F] (fl : F → F) (sqrt : F → F) : FloatOps F :=
  { ofInt := fun n => fl (n : F)
    add := fun a b => fl (a + b)
    sub := fun a b => fl (a - b)
    mul := fun a b => fl (a * b)
    div := fun a b => fl (a / b)
    sqrt := sqrt
    signbit := fun a => decide (a < 0) }

/-! ### IEEE 754 binary64, round to nearest even

A finite float64 value is an integer multiple of `2 ^ (-1074)`; it is held as
this integer.  Overflow, infinities, NaN, division by zero and the sign of
zero are outside the model. -/

namespace binary64

/-- The nearest natural number to `n / d`, the even one of two nearest. -/
def roundHalfEven (n d : Nat) : Nat :=
  let q := n / d
  let r := n % d
  if 2 * r < d then q else if d < 2 * r then q + 1 else if q % 2 = 0 then q else q + 1

/-- The number of binary digits of `t` beyond the 53 of a significand. -/
def excessBits : Nat → Nat → Nat
  | 0, _ => 0
  | fuel + 1, t => if t < 2 ^ 53 then 0 else excessBits fuel (t / 2) + 1

/-- The float64 nearest to `n / d` units, for naturals. -/
def roundUnits (n d : Nat) : Nat :=
  let s := excessBits 2200 (n / d)
  roundHalfEven n (d * 2 ^ s) * 2 ^ s

/-- The float64 nearest to `n / d` units. -/
def round (n : Int) (d : Nat) : Int :=
  if 0 ≤ n then (roundUnits n.toNat d : Int) else -(roundUnits (-n).toNat d : Int)

/-- The number of units in 1. -/
def one : Nat := 2 ^ 1074

/-- The float64 value `m * 2 ^ e`, for `-1074 ≤ e` and `m` of at most 53 bits. -/
def lit (m e : Int) : Int := m * ((2 ^ (1074 + e).toNat : Nat) : Int)

/-- The float64 nearest to the integer `n`. -/
def ofInt (n : Int) : Int := round (n * (one : Int)) 1

/-- Newton iteration for the integer square root of `n`, from `x ≥ √n`. -/
def sqrtIter : Nat → Nat → Nat → Nat
  | 0, _, x => x
  | fuel + 1, n, x =>
    let y := (x + n / x) / 2
    if y < x then sqrtIter fuel n y else x

/-- The integer square root `⌊√n⌋`. -/
def natSqrt (n : Nat) : Nat :=
  if n = 0 then 0 else sqrtIter 2200 n (2 ^ ((excessBits 2200 n + 53) / 2 + 1))

/-- The float64 nearest to the square root of `a` units. -/
def sqrt (a : Int) : Int :=
  let n := a.toNat * one
  let s := natSqrt n
  if s * s = n then round s 1 else round (2 * s + 1) 2

/-- The operations of IEEE 754 binary64. -/
def ops : FloatOps Int :=
  { ofInt := ofInt
    add := fun a b => round (a + b) 1
    sub := fun a b => round (a - b) 1
    mul := fun a b => round (a * b) one
    div := fun a b => if 0 < b then round (a * (one : Int)) b.toNat
                      else round (-(a * (one : Int))) (-b).toNat
    sqrt := sqrt
    signbit := fun a => decide (a < 0) }

/-- The exact value of a float64. -/
def toRat (a : Int) : ℚ := (a : ℚ) / (2 : ℚ) ^ 1074

end binary64

namespace fp

/-- Go `make([]float64, n)`. -/
def makeSlice {F : Type} (ops : FloatOps F) (n : Int) : Option (List F) :=
  if 0 ≤ n then some (List.replicate n.toNat (ops.ofInt 0)) else none

/-- The call `blas64.Axpy(alpha, x, y)`: `y[i] += alpha * x[i]`. -/
def blasAxpy {F : Type} (ops : FloatOps F) (alpha : F) (x y : List F) : Option (List F) :=
  if x.length = y.length then
    some (List.zipWith (fun xi yi => ops.add yi (ops.mul alpha xi)) x y)
  else none

/-- The call `blas64.Dot(x, y)`: `sum += y[i] * x[i]` in index order, from 0. -/
def blasDot {F : Type} (ops : FloatOps F) (x y : List F) : Option F :=
  if x.length = y.length then
    some ((List.zipWith (fun xi yi => ops.mul yi xi) x y).foldl ops.add (ops.ofInt 0))
  else none

namespace lsh

open VectorSearch.lsh

/-- The loop of `HasherInstance.GetHash` over float64. -/
def getHashLoop {F : Type} (ops : FloatOps F) (shiftedVec : List F) :
    List (Plane F) → Nat → List F → Nat → Option Nat
  | [], _, _, hash => some hash
  | plane :: rest, i, vec, hash =>
    (blasCopy shiftedVec vec).bind fun vec1 =>
    (blasDot ops vec1 plane.Coefs).bind fun dot =>
    let dp := ops.sub dot plane.D
    let dpSign := ops.signbit dp
    getHashLoop ops shiftedVec rest (i + 1) vec1 (if !dpSign then setBit64 hash i else hash)

/-- Go `HasherInstance.GetHash` over float64. -/
def HasherInstance.GetHash {F : Type} (ops : FloatOps F)
    (lshInstance : HasherInstance F) (inpVec meanVec : List F) : Option Nat :=
  (blasCopy inpVec (List.replicate inpVec.length (ops.ofInt 0))).bind fun shiftedVec0 =>
  (blasAxpy ops (ops.ofInt (-1)) meanVec shiftedVec0).bind fun shiftedVec =>
  getHashLoop ops shiftedVec lshInstance.Planes 0 (List.replicate inpVec.length (ops.ofInt 0)) 0

/-- Go `Hasher.getRandomPlane` over float64. -/
def Hasher.getRandomPlane {F : Type} (ops : FloatOps F)
    (lshIndex : Hasher F) (rnd : Rand F) : Option (List F × Rand F) :=
  (makeSlice ops (lshIndex.Config.Dims + 1)).bind fun coefs0 =>
  (forRange lshIndex.Config.Dims.toNat (fun i (st : List F × F × Rand F) =>
      let draw := Float64 st.2.2
      (setIdx st.1 i (ops.add (ops.ofInt (-1)) (ops.mul draw.1 (ops.ofInt 2)))).bind fun coefs =>
      coefs[i]?.bind fun ci =>
      some (coefs, ops.add st.2.1 (ops.mul ci ci), draw.2)) (coefs0, ops.ofInt 0, rnd)).bind
    fun st =>
  let l2 := ops.sqrt st.2.1
  let bias := ops.mul l2 lshIndex.Config.Bias
  let draw := Float64 st.2.2
  (setIdxInt st.1 ((st.1.length : Int) - 1)
      (ops.add (ops.mul (ops.ofInt (-1)) bias)
        (ops.mul (ops.mul draw.1 bias) (ops.ofInt 2)))).bind fun coefs =>
  some (coefs, draw.2)

end lsh

namespace algorithm

open VectorSearch.algorithm

/-- Go `Vector.Add` over float64. -/
def Vector.Add {F : Type} (ops : FloatOps F) (vec rvec : Vector F) : Option (Vector F) :=
  (makeSlice ops vec.Size).bind fun buf =>
  let sum := NewVector buf
  (forRange vec.Values.length (fun i vals =>
      vec.Values[i]?.bind fun a =>
      rvec.Values[i]?.bind fun b =>
      setIdx vals i (ops.add a b)) sum.Values).bind fun vals =>
  some { sum with Values := vals }

/-- Go `Vector.ConstMul` over float64. -/
def Vector.ConstMul {F : Type} (ops : FloatOps F) (vec : Vector F) (constant : F) :
    Option (Vector F) :=
  (makeSlice ops vec.Size).bind fun buf =>
  let newVec := NewVector buf
  (forRange vec.Values.length (fun i vals =>
      vec.Values[i]?.bind fun a =>
      setIdx vals i (ops.mul a constant)) newVec.Values).bind fun vals =>
  some { newVec with Values := vals }

/-- Go `Vector.DotProd` over float64. -/
def Vector.DotProd {F : Type} (ops : FloatOps F) (vec inpVec : Vector F) : Option F :=
  forRange vec.Values.length (fun i dp =>
      vec.Values[i]?.bind fun a =>
      inpVec.Values[i]?.bind fun b =>
      some (ops.add dp (ops.mul a b))) (ops.ofInt 0)

/-- Go `Vector.L2` over float64. -/
def Vector.L2 {F : Type} (ops : FloatOps F) (vec inpVec : Vector F) : Option F :=
  (forRange vec.Values.length (fun i l2 =>
      vec.Values[i]?.bind fun a =>
      inpVec.Values[i]?.bind fun b =>
      let diff := ops.sub a b
      some (ops.add l2 (ops.mul diff diff))) (ops.ofInt 0)).bind fun l2 =>
  some (ops.sqrt l2)

/-- Go `Vector.CosineSim` over float64. -/
def Vector.CosineSim {F : Type} (ops : FloatOps F) (vec inpVec : Vector F) : Option F :=
  (makeSlice ops vec.Size).bind fun zeros =>
  let zeroVec : Vector F := { Values := zeros, Size := 0 }
  (Vector.DotProd ops vec inpVec).bind fun dp =>
  (Vector.L2 ops vec zeroVec).bind fun n1 =>
  (Vector.L2 ops inpVec zeroVec).bind fun n2 =>
  let cosine := ops.div dp (ops.mul n1 n2)
  some cosine

/-- Go `GetPointPlaneDist` over float64. -/
def GetPointPlaneDist {F : Type} (ops : FloatOps F) (planeCoefs : Vector F) :
    Option (Vector F) :=
  (makeSlice ops (planeCoefs.Size - 1)).bind fun values =>
  (idxInt planeCoefs.Values (planeCoefs.Size - 1)).bind fun dCoef =>
  (forRange values.length (fun i denom =>
      planeCoefs.Values[i]?.bind fun c => some (ops.add denom (ops.mul c c)))
    (ops.ofInt 0)).bind fun denom =>
  (forRange values.length (fun i vals =>
      planeCoefs.Values[i]?.bind fun c =>
      setIdx vals i (ops.div (ops.mul c dCoef) denom)) values).bind fun values1 =>
  some { Values := values1, Size := values1.length }

/-- The plane that `LSHIndex.Build` appends for the coefficients `coefs`, over
float64. -/
def newPlane {F : Type} (ops : FloatOps F) (coefs : Vector F) : Option (Plane F) :=
  (GetPointPlaneDist ops coefs).bind fun point => some { Coefs := coefs, InnerPoint := point }

/-- Go `LSHIndex.GetHash` over float64. -/
def LSHIndex.GetHash {F : Type} (ops : FloatOps F) (lsh : LSHIndex F) (inpVec : Vector F) :
    Option Nat :=
  forRange lsh.nPlanes.toNat (fun i hash =>
      lsh.Planes[i]?.bind fun plane =>
      (Vector.ConstMul ops lsh.MeanVec (ops.ofInt (-1))).bind fun negMean =>
      (Vector.Add ops inpVec negMean).bind fun vec0 =>
      (Vector.ConstMul ops plane.InnerPoint (ops.ofInt (-1))).bind fun negPoint =>
      (Vector.Add ops vec0 negPoint).bind fun vec =>
      (Vector.DotProd ops vec plane.Coefs).bind fun dp =>
      let dpSign := ops.signbit dp
      some (if !dpSign then setBit64 hash i else hash)) 0

/-- Go `LSHIndex.getRandomPlane` over float64. -/
def LSHIndex.getRandomPlane {F : Type} (ops : FloatOps F)
    (lsh : LSHIndex F) (rnd : Rand F) : Option (Vector F × Rand F) :=
  (makeSlice ops (lsh.dims + 1)).bind fun buf =>
  let coefs0 : Vector F := { Values := buf, Size := lsh.dims + 1 }
  (forRange lsh.dims.toNat (fun i (st : List F × F × Rand F) =>
      let draw := Float64 st.2.2
      (setIdx st.1 i (ops.add (ops.ofInt (-1)) (ops.mul draw.1 (ops.ofInt 2)))).bind fun vals =>
      vals[i]?.bind fun ci =>
      some (vals, ops.add st.2.1 (ops.mul ci ci), draw.2)) (coefs0.Values, ops.ofInt 0, rnd)).bind
    fun st =>
  let l2 := ops.sqrt st.2.1
  let bias := ops.mul l2 lsh.bias
  let draw := Float64 st.2.2
  (setIdxInt st.1 (coefs0.Size - 1)
      (ops.add (ops.mul (ops.ofInt (-1)) bias)
        (ops.mul (ops.mul draw.1 bias) (ops.ofInt 2)))).bind fun vals =>
  some ({ coefs0 with Values := vals }, draw.2)

end algorithm

end fp

/-! ## Vocabulary of the statements -/

/-- The dot product `a · b` of two coordinate lists. -/
def dot {F : Type} [LinearOrderedField F] (a b : List F) : F :=
  (List.zipWith (fun x y => x * y) a b).sum

/-- The difference `a − b` of two coordinate lists. -/
def vsub {F : Type} [LinearOrderedField F] (a b : List F) : List F :=
  List.zipWith (fun x y => x - y) a b

/-- The vector `v` has dimension `D`: its recorded size and its number of
values are both `D`. -/
def algorithm.Vector.HasDim {F : Type} (v : algorithm.Vector F) (D : Nat) : Prop :=
  v.Size = D ∧ v.Values.length = D

/-- The index holds `nPlanes` planes over dimension `D`, each with `D + 1`
coefficients and an inner point of dimension `D`, as `Build` leaves them. -/
def algorithm.LSHIndex.WellFormed {F : Type} (lsh : algorithm.LSHIndex F) (D : Nat) : Prop :=
  lsh.nPlanes = lsh.Planes.length ∧ lsh.MeanVec.HasDim D ∧
    ∀ p ∈ lsh.Planes, p.InnerPoint.HasDim D ∧ p.Coefs.HasDim (D + 1)

/-- The key of cell `k` of a heap slice: its distance, or `⊤` past the end. -/
def annbench.key {F : Type} (h : List (annbench.Neighbor F)) (k : Nat) : WithTop F :=
  match h[k]? with
  | some a => (a.Dist : WithTop F)
  | none => ⊤

/-- The min-heap order of `container/heap`: no cell is smaller than its parent,
the cell at `(k - 1) / 2`. -/
def annbench.IsMinHeap {F : Type} [LinearOrder F] (h : List (annbench.Neighbor F)) : Prop :=
  ∀ k, 0 < k → annbench.key h ((k - 1) / 2) ≤ annbench.key h k

/-- The Euclidean norm `‖c‖` of a coordinate list, with `sqrt` for the square
root. -/
def norm2 {F : Type} [LinearOrderedField F] (sqrt : F → F) (c : List F) : F :=
  sqrt (c.map fun x => x * x).sum

/-- The `D` coefficients that the draws `rnd 0, …, rnd (D - 1)` give:
`-1 + 2 r_i`. -/
def randomCoefs {F : Type} [LinearOrderedField F] (D : Nat) (rnd : Rand F) : List F :=
  (List.range D).map fun i => -1 + rnd i * 2

/-- The offset that the draw `rnd D` gives for the coefficients of the first
`D` draws: `-b + r * b * 2` with `b = ‖c‖ * bias`. -/
def randomOffset {F : Type} [LinearOrderedField F] (sqrt : F → F) (bias : F) (D : Nat)
    (rnd : Rand F) : F :=
  -1 * (norm2 sqrt (randomCoefs D rnd) * bias)
    + rnd D * (norm2 sqrt (randomCoefs D rnd) * bias) * 2

/-- The ids for which the gathering loop fetched a vector and computed a
distance, in the order of the fetches (none when the loop returned an error). -/
def annbench.examinedIDs {F : Type} : Except String (annbench.SearchState F) → List String
  | .ok st => st.examined.reverse.map fun a => a.Record.ID
  | .error _ => []

/-- The neighbor `a` is the first one of smallest distance in the sequence
`pushed`: the neighbors before it are farther, those after it are not closer. -/
def annbench.IsFirstMin {F : Type} [LinearOrder F] (a : annbench.Neighbor F)
    (pushed : List (annbench.Neighbor F)) : Prop :=
  ∃ pre post, pushed = pre ++ a :: post ∧ (∀ b ∈ pre, a.Dist < b.Dist) ∧
    ∀ b ∈ post, a.Dist ≤ b.Dist

/-- The value `sqrt s` is the non-negative square root of `s`. -/
def IsSqrtAt {F : Type} [LinearOrderedField F] (sqrt : F → F) (s : F) : Prop :=
  0 ≤ sqrt s ∧ sqrt s * sqrt s = s

/-- The zero value `Hasher{}`, a new hasher before anything is stored in it. -/
def lsh.zeroHasher {F : Type} [LinearOrderedField F] : lsh.Hasher F :=
  { Config := { IsAngularDistance := 0, NPermutes := 0, NPlanes := 0, BiasMultiplier := 0,
                DistanceThrsh := 0, Dims := 0, Bias := 0, MeanVec := [] },
    Instances := [], HashFieldsNames := [] }

/-- The zero value `LSHIndex{}`, a new index before anything is stored in it. -/
def algorithm.zeroIndex {F : Type} [LinearOrderedField F] : algorithm.LSHIndex F :=
  { dims := 0, nPlanes := 0, bias := 0, Planes := [], MeanVec := { Values := [], Size := 0 } }

/-! ## Concrete inputs -/

/-- A metric on one-dimensional integer vectors: the absolute difference of
the first coordinates. -/
def annbench.exampleMetric : annbench.Metric Int :=
  { GetDist := fun a b => some |a.headD 0 - b.headD 0|, IsAngular := false }

/-- A mock over an empty store that iterates buckets in insertion order, with
a budget of 10 candidates. -/
def annbench.exampleMock : annbench.NNMock Int :=
  annbench.NewNNMock 10
    { vectors := fun _ => none, buckets := fun _ => [], iterOrder := fun ids => ids }
    annbench.exampleMetric

/-- The mock `exampleMock` trained on three records. -/
def annbench.exampleTrained : annbench.NNMock Int :=
  (annbench.exampleMock.Train
    [{ ID := "x1", Vec := [0] }, { ID := "x2", Vec := [1] }, { ID := "x3", Vec := [3] }]).1

/-- Two records of dimension 1 at Euclidean distance 1. -/
def annbench.twoRecords : List (annbench.Record ℚ) :=
  [{ ID := "a", Vec := [0] }, { ID := "b", Vec := [1] }]

/-- A Euclidean mock over an empty store with a budget of one candidate; the
store yields a bucket in the order `order` of its insertion sequence. -/
def annbench.oneCandidateMock (order : List String → List String) : annbench.NNMock ℚ :=
  annbench.NewNNMock 1
    { vectors := fun _ => none, buckets := fun _ => [], iterOrder := order }
    (annbench.NewL2 Rat.sqrt)

/-- A Euclidean configuration of dimension 1 with one permutation of 65
planes. -/
def lsh.exampleConfig : lsh.Config ℚ :=
  { IsAngularDistance := 0, NPermutes := 1, NPlanes := 65, BiasMultiplier := 1,
    DistanceThrsh := 1, Dims := 1, Bias := 1, MeanVec := [0] }

/-- The hasher that `NewLSHIndex` returns for `exampleConfig`. -/
def lsh.exampleHasher : lsh.Hasher ℚ :=
  { Config := lsh.exampleConfig, Instances := [{ Planes := [] }], HashFieldsNames := [""] }

/-- An index of package `algorithm` of dimension 1 before `Build`. -/
def algorithm.exampleIndex : algorithm.LSHIndex ℚ :=
  { dims := 1, nPlanes := 1, bias := 1, Planes := [], MeanVec := { Values := [0], Size := 1 } }

/-- A hasher with no permutation and dimension 0. -/
def lsh.emptyHasher : lsh.Hasher ℚ :=
  { Config := { lsh.exampleConfig with NPermutes := 0, Dims := 0 },
    Instances := [], HashFieldsNames := [] }

/-- An angular hasher of dimension 2 with two permutations of three planes. -/
def lsh.angularHasher : lsh.Hasher ℚ :=
  { Config := { IsAngularDistance := 1, NPermutes := 2, NPlanes := 3, BiasMultiplier := 2,
                DistanceThrsh := 1, Dims := 2, Bias := 5, MeanVec := [] },
    Instances := [{ Planes := [] }, { Planes := [] }], HashFieldsNames := ["", ""] }

/-- The hasher `exampleHasher` with its dimension set to 0. -/
def lsh.zeroDimHasher : lsh.Hasher ℚ :=
  { lsh.exampleHasher with Config := { lsh.exampleConfig with Dims := 0 } }

/-- A trained Euclidean hasher of dimension 2 with two instances of one plane
each. -/
def lsh.twoTableHasher : lsh.Hasher ℚ :=
  { Config := { IsAngularDistance := 0, NPermutes := 2, NPlanes := 1, BiasMultiplier := 1,
                DistanceThrsh := 1, Dims := 2, Bias := 1, MeanVec := [0, 0] },
    Instances := [{ Planes := [{ Coefs := [1, 0], D := 0 }] },
                  { Planes := [{ Coefs := [0, 1], D := 3 }] }],
    HashFieldsNames := ["0", "1"] }

/-- The three records of `exampleTrained` behind a budget of one candidate. -/
def annbench.budgetOneTrained : annbench.NNMock Int :=
  ((annbench.NewNNMock 1 annbench.exampleMock.index annbench.exampleMetric).Train
    [{ ID := "x1", Vec := [0] }, { ID := "x2", Vec := [1] }, { ID := "x3", Vec := [3] }]).1

/-- A mock whose bucket "0" yields the id "ghost", for which the store has no
vector, between two ids that have one. -/
def annbench.skewedMock : annbench.NNMock Int :=
  annbench.NewNNMock 10
    { vectors := fun id => if id = "x1" then some [0] else if id = "x2" then some [1] else none,
      buckets := fun _ => ["x1", "ghost", "x2"],
      iterOrder := fun ids => ids }
    annbench.exampleMetric

/-- The mock `exampleMock` trained on three records with the same vector. -/
def annbench.tiedTrained : annbench.NNMock Int :=
  (annbench.exampleMock.Train
    [{ ID := "t1", Vec := [1] }, { ID := "t2", Vec := [1] }, { ID := "t3", Vec := [1] }]).1

/-- An index of package `algorithm` of dimension 1 after `Build`: one plane
with the coefficients `(1, 1)` and its inner point `1`. -/
def algorithm.builtIndex : algorithm.LSHIndex ℚ :=
  { dims := 1, nPlanes := 1, bias := 1,
    Planes := [{ Coefs := { Values := [1, 1], Size := 2 },
                 InnerPoint := { Values := [1], Size := 1 } }],
    MeanVec := { Values := [0], Size := 1 } }

/-- The disk with no file. -/
def algorithm.emptyDisk : algorithm.Disk ℚ := fun _ => none

/-! ### float64 inputs -/

/-- The instance with the single plane `c = (1, 1, 1)`, `d = 0.5`, over
binary64. -/
def binary64.cancellingInstance : lsh.HasherInstance Int :=
  { Planes := [{ Coefs := [binary64.lit 1 0, binary64.lit 1 0, binary64.lit 1 0],
                 D := binary64.lit 1 (-1) }] }

/-- The float64 vector `(1e16, 1, -1e16)`. -/
def binary64.cancellingInput : List Int :=
  [binary64.lit 10000000000000000 0, binary64.lit 1 0, binary64.lit (-10000000000000000) 0]

/-- A coarse rounding of the rationals: down to the next multiple of `1/4`. -/
def roundDownQuarter (x : ℚ) : ℚ := ((⌊x * 4⌋ : Int) : ℚ) / 4

/-- The binary64 hasher configuration with `Dims = 9` and `Bias = 0.1`. -/
def binary64.tenthBiasHasher : lsh.Hasher Int :=
  { Config := { IsAngularDistance := 0, NPermutes := 1, NPlanes := 1,
                BiasMultiplier := binary64.lit 1 0, DistanceThrsh := binary64.lit 1 0, Dims := 9,
                Bias := binary64.lit 3602879701896397 (-55), MeanVec := [] },
    Instances := [{ Planes := [] }], HashFieldsNames := [""] }

end VectorSearch

namespace VectorSearch

/-! ## Loops -/

theorem forRange_zero {σ : Type} (body : Nat → σ → Option σ) (init : σ) :
    forRange 0 body init = some init := by
  simp [forRange]

theorem forRange_succ {σ : Type} (n : Nat) (body : Nat → σ → Option σ) (init : σ) :
    forRange (n + 1) body init = (forRange n body init).bind (body n) := by
  simp [forRange, List.range_succ, List.foldlM_append]

/-- A loop whose body never panics below `n` and agrees there with a total
step function is the left fold of that function. -/
theorem forRange_eq_foldl {σ : Type} (n : Nat) (body : Nat → σ → Option σ) (f : σ → Nat → σ)
    (init : σ) (hbody : ∀ i s, i < n → body i s = some (f s i)) :
    forRange n body init = some ((List.range n).foldl f init) := by
  induction n with
  | zero => simp [forRange_zero]
  | succ n ih =>
    rw [forRange_succ, ih (fun i s hi => hbody i s (Nat.lt_succ_of_lt hi))]
    simp [List.range_succ, List.foldl_append, hbody n _ (Nat.lt_succ_self n)]

/-- A loop that stores `g i` at index `i` of a slice of length at least `n`
writes the first `n` cells and leaves the others. -/
theorem forRange_store {α : Type} (n : Nat) (body : Nat → List α → Option (List α))
    (g : Nat → α) (init : List α) (hn : n ≤ init.length)
    (hbody : ∀ i s, i < n → body i s = setIdx s i (g i)) :
    forRange n body init = some ((List.range n).map g ++ init.drop n) := by
  induction n with
  | zero => simp [forRange_zero]
  | succ n ih =>
    rw [forRange_succ, ih (Nat.le_of_succ_le hn) (fun i s hi => hbody i s (Nat.lt_succ_of_lt hi))]
    simp only [Option.some_bind, hbody n _ (Nat.lt_succ_self n), setIdx]
    have hlen : n < ((List.range n).map g ++ List.drop n init).length := by
      simp; omega
    rw [if_pos hlen]
    congr 1
    rw [List.set_append_right _ _ (by simp)]
    simp only [List.length_map, List.length_range, Nat.sub_self, List.range_succ, List.map_append,
      List.map_cons, List.map_nil, List.append_assoc, List.singleton_append]
    rw [List.drop_eq_getElem_cons (by omega : n < init.length), List.set_cons_zero]

end VectorSearch

namespace VectorSearch

theorem range_map_zipWith {α β γ : Type} (f : α → β → γ) (a : List α) (b : List β) (da : α)
    (db : β) (hab : a.length ≤ b.length) :
    (List.range a.length).map (fun i => f (a[i]?.getD da) (b[i]?.getD db)) = List.zipWith f a b := by
  apply List.ext_getElem
  · simp; omega
  · intro i h1 h2
    simp at h1 h2
    simp [List.getElem?_eq_getElem, h1, h2.1, h2.2]

theorem range_map_getD {α β : Type} (f : α → β) (a : List α) (da : α) :
    (List.range a.length).map (fun i => f (a[i]?.getD da)) = a.map f := by
  apply List.ext_getElem
  · simp
  · intro i h1 h2
    simp at h1 h2
    simp [List.getElem?_eq_getElem, h1]

theorem range_foldl_add {F : Type} [LinearOrderedField F] (g : Nat → F) (n : Nat) (init : F) :
    (List.range n).foldl (fun s i => s + g i) init = init + ((List.range n).map g).sum := by
  induction n with
  | zero => simp
  | succ n ih => simp [List.range_succ, List.foldl_append, ih, add_assoc]

namespace algorithm

theorem makeSlice_length {F : Type} [Zero F] (n : Nat) :
    makeSlice (F := F) (n : Int) = some (List.replicate n 0) := by
  simp [makeSlice]

theorem Vector.ConstMul_eq {F : Type} [LinearOrderedField F] (vec : Vector F) (constant : F)
    (hsize : vec.Size = vec.Values.length) :
    vec.ConstMul constant
      = some { Values := vec.Values.map (fun a => a * constant), Size := vec.Size } := by
  unfold Vector.ConstMul
  rw [hsize, makeSlice_length]
  simp only [Option.some_bind, NewVector]
  rw [forRange_store vec.Values.length _ (fun i => vec.Values[i]?.getD 0 * constant) _ (by simp)]
  · simp [range_map_getD (fun a => a * constant) vec.Values 0]
  · intro i s hi
    simp [List.getElem?_eq_getElem, hi]

theorem Vector.Add_eq {F : Type} [LinearOrderedField F] (vec rvec : Vector F)
    (hsize : vec.Size = vec.Values.length) (hlen : vec.Values.length ≤ rvec.Values.length) :
    vec.Add rvec
      = some { Values := List.zipWith (fun a b => a + b) vec.Values rvec.Values,
               Size := vec.Size } := by
  unfold Vector.Add
  rw [hsize, makeSlice_length]
  simp only [Option.some_bind, NewVector]
  rw [forRange_store vec.Values.length _
    (fun i => vec.Values[i]?.getD 0 + rvec.Values[i]?.getD 0) _ (by simp)]
  · simp [range_map_zipWith (fun a b => a + b) vec.Values rvec.Values 0 0 hlen]
  · intro i s hi
    have hi2 : i < rvec.Values.length := by omega
    simp [List.getElem?_eq_getElem, hi, hi2]

theorem Vector.DotProd_eq {F : Type} [LinearOrderedField F] (vec inpVec : Vector F)
    (hlen : vec.Values.length ≤ inpVec.Values.length) :
    vec.DotProd inpVec = some (List.zipWith (fun a b => a * b) vec.Values inpVec.Values).sum := by
  unfold Vector.DotProd
  rw [forRange_eq_foldl vec.Values.length _
    (fun s i => s + vec.Values[i]?.getD 0 * inpVec.Values[i]?.getD 0)]
  · rw [range_foldl_add (fun i => vec.Values[i]?.getD 0 * inpVec.Values[i]?.getD 0),
      range_map_zipWith (fun a b => a * b) vec.Values inpVec.Values 0 0 hlen]
    simp
  · intro i s hi
    have hi2 : i < inpVec.Values.length := by omega
    simp [List.getElem?_eq_getElem, hi, hi2]

end algorithm

end VectorSearch

namespace VectorSearch

/-! ## Bits of a hash code -/

theorem setBit64_testBit (hash i k : Nat) :
    (setBit64 hash i).testBit k = (hash.testBit k || (decide (k < 64) && decide (i = k))) := by
  unfold setBit64
  rw [Nat.testBit_or, Nat.one_shiftLeft, Nat.testBit_mod_two_pow, Nat.testBit_two_pow]

/-- A loop that sets bit `i` in round `i` exactly when `b i` holds builds the
code whose bits below `min n 64` are given by `b`. -/
theorem forRange_bits (n : Nat) (body : Nat → Nat → Option Nat) (b : Nat → Bool)
    (hbody : ∀ i hash, i < n → body i hash = some (if b i then setBit64 hash i else hash)) :
    ∃ h, forRange n body 0 = some h ∧
      ∀ k, h.testBit k = (decide (k < n) && decide (k < 64) && b k) := by
  induction n with
  | zero => exact ⟨0, forRange_zero _ _, by simp⟩
  | succ n ih =>
    obtain ⟨h, hh, hbits⟩ := ih (fun i hash hi => hbody i hash (Nat.lt_succ_of_lt hi))
    refine ⟨if b n then setBit64 h n else h, ?_, ?_⟩
    · rw [forRange_succ, hh, Option.some_bind, hbody n h (Nat.lt_succ_self n)]
    · intro k
      by_cases hb : b n = true
      · rw [if_pos hb, setBit64_testBit, hbits]
        by_cases hk : n = k
        · subst hk; simp [hb]
        · have : (k < n + 1) = (k < n) := by
            apply propext; constructor <;> intro h' <;> omega
          simp [hk, this]
      · rw [if_neg hb, hbits]
        by_cases hk : n = k
        · subst hk
          simp at hb
          simp [hb]
        · have : (k < n + 1) = (k < n) := by
            apply propext; constructor <;> intro h' <;> omega
          simp [this]

namespace lsh

theorem getHashLoop_testBit {F : Type} [LinearOrderedField F] (shiftedVec : List F)
    (planes : List (Plane F)) (i : Nat) (vec : List F) (hash : Nat)
    (hvec : vec.length = shiftedVec.length)
    (hdim : ∀ p ∈ planes, p.Coefs.length = shiftedVec.length) :
    ∃ h, getHashLoop shiftedVec planes i vec hash = some h ∧
      ∀ k, h.testBit k = (hash.testBit k ||
        (decide (i ≤ k) && decide (k < 64) &&
          (match planes[k - i]? with
           | some p =>
             decide (0 ≤ (List.zipWith (fun a b => a * b) shiftedVec p.Coefs).sum - p.D)
           | none => false))) := by
  induction planes generalizing i vec hash with
  | nil => exact ⟨hash, rfl, by simp⟩
  | cons plane rest ih =>
    have hp : plane.Coefs.length = shiftedVec.length := hdim plane (List.mem_cons_self _ _)
    obtain ⟨h, hh, hbits⟩ := ih (i + 1) shiftedVec
      (if !Signbit ((List.zipWith (fun a b => a * b) shiftedVec plane.Coefs).sum - plane.D)
        then setBit64 hash i else hash) rfl
      (fun p hp => hdim p (List.mem_cons_of_mem _ hp))
    refine ⟨h, ?_, ?_⟩
    · simp only [getHashLoop, blasCopy, blasDot, hvec.symm, hp, if_true, Option.some_bind]
      simpa [hvec] using hh
    · intro k
      rw [hbits]
      rcases Nat.lt_trichotomy k i with hk | hk | hk
      · have h1 : ¬ i ≤ k := by omega
        have h2 : ¬ i + 1 ≤ k := by omega
        have h3 : ¬ i = k := by omega
        by_cases hs : Signbit
            ((List.zipWith (fun a b => a * b) shiftedVec plane.Coefs).sum - plane.D) = true
        · simp [hs, h1, h2]
        · simp [hs, h1, h2, h3, setBit64_testBit]
      · subst hk
        have h2 : ¬ k + 1 ≤ k := by omega
        by_cases hs : Signbit
            ((List.zipWith (fun a b => a * b) shiftedVec plane.Coefs).sum - plane.D) = true
        · have hneg : ¬ 0 ≤ (List.zipWith (fun a b => a * b) shiftedVec plane.Coefs).sum - plane.D := by
            simpa [Signbit] using hs
          simp [hs, h2, hneg]
        · have hpos : 0 ≤ (List.zipWith (fun a b => a * b) shiftedVec plane.Coefs).sum - plane.D := by
            simpa [Signbit] using hs
          simp [hs, h2, hpos, setBit64_testBit]
      · have h1 : i ≤ k := by omega
        have h2 : i + 1 ≤ k := by omega
        have h3 : ¬ i = k := by omega
        have h4 : k - i = (k - (i + 1)) + 1 := by omega
        by_cases hs : Signbit
            ((List.zipWith (fun a b => a * b) shiftedVec plane.Coefs).sum - plane.D) = true
        · simp [hs, h1, h2, h4]
        · simp [hs, h1, h2, h3, h4, setBit64_testBit]

end lsh

end VectorSearch

namespace VectorSearch

/-! ## Algebra of coordinate lists -/

theorem sum_zipWith_mul_comm {F : Type} [LinearOrderedField F] (a b : List F) :
    (List.zipWith (fun x y => x * y) a b).sum = (List.zipWith (fun x y => x * y) b a).sum := by
  induction a generalizing b with
  | nil => simp
  | cons x a ih =>
    cases b with
    | nil => simp
    | cons y b => simp [ih b, mul_comm]

theorem shifted_eq_vsub {F : Type} [LinearOrderedField F] (x mu : List F) :
    List.zipWith (fun xi yi => yi + -1 * xi) mu x = vsub x mu := by
  unfold vsub
  induction x generalizing mu with
  | nil => simp
  | cons a x ih =>
    cases mu with
    | nil => simp
    | cons b mu =>
      simp only [List.zipWith_cons_cons, ih mu]
      congr 1
      ring

theorem sum_sq_nonneg {F : Type} [LinearOrderedField F] (c : List F) :
    0 ≤ (c.map (fun ci => ci * ci)).sum := by
  induction c with
  | nil => simp
  | cons a c ih =>
    simp only [List.map_cons, List.sum_cons]
    exact add_nonneg (mul_self_nonneg a) ih

theorem sum_sq_pos {F : Type} [LinearOrderedField F] (c : List F) (hc : ∃ ci ∈ c, ci ≠ 0) :
    0 < (c.map (fun ci => ci * ci)).sum := by
  induction c with
  | nil => simp at hc
  | cons a c ih =>
    simp only [List.map_cons, List.sum_cons]
    obtain ⟨ci, hmem, hne⟩ := hc
    rcases List.mem_cons.1 hmem with h | h
    · subst h
      exact add_pos_of_pos_of_nonneg (mul_self_pos.2 hne) (sum_sq_nonneg c)
    · exact add_pos_of_nonneg_of_pos (mul_self_nonneg a) (ih ⟨ci, h, hne⟩)

/-- The inner point `c * d / k` has dot product `d * ‖c‖² / k` with `c`. -/
theorem sum_point_mul {F : Type} [LinearOrderedField F] (c : List F) (d k : F) :
    (List.zipWith (fun x y => x * y) (c.map (fun ci => ci * d / k)) c).sum
      = d * (c.map (fun ci => ci * ci)).sum / k := by
  induction c with
  | nil => simp
  | cons a c ih =>
    simp only [List.map_cons, List.zipWith_cons_cons, List.sum_cons, ih]
    ring

theorem sum_shift_point {F : Type} [LinearOrderedField F] (x mu p c : List F)
    (hmu : mu.length = x.length) (hp : p.length = x.length) (hc : c.length = x.length) :
    (List.zipWith (fun a b => a * b)
        (List.zipWith (fun a b => a + b)
          (List.zipWith (fun a b => a + b) x (mu.map (fun a => a * -1)))
          (p.map (fun a => a * -1))) c).sum
      = (List.zipWith (fun a b => a * b) (List.zipWith (fun xi yi => yi + -1 * xi) mu x) c).sum
        - (List.zipWith (fun a b => a * b) p c).sum := by
  induction x generalizing mu p c with
  | nil =>
    have hp0 : p = [] := List.length_eq_zero.1 hp
    subst hp0
    simp
  | cons a x ih =>
    cases mu with
    | nil => simp at hmu
    | cons m mu =>
      cases p with
      | nil => simp at hp
      | cons q p =>
        cases c with
        | nil => simp at hc
        | cons e c =>
          simp only [List.length_cons, Nat.add_right_cancel_iff] at hmu hp hc
          simp only [List.map_cons, List.zipWith_cons_cons, List.sum_cons, ih mu p c hmu hp hc]
          ring

theorem zipWith_append_singleton {F : Type} (f : F → F → F) (a c : List F) (d : F)
    (h : a.length = c.length) : List.zipWith f a (c ++ [d]) = List.zipWith f a c := by
  induction a generalizing c with
  | nil => simp
  | cons x a ih =>
    cases c with
    | nil => simp at h
    | cons y c =>
      simp only [List.length_cons, Nat.add_right_cancel_iff] at h
      simp [ih c h]

namespace algorithm

theorem GetPointPlaneDist_eq {F : Type} [LinearOrderedField F] (cf : List F) (d : F) :
    GetPointPlaneDist (NewVector (cf ++ [d]))
      = some { Values := cf.map (fun ci => ci * d / (cf.map (fun ci => ci * ci)).sum),
               Size := cf.length } := by
  unfold GetPointPlaneDist
  have hsz : (NewVector (cf ++ [d])).Size - 1 = (cf.length : Int) := by
    simp [NewVector]
  rw [hsz, makeSlice_length]
  have hidx : idxInt (NewVector (cf ++ [d])).Values (cf.length : Int) = some d := by
    simp [idxInt, NewVector]
  simp only [Option.some_bind, hidx, List.length_replicate]
  have hget : ∀ i, i < cf.length → (NewVector (cf ++ [d])).Values[i]? = some (cf[i]?.getD 0) := by
    intro i hi
    simp [NewVector, List.getElem?_append_left hi, List.getElem?_eq_getElem hi]
  rw [forRange_eq_foldl cf.length _ (fun s i => s + cf[i]?.getD 0 * cf[i]?.getD 0)]
  · rw [range_foldl_add (fun i => cf[i]?.getD 0 * cf[i]?.getD 0),
      range_map_getD (fun a => a * a) cf 0]
    simp only [Option.some_bind, zero_add]
    rw [forRange_store cf.length _
      (fun i => cf[i]?.getD 0 * d / (cf.map (fun ci => ci * ci)).sum) _ (by simp)]
    · simp [range_map_getD (fun a => a * d / (cf.map (fun ci => ci * ci)).sum) cf 0]
    · intro i s hi
      simp [hget i hi]
  · intro i s hi
    simp [hget i hi]

end algorithm

end VectorSearch

namespace VectorSearch

namespace lsh

/-- The code of `HasherInstance.GetHash`, bit by bit. -/
theorem HasherInstance.GetHash_bits {F : Type} [LinearOrderedField F]
    (lshInstance : HasherInstance F) (inpVec meanVec : List F)
    (hmu : meanVec.length = inpVec.length)
    (hdim : ∀ p ∈ lshInstance.Planes, p.Coefs.length = inpVec.length) :
    ∃ h, lshInstance.GetHash inpVec meanVec = some h ∧
      ∀ k, h.testBit k = (decide (k < 64) &&
        (match lshInstance.Planes[k]? with
         | some p => decide (0 ≤ dot p.Coefs (vsub inpVec meanVec) - p.D)
         | none => false)) := by
  have hlen : (vsub inpVec meanVec).length = inpVec.length := by
    simp [vsub, hmu]
  obtain ⟨h, hh, hbits⟩ := getHashLoop_testBit (vsub inpVec meanVec) lshInstance.Planes 0
    (List.replicate inpVec.length (0 : F)) 0 (by simp [hlen])
    (fun p hp => by rw [hlen]; exact hdim p hp)
  refine ⟨h, ?_, ?_⟩
  · simp only [HasherInstance.GetHash, blasCopy, blasAxpy, List.length_replicate, if_true,
      Option.some_bind, hmu, shifted_eq_vsub]
    exact hh
  · intro k
    rw [hbits k, Nat.sub_zero]
    cases hk : lshInstance.Planes[k]? with
    | none => simp
    | some p => simp [dot, sum_zipWith_mul_comm p.Coefs]

end lsh

namespace algorithm

/-- The signed quantity whose sign `LSHIndex.GetHash` tests for one plane. -/
theorem GetHash_plane_eq {F : Type} [LinearOrderedField F] (inpVec meanVec : Vector F)
    (plane : Plane F) (D : Nat) (hx : inpVec.HasDim D) (hmu : meanVec.HasDim D)
    (hp : plane.InnerPoint.HasDim D) (hc : plane.Coefs.HasDim (D + 1)) :
    ((meanVec.ConstMul (-1)).bind fun negMean =>
      (inpVec.Add negMean).bind fun vec0 =>
      (plane.InnerPoint.ConstMul (-1)).bind fun negPoint =>
      (vec0.Add negPoint).bind fun vec => vec.DotProd plane.Coefs)
      = some (List.zipWith (fun a b => a * b)
          (List.zipWith (fun a b => a + b)
            (List.zipWith (fun a b => a + b) inpVec.Values (meanVec.Values.map (fun a => a * -1)))
            (plane.InnerPoint.Values.map (fun a => a * -1))) plane.Coefs.Values).sum := by
  obtain ⟨hx1, hx2⟩ := hx
  obtain ⟨hmu1, hmu2⟩ := hmu
  obtain ⟨hp1, hp2⟩ := hp
  obtain ⟨hc1, hc2⟩ := hc
  rw [Vector.ConstMul_eq meanVec (-1) (by rw [hmu1, hmu2])]
  simp only [Option.some_bind]
  rw [Vector.Add_eq inpVec _ (by rw [hx1, hx2]) (by simp [hx2, hmu2])]
  simp only [Option.some_bind]
  rw [Vector.ConstMul_eq plane.InnerPoint (-1) (by rw [hp1, hp2])]
  simp only [Option.some_bind]
  rw [Vector.Add_eq _ _ (by simp [hx1, hx2, hmu2]) (by simp [hx2, hmu2, hp2])]
  simp only [Option.some_bind]
  rw [Vector.DotProd_eq _ _ (by simp [hx2, hmu2, hp2, hc2])]

/-- The code of `LSHIndex.GetHash`, bit by bit. -/
theorem LSHIndex.GetHash_testBit {F : Type} [LinearOrderedField F] (lsh : LSHIndex F)
    (inpVec : Vector F) (D : Nat) (hwf : lsh.WellFormed D) (hx : inpVec.HasDim D) :
    ∃ h, lsh.GetHash inpVec = some h ∧
      ∀ k, h.testBit k = (decide (k < 64) &&
        (match lsh.Planes[k]? with
         | some plane => decide (0 ≤ (List.zipWith (fun a b => a * b)
            (List.zipWith (fun a b => a + b)
              (List.zipWith (fun a b => a + b) inpVec.Values
                (lsh.MeanVec.Values.map (fun a => a * -1)))
              (plane.InnerPoint.Values.map (fun a => a * -1))) plane.Coefs.Values).sum)
         | none => false)) := by
  obtain ⟨hn, hmu, hplanes⟩ := hwf
  have hn2 : lsh.nPlanes.toNat = lsh.Planes.length := by rw [hn]; simp
  obtain ⟨h, hh, hbits⟩ := forRange_bits lsh.nPlanes.toNat
    (fun i hash =>
      lsh.Planes[i]?.bind fun plane =>
      (lsh.MeanVec.ConstMul (-1)).bind fun negMean =>
      (inpVec.Add negMean).bind fun vec0 =>
      (plane.InnerPoint.ConstMul (-1)).bind fun negPoint =>
      (vec0.Add negPoint).bind fun vec =>
      (vec.DotProd plane.Coefs).bind fun dp =>
      let dpSign := Signbit dp
      some (if !dpSign then setBit64 hash i else hash))
    (fun k => match lsh.Planes[k]? with
         | some plane => decide (0 ≤ (List.zipWith (fun a b => a * b)
            (List.zipWith (fun a b => a + b)
              (List.zipWith (fun a b => a + b) inpVec.Values
                (lsh.MeanVec.Values.map (fun a => a * -1)))
              (plane.InnerPoint.Values.map (fun a => a * -1))) plane.Coefs.Values).sum)
         | none => false)
    (by
      intro i hash hi
      have hi2 : i < lsh.Planes.length := by omega
      have hmem : lsh.Planes[i] ∈ lsh.Planes := List.getElem_mem _
      obtain ⟨hp, hc⟩ := hplanes _ hmem
      have hstep := GetHash_plane_eq inpVec lsh.MeanVec lsh.Planes[i] D hx hmu hp hc
      simp only [Option.bind_eq_some] at hstep
      obtain ⟨negMean, h1, vec0, h2, negPoint, h3, vec, h4, h5⟩ := hstep
      simp only [List.getElem?_eq_getElem hi2, Option.some_bind, h1, h2, h3, h4, h5, Signbit]
      by_cases hs : 0 ≤ (List.zipWith (fun a b => a * b)
            (List.zipWith (fun a b => a + b)
              (List.zipWith (fun a b => a + b) inpVec.Values
                (lsh.MeanVec.Values.map (fun a => a * -1)))
              ((lsh.Planes[i]).InnerPoint.Values.map (fun a => a * -1)))
            (lsh.Planes[i]).Coefs.Values).sum
      · simp [hs, not_lt.2 hs]
      · simp [hs, not_le.1 hs])
  refine ⟨h, hh, ?_⟩
  intro k
  rw [hbits k]
  by_cases hk : k < lsh.Planes.length
  · simp [hn2, hk, Bool.and_comm]
  · have : lsh.Planes[k]? = none := List.getElem?_eq_none (by omega)
    simp [this]

end algorithm

end VectorSearch

namespace VectorSearch

/-! ## Hash codes: claims C1 to C3 -/

/-- In exact arithmetic: for an instance with at most 64 planes and vectors of the planes'
dimension, `HasherInstance.GetHash` returns a code whose bit `i` is set if and
only if `c_i · (x − mu) − d_i ≥ 0` for plane `i` of that instance. -/
theorem getHash_bit_iff_plane_side_exact {F : Type} [LinearOrderedField F]
    (lshInstance : lsh.HasherInstance F) (inpVec meanVec : List F)
    (hP : lshInstance.Planes.length ≤ 64) (hmu : meanVec.length = inpVec.length)
    (hdim : ∀ p ∈ lshInstance.Planes, p.Coefs.length = inpVec.length) :
    ∃ h, lshInstance.GetHash inpVec meanVec = some h ∧
      ∀ (i : Nat) (hi : i < lshInstance.Planes.length),
        (h.testBit i = true ↔
          0 ≤ dot (lshInstance.Planes[i]).Coefs (vsub inpVec meanVec) - (lshInstance.Planes[i]).D) := by
  obtain ⟨h, hh, hbits⟩ := lsh.HasherInstance.GetHash_bits lshInstance inpVec meanVec hmu hdim
  refine ⟨h, hh, ?_⟩
  intro i hi
  have hi64 : i < 64 := by omega
  rw [hbits i]
  simp [List.getElem?_eq_getElem hi, hi64]

/-- C2: the code returned by `GetHash` is smaller than `2 ^ P` for a hasher
with `P` planes, for `HasherInstance.GetHash` and for `LSHIndex.GetHash`
(whatever `P` is, so in particular for `P ≤ 64`). -/
theorem C2_getHash_lt_two_pow {F : Type} [LinearOrderedField F]
    (lshInstance : lsh.HasherInstance F) (inpVec meanVec : List F)
    (index : algorithm.LSHIndex F) (x : algorithm.Vector F) (D : Nat)
    (hmu : meanVec.length = inpVec.length)
    (hdim : ∀ p ∈ lshInstance.Planes, p.Coefs.length = inpVec.length)
    (hwf : index.WellFormed D) (hx : x.HasDim D) :
    (∃ h, lshInstance.GetHash inpVec meanVec = some h ∧ h < 2 ^ lshInstance.Planes.length) ∧
    (∃ h, index.GetHash x = some h ∧ h < 2 ^ index.Planes.length) := by
  constructor
  · obtain ⟨h, hh, hbits⟩ := lsh.HasherInstance.GetHash_bits lshInstance inpVec meanVec hmu hdim
    refine ⟨h, hh, Nat.lt_pow_two_of_testBit h ?_⟩
    intro i hi
    rw [hbits i, List.getElem?_eq_none hi]
    simp
  · obtain ⟨h, hh, hbits⟩ := algorithm.LSHIndex.GetHash_testBit index x D hwf hx
    refine ⟨h, hh, Nat.lt_pow_two_of_testBit h ?_⟩
    intro i hi
    rw [hbits i, List.getElem?_eq_none hi]
    simp

theorem C2_getHash_lt_two_pow_witness :
    (∃ h, ({ Planes := [{ Coefs := [1, 0], D := 0 }] } : lsh.HasherInstance ℚ).GetHash
        [1, 2] [0, 0] = some h ∧ h < 2 ^ 1) ∧
    (∃ h, ({ dims := 2, nPlanes := 1, bias := 0,
             Planes := [{ Coefs := { Values := [1, 0, 0], Size := 3 },
                          InnerPoint := { Values := [0, 0], Size := 2 } }],
             MeanVec := { Values := [0, 0], Size := 2 } } : algorithm.LSHIndex ℚ).GetHash
        { Values := [1, 2], Size := 2 } = some h ∧ h < 2 ^ 1) :=
  C2_getHash_lt_two_pow (F := ℚ) { Planes := [{ Coefs := [1, 0], D := 0 }] } [1, 2] [0, 0]
    { dims := 2, nPlanes := 1, bias := 0,
      Planes := [{ Coefs := { Values := [1, 0, 0], Size := 3 },
                   InnerPoint := { Values := [0, 0], Size := 2 } }],
      MeanVec := { Values := [0, 0], Size := 2 } }
    { Values := [1, 2], Size := 2 } 2 rfl (by simp)
    (by simp [algorithm.LSHIndex.WellFormed, algorithm.Vector.HasDim])
    (by simp [algorithm.Vector.HasDim])

/-- In exact arithmetic: for plane coefficient vectors `(c, d)` with `c` non-zero and vectors
of dimension `D`, `LSHIndex.GetHash` over the planes that `Build` stores
(inner point `GetPointPlaneDist (c, d)`) returns the same code as
`HasherInstance.GetHash` over the planes with `Coefs = c` and `D = d`. -/
theorem getHash_implementations_agree_exact {F : Type} [LinearOrderedField F]
    (coefs : List (List F × F)) (mu x : List F) (b : F)
    (hmu : mu.length = x.length)
    (hc : ∀ cd ∈ coefs, cd.1.length = x.length ∧ ∃ ci ∈ cd.1, ci ≠ 0) :
    ∃ planes h,
      coefs.map (fun cd => algorithm.newPlane (algorithm.NewVector (cd.1 ++ [cd.2])))
        = planes.map some ∧
      algorithm.LSHIndex.GetHash
        { dims := x.length, nPlanes := coefs.length, bias := b, Planes := planes,
          MeanVec := algorithm.NewVector mu } (algorithm.NewVector x) = some h ∧
      lsh.HasherInstance.GetHash
        { Planes := coefs.map fun cd => { Coefs := cd.1, D := cd.2 } } x mu = some h := by
  let mk : List F × F → algorithm.Plane F := fun cd =>
    { Coefs := algorithm.NewVector (cd.1 ++ [cd.2]),
      InnerPoint := { Values := cd.1.map (fun ci => ci * cd.2 / (cd.1.map (fun ci => ci * ci)).sum),
                      Size := cd.1.length } }
  have hplanes : coefs.map (fun cd => algorithm.newPlane (algorithm.NewVector (cd.1 ++ [cd.2])))
      = (coefs.map mk).map some := by
    rw [List.map_map]
    apply List.map_congr_left
    intro cd _
    simp [algorithm.newPlane, algorithm.GetPointPlaneDist_eq, mk]
  have hwf : algorithm.LSHIndex.WellFormed
      ({ dims := x.length, nPlanes := coefs.length, bias := b, Planes := coefs.map mk,
         MeanVec := algorithm.NewVector mu } : algorithm.LSHIndex F) x.length := by
    refine ⟨by simp, by simp [algorithm.Vector.HasDim, algorithm.NewVector, hmu], ?_⟩
    intro p hp
    simp only [List.mem_map] at hp
    obtain ⟨cd, hcd, rfl⟩ := hp
    simp [algorithm.Vector.HasDim, algorithm.NewVector, mk, (hc cd hcd).1]
  have hxdim : (algorithm.NewVector x).HasDim x.length := by
    simp [algorithm.Vector.HasDim, algorithm.NewVector]
  obtain ⟨h1, hh1, hbits1⟩ := algorithm.LSHIndex.GetHash_testBit _ _ x.length hwf hxdim
  obtain ⟨h2, hh2, hbits2⟩ := lsh.HasherInstance.GetHash_bits
    ({ Planes := coefs.map fun cd => { Coefs := cd.1, D := cd.2 } } : lsh.HasherInstance F) x mu hmu
    (by
      intro p hp
      simp only [List.mem_map] at hp
      obtain ⟨cd, hcd, rfl⟩ := hp
      exact (hc cd hcd).1)
  refine ⟨coefs.map mk, h1, hplanes, hh1, ?_⟩
  rw [hh2]
  congr 1
  apply Nat.eq_of_testBit_eq
  intro k
  rw [hbits1 k, hbits2 k]
  congr 1
  simp only [List.getElem?_map]
  cases hk : coefs[k]? with
  | none => simp
  | some cd =>
    have hcd : cd ∈ coefs := List.mem_iff_getElem?.2 ⟨k, hk⟩
    obtain ⟨hlen, hne⟩ := hc cd hcd
    have hpos := sum_sq_pos cd.1 hne
    have key : (List.zipWith (fun a b => a * b)
        (List.zipWith (fun a b => a + b)
          (List.zipWith (fun a b => a + b) x (List.map (fun a => a * -1) mu))
          (List.map (fun a => a * -1)
            (List.map (fun ci => ci * cd.2 / (List.map (fun ci => ci * ci) cd.1).sum) cd.1)))
        (cd.1 ++ [cd.2])).sum = dot cd.1 (vsub x mu) - cd.2 := by
      rw [zipWith_append_singleton _ _ _ _ (by simp [hlen, hmu]),
        sum_shift_point x mu _ cd.1 hmu (by simp [hlen]) hlen, sum_point_mul,
        mul_div_assoc, div_self (ne_of_gt hpos), mul_one, shifted_eq_vsub, dot,
        sum_zipWith_mul_comm cd.1]
    simp only [Option.map_some', mk, algorithm.NewVector, key]

end VectorSearch

namespace VectorSearch

namespace annbench

/-! ## The binary heap of `container/heap` -/

theorem set_perm_cons {α : Type} (t : List α) (j : Nat) (x : α) (hj : j < t.length) :
    (t[j] :: t.set j x).Perm (x :: t) := by
  induction t generalizing j with
  | nil => simp at hj
  | cons y t ih =>
    cases j with
    | zero => simpa using List.Perm.swap x y t
    | succ j =>
      simp only [List.length_cons, Nat.add_lt_add_iff_right] at hj
      simp only [List.getElem_cons_succ, List.set_cons_succ]
      exact ((List.Perm.swap y t[j] (t.set j x)).trans ((ih j hj).cons y)).trans
        (List.Perm.swap x y t)

theorem set_set_perm_lt {α : Type} (l : List α) (i j : Nat) (hij : i < j) (hj : j < l.length) :
    ((l.set i (l[j])).set j (l[i])).Perm l := by
  induction l generalizing i j with
  | nil => simp at hj
  | cons x t ih =>
    cases j with
    | zero => omega
    | succ j =>
      simp only [List.length_cons, Nat.add_lt_add_iff_right] at hj
      cases i with
      | zero =>
        simp only [List.set_cons_zero, List.set_cons_succ, List.getElem_cons_succ,
          List.getElem_cons_zero]
        exact set_perm_cons t j x hj
      | succ i =>
        simp only [List.set_cons_succ, List.getElem_cons_succ]
        exact (ih i j (by omega) hj).cons x

theorem Swap_spec {F : Type} (h : FloatMinHeap F) (i j : Nat) (hij : i ≤ j)
    (hj : j < h.length) :
    ∃ h1, h.Swap i j = some h1 ∧ h1.length = h.length ∧ h1.Perm h ∧
      ∀ k, h1[k]? = if k = j then h[i]? else if k = i then h[j]? else h[k]? := by
  have hi : i < h.length := by omega
  refine ⟨(h.set i h[j]).set j h[i], ?_, by simp, ?_, ?_⟩
  · simp [FloatMinHeap.Swap, List.getElem?_eq_getElem hi, List.getElem?_eq_getElem hj]
  · rcases Nat.lt_or_eq_of_le hij with hlt | heq
    · exact set_set_perm_lt h i j hlt hj
    · subst heq
      have hself : h.set i h[i] = h := by
        apply List.ext_getElem?
        intro k
        by_cases hk : i = k
        · subst hk
          simp [List.getElem?_set, hi, List.getElem?_eq_getElem hi]
        · simp [List.getElem?_set, hk]
      simp only [hself]
      exact List.Perm.refl _
  · intro k
    by_cases hkj : k = j
    · subst hkj
      simp [List.getElem?_set, hj, List.getElem?_eq_getElem hi]
    · by_cases hki : k = i
      · subst hki
        have hne : ¬ j = k := fun e => hkj e.symm
        simp [List.getElem?_set, hne, hkj, hi, List.getElem?_eq_getElem hj]
      · have h1 : ¬ j = k := fun e => hkj e.symm
        have h2 : ¬ i = k := fun e => hki e.symm
        simp [List.getElem?_set, h1, h2, hkj, hki]

theorem key_of_getElem? {F : Type} (h h1 : List (Neighbor F)) (a b : Nat)
    (hab : h1[a]? = h[b]?) : key h1 a = key h b := by
  simp [key, hab]

theorem Less_spec {F : Type} [LinearOrder F] (h : FloatMinHeap F) (i j : Nat)
    (hi : i < h.length) (hj : j < h.length) :
    h.Less i j = some (decide (key h i < key h j)) := by
  simp [FloatMinHeap.Less, key, List.getElem?_eq_getElem hi, List.getElem?_eq_getElem hj]

theorem key_lt_top {F : Type} [LinearOrder F] (h : List (Neighbor F)) (k : Nat)
    (hk : k < h.length) : key h k < ⊤ := by
  simp [key, List.getElem?_eq_getElem hk]

theorem key_eq_top {F : Type} (h : List (Neighbor F)) (k : Nat)
    (hk : h.length ≤ k) : key h k = ⊤ := by
  simp [key, List.getElem?_eq_none hk]

/-- `heap.up` restores the heap order when only the cell `j` may be smaller
than its parent; it permutes the slice. -/
theorem up_spec {F : Type} [LinearOrder F] (fuel : Nat) (h : FloatMinHeap F) (j : Nat)
    (hj : j < h.length) (hfuel : j < fuel)
    (hrest : ∀ k, 0 < k → k ≠ j → key h ((k - 1) / 2) ≤ key h k)
    (hgrand : ∀ k, 0 < k → (k - 1) / 2 = j → 0 < j → key h ((j - 1) / 2) ≤ key h k) :
    ∃ h1, up fuel h j = some h1 ∧ IsMinHeap h1 ∧ h1.Perm h := by
  induction fuel generalizing h j with
  | zero => omega
  | succ fuel ih =>
    by_cases hj0 : (j - 1) / 2 = j
    · refine ⟨h, by simp [up, hj0], ?_, List.Perm.refl _⟩
      intro k hk
      exact hrest k hk (by omega)
    · have hjpos : 0 < j := by omega
      have hi : (j - 1) / 2 < h.length := by omega
      by_cases hlt : key h j < key h ((j - 1) / 2)
      · obtain ⟨h1, hswap, hlen, hperm, hget⟩ := Swap_spec h ((j - 1) / 2) j (by omega) hj
        have hkey : ∀ k, key h1 k = if k = j then key h ((j - 1) / 2)
            else if k = (j - 1) / 2 then key h j else key h k := by
          intro k
          by_cases hkj : k = j
          · rw [if_pos hkj]; exact key_of_getElem? _ _ _ _ (by rw [hget, if_pos hkj])
          · by_cases hki : k = (j - 1) / 2
            · rw [if_neg hkj, if_pos hki]
              exact key_of_getElem? _ _ _ _ (by rw [hget, if_neg hkj, if_pos hki])
            · rw [if_neg hkj, if_neg hki]
              exact key_of_getElem? _ _ _ _ (by rw [hget, if_neg hkj, if_neg hki])
        obtain ⟨h2, hup, hheap, hperm2⟩ := ih h1 ((j - 1) / 2) (by omega) (by omega)
          (by
            intro k hk hki
            rw [hkey k, hkey ((k - 1) / 2)]
            by_cases hkj : k = j
            · subst hkj
              simp only [if_true, if_neg hj0]
              exact le_of_lt hlt
            · have hpk : (k - 1) / 2 ≠ k := by omega
              rw [if_neg hkj, if_neg hki]
              by_cases hp1 : (k - 1) / 2 = j
              · rw [if_pos hp1]
                exact hgrand k hk hp1 hjpos
              · rw [if_neg hp1]
                by_cases hp2 : (k - 1) / 2 = (j - 1) / 2
                · rw [if_pos hp2]
                  have := hrest k hk hkj
                  rw [hp2] at this
                  exact le_trans (le_of_lt hlt) this
                · rw [if_neg hp2]
                  exact hrest k hk hkj)
          (by
            intro k hk hpk hipos
            rw [hkey k, hkey (((j - 1) / 2 - 1) / 2)]
            have hpp1 : ((j - 1) / 2 - 1) / 2 ≠ j := by omega
            have hpp2 : ((j - 1) / 2 - 1) / 2 ≠ (j - 1) / 2 := by omega
            have hki : k ≠ (j - 1) / 2 := by omega
            have hparent := hrest ((j - 1) / 2) hipos (by omega)
            rw [if_neg hpp1, if_neg hpp2]
            by_cases hkj : k = j
            · rw [if_pos hkj]
              exact hparent
            · rw [if_neg hkj, if_neg hki]
              have := hrest k hk hkj
              rw [hpk] at this
              exact le_trans hparent this)
        refine ⟨h2, ?_, hheap, hperm2.trans hperm⟩
        simp [up, hj0, Less_spec h j ((j - 1) / 2) hj hi, hlt, hswap, hup]
      · refine ⟨h, by simp [up, hj0, Less_spec h j ((j - 1) / 2) hj hi, hlt], ?_,
          List.Perm.refl _⟩
        intro k hk
        by_cases hkj : k = j
        · subst hkj
          exact not_lt.1 hlt
        · exact hrest k hk hkj

end annbench

end VectorSearch

namespace VectorSearch

namespace annbench

/-- One round of `heap.down` below a cell with a child inside the region: it
compares the cell with its smallest child `j`. -/
theorem down_unfold {F : Type} [LinearOrder F] (fuel : Nat) (h : FloatMinHeap F) (i n : Nat)
    (hn : n ≤ h.length) (hchild : 2 * i + 1 < n) :
    ∃ j, j < n ∧ (j = 2 * i + 1 ∨ j = 2 * i + 2) ∧
      (∀ k, k < n → (k = 2 * i + 1 ∨ k = 2 * i + 2) → key h j ≤ key h k) ∧
      down (fuel + 1) h i n
        = if key h j < key h i then (h.Swap i j).bind fun h1 => down fuel h1 j n else some h := by
  have hi : i < h.length := by omega
  have hj1 : 2 * i + 1 < h.length := by omega
  by_cases hright : 2 * i + 1 + 1 < n ∧ key h (2 * i + 1 + 1) < key h (2 * i + 1)
  · obtain ⟨hj2, hlt⟩ := hright
    have hj2len : 2 * i + 1 + 1 < h.length := by omega
    refine ⟨2 * i + 2, by omega, Or.inr rfl, ?_, ?_⟩
    · intro k _ hk
      rcases hk with hk | hk
      · subst hk; exact le_of_lt hlt
      · subst hk; exact le_refl _
    · have hnot : ¬ n ≤ 2 * i + 1 := by omega
      simp only [down, hnot, if_false, hj2, if_true, Less_spec h _ _ hj2len hj1, hlt,
        decide_True, Option.some_bind, Less_spec h _ _ hj2len hi]
      by_cases hcmp : key h (2 * i + 2) < key h i
      · simp [hcmp]
      · simp [hcmp]
  · have hnot : ¬ n ≤ 2 * i + 1 := by omega
    refine ⟨2 * i + 1, by omega, Or.inl rfl, ?_, ?_⟩
    · intro k hkn hk
      rcases hk with hk | hk
      · subst hk; exact le_refl _
      · subst hk
        have : ¬ key h (2 * i + 1 + 1) < key h (2 * i + 1) := fun hlt => hright ⟨hkn, hlt⟩
        exact not_lt.1 this
    · by_cases hj2 : 2 * i + 1 + 1 < n
      · have hj2len : 2 * i + 1 + 1 < h.length := by omega
        have hge : ¬ key h (2 * i + 1 + 1) < key h (2 * i + 1) := fun hlt => hright ⟨hj2, hlt⟩
        simp only [down, hnot, if_false, hj2, if_true, Less_spec h _ _ hj2len hj1, hge,
          decide_False, Option.some_bind, Less_spec h _ _ hj1 hi]
        by_cases hcmp : key h (2 * i + 1) < key h i
        · simp [hcmp, Less_spec h _ _ hj1 hi]
        · simp [hcmp, Less_spec h _ _ hj1 hi]
      · simp only [down, hnot, if_false, hj2, Option.some_bind, Less_spec h _ _ hj1 hi]
        by_cases hcmp : key h (2 * i + 1) < key h i
        · simp [hcmp, Less_spec h _ _ hj1 hi]
        · simp [hcmp, Less_spec h _ _ hj1 hi]

/-- `heap.down` restores the heap order of the first `n` cells when only the
cell `i` may be greater than its children; it permutes the slice and leaves
the cells from `n` on. -/
theorem down_spec {F : Type} [LinearOrder F] (fuel : Nat) (h : FloatMinHeap F) (i n : Nat)
    (hn : n ≤ h.length) (hin : i ≤ n) (hfuel : n < fuel + i)
    (hrest : ∀ k, 0 < k → k < n → (k - 1) / 2 ≠ i → key h ((k - 1) / 2) ≤ key h k)
    (hgrand : ∀ k, 0 < k → k < n → (k - 1) / 2 = i → 0 < i → key h ((i - 1) / 2) ≤ key h k) :
    ∃ h1, down fuel h i n = some h1 ∧
      (∀ k, 0 < k → k < n → key h1 ((k - 1) / 2) ≤ key h1 k) ∧
      h1.Perm h ∧ h1.length = h.length ∧ ∀ m, n ≤ m → h1[m]? = h[m]? := by
  induction fuel generalizing h i with
  | zero => omega
  | succ fuel ih =>
    by_cases hleaf : n ≤ 2 * i + 1
    · refine ⟨h, by simp [down, hleaf], ?_, List.Perm.refl _, rfl, fun _ _ => rfl⟩
      intro k hk hkn
      exact hrest k hk hkn (by omega)
    · obtain ⟨j, hjn, hj, hmin, hdown⟩ := down_unfold fuel h i n hn (by omega)
      have hpj : (j - 1) / 2 = i := by omega
      have hij : i < j := by omega
      by_cases hlt : key h j < key h i
      · obtain ⟨h1, hswap, hlen, hperm, hget⟩ := Swap_spec h i j (by omega) (by omega)
        have hkey : ∀ k, key h1 k = if k = j then key h i
            else if k = i then key h j else key h k := by
          intro k
          by_cases hkj : k = j
          · rw [if_pos hkj]; exact key_of_getElem? _ _ _ _ (by rw [hget, if_pos hkj])
          · by_cases hki : k = i
            · rw [if_neg hkj, if_pos hki]
              exact key_of_getElem? _ _ _ _ (by rw [hget, if_neg hkj, if_pos hki])
            · rw [if_neg hkj, if_neg hki]
              exact key_of_getElem? _ _ _ _ (by rw [hget, if_neg hkj, if_neg hki])
        obtain ⟨h2, hdown2, hheap, hperm2, hlen2, htail⟩ := ih h1 j (by omega) (by omega)
          (by omega)
          (by
            intro k hk hkn hpk
            rw [hkey k, hkey ((k - 1) / 2)]
            rw [if_neg hpk]
            by_cases hkj : k = j
            · subst hkj
              rw [if_pos rfl, if_pos hpj]
              exact le_of_lt hlt
            · rw [if_neg hkj]
              by_cases hki : k = i
              · subst hki
                have hp : (k - 1) / 2 ≠ k := by omega
                rw [if_pos rfl, if_neg hp]
                exact hgrand j (by omega) hjn hpj hk
              · rw [if_neg hki]
                by_cases hp : (k - 1) / 2 = i
                · rw [if_pos hp]
                  exact hmin k hkn (by omega)
                · rw [if_neg hp]
                  exact hrest k hk hkn hp)
          (by
            intro k hk hkn hpk _
            rw [hkey k, hkey ((j - 1) / 2)]
            have h1 : (j - 1) / 2 ≠ j := by omega
            have h2 : k ≠ j := by omega
            have h3 : k ≠ i := by omega
            rw [if_neg h1, if_pos hpj, if_neg h2, if_neg h3]
            have := hrest k hk hkn (by omega)
            rw [hpk] at this
            exact this)
        refine ⟨h2, ?_, hheap, hperm2.trans hperm, by omega, ?_⟩
        · rw [hdown, if_pos hlt, hswap, Option.some_bind, hdown2]
        · intro m hm
          rw [htail m hm, hget m, if_neg (by omega), if_neg (by omega)]
      · refine ⟨h, by rw [hdown, if_neg hlt], ?_, List.Perm.refl _, rfl, fun _ _ => rfl⟩
        intro k hk hkn
        by_cases hp : (k - 1) / 2 = i
        · rw [hp]
          exact le_trans (not_lt.1 hlt) (hmin k hkn (by omega))
        · exact hrest k hk hkn hp

/-- The root of a min-heap carries the smallest key. -/
theorem IsMinHeap.root_le {F : Type} [LinearOrder F] (h : List (Neighbor F)) (hheap : IsMinHeap h)
    (k : Nat) : key h 0 ≤ key h k := by
  induction k using Nat.strong_induction_on with
  | _ k ih =>
    by_cases hk : k = 0
    · subst hk; exact le_refl _
    · exact le_trans (ih ((k - 1) / 2) (by omega)) (hheap k (by omega))

theorem key_append_left {F : Type} (h t : List (Neighbor F)) (k : Nat) (hk : k < h.length) :
    key (h ++ t) k = key h k := by
  simp [key, List.getElem?_append_left hk]

/-- `heap.Push` on a min-heap returns a min-heap with the new element added. -/
theorem heapPush_spec {F : Type} [LinearOrder F] (h : FloatMinHeap F) (x : Neighbor F)
    (hheap : IsMinHeap h) :
    ∃ h1, heapPush h x = some h1 ∧ IsMinHeap h1 ∧ h1.Perm (x :: h) := by
  have hlen : (h ++ [x]).length = h.length + 1 := by simp
  obtain ⟨h1, hup, hheap1, hperm⟩ := up_spec (h.length + 1) (h ++ [x]) h.length
    (by omega) (by omega)
    (by
      intro k hk hkj
      by_cases hkl : k < h.length
      · rw [key_append_left h [x] k hkl, key_append_left h [x] _ (by omega)]
        exact hheap k hk
      · rw [key_eq_top (h ++ [x]) k (by omega)]
        exact le_top)
    (by
      intro k hk hpk _
      rw [key_eq_top (h ++ [x]) k (by omega)]
      exact le_top)
  refine ⟨h1, ?_, hheap1, hperm.trans ?_⟩
  · simp only [heapPush, FloatMinHeap.Push, hlen, Nat.add_sub_cancel]
    exact hup
  · exact List.perm_append_comm

end annbench

end VectorSearch

namespace VectorSearch

namespace annbench

theorem key_le_iff {F : Type} [LinearOrder F] (h : List (Neighbor F)) (i j : Nat) (a b : Neighbor F)
    (ha : h[i]? = some a) (hb : h[j]? = some b) : key h i ≤ key h j ↔ a.Dist ≤ b.Dist := by
  simp [key, ha, hb]

/-- `heap.Pop` on a non-empty min-heap removes the root, which carries the
smallest distance, and leaves a min-heap of the other elements. -/
theorem heapPop_spec {F : Type} [LinearOrder F] (h : FloatMinHeap F) (hheap : IsMinHeap h)
    (hne : 0 < h.length) :
    ∃ h1 x, heapPop h = some (h1, x) ∧ IsMinHeap h1 ∧ (x :: h1).Perm h ∧ h[0]? = some x ∧
      ∀ y ∈ h, x.Dist ≤ y.Dist := by
  obtain ⟨h1, hswap, hlen1, hperm1, hget1⟩ := Swap_spec h 0 (h.length - 1) (by omega) (by omega)
  have hkey1 : ∀ k, 0 < k → k < h.length - 1 → key h1 k = key h k := by
    intro k hk hkn
    exact key_of_getElem? _ _ _ _ (by rw [hget1, if_neg (by omega), if_neg (by omega)])
  obtain ⟨h2, hdown, hheap2, hperm2, hlen2, htail⟩ := down_spec (h.length - 1 + 1) h1 0
    (h.length - 1) (by omega) (by omega) (by omega)
    (by
      intro k hk hkn hp
      rw [hkey1 k hk hkn, hkey1 _ (by omega) (by omega)]
      exact hheap k hk)
    (by
      intro k _ _ _ h0
      omega)
  have hroot : h[0]? = some h[0] := List.getElem?_eq_getElem hne
  have hlast : h2[h.length - 1]? = some h[0] := by
    rw [htail _ (le_refl _), hget1, if_pos rfl, hroot]
  have hgetLast : h2.getLast? = some h[0] := by
    rw [List.getLast?_eq_getElem?, hlen2, hlen1, hlast]
  have hsplit : h2.dropLast ++ [h[0]] = h2 :=
    List.dropLast_append_getLast? h[0] (by rw [hgetLast]; rfl)
  refine ⟨h2.dropLast, h[0], ?_, ?_, ?_, hroot, ?_⟩
  · have hlen0 : ¬ h.length = 0 := by omega
    simp only [heapPop, hlen0, if_false, hswap, Option.some_bind, hdown, FloatMinHeap.Pop,
      hgetLast]
  · intro k hk
    by_cases hkn : k < h.length - 1
    · have e1 : key h2.dropLast k = key h2 k := by
        apply key_of_getElem?
        rw [List.dropLast_eq_take, List.getElem?_take]
        rw [if_pos (by omega)]
      have e2 : key h2.dropLast ((k - 1) / 2) = key h2 ((k - 1) / 2) := by
        apply key_of_getElem?
        rw [List.dropLast_eq_take, List.getElem?_take]
        rw [if_pos (by omega)]
      rw [e1, e2]
      exact hheap2 k hk hkn
    · rw [key_eq_top h2.dropLast k (by simp; omega)]
      exact le_top
  · have hp : (h[0] :: h2.dropLast).Perm h2 := by
      have := @List.perm_append_comm _ [h[0]] h2.dropLast
      rw [hsplit] at this
      simpa using this
    exact hp.trans (hperm2.trans hperm1)
  · intro y hy
    obtain ⟨k, hk⟩ := List.mem_iff_getElem?.1 hy
    exact (key_le_iff h 0 k h[0] y hroot hk).1 (IsMinHeap.root_le h hheap k)

/-- The final loop of `Search` pops the `min n (len heap)` smallest elements
of a min-heap, in ascending order of distance. -/
theorem popLoop_spec {F : Type} [LinearOrder F] (n : Nat) (h : FloatMinHeap F)
    (closest : List (Neighbor F)) (hheap : IsMinHeap h) :
    ∃ out rest, popLoop n h closest = some (closest ++ out) ∧ out.length = min n h.length ∧
      (out ++ rest).Perm h ∧ out.Pairwise (fun a b => a.Dist ≤ b.Dist) ∧
      (∀ a ∈ out, ∀ b ∈ rest, a.Dist ≤ b.Dist) ∧ out.head? = (if n = 0 then none else h[0]?) := by
  induction n generalizing h closest with
  | zero => exact ⟨[], h, by simp [popLoop], by simp, by simp, by simp, by simp, by simp⟩
  | succ n ih =>
    by_cases hne : 0 < h.length
    · obtain ⟨h1, x, hpop, hheap1, hperm1, hroot, hmin⟩ := heapPop_spec h hheap hne
      obtain ⟨out, rest, hloop, hlen, hperm, hsorted, hsplit, _⟩ := ih h1 (closest ++ [x]) hheap1
      have hlen1 : h1.length + 1 = h.length := by
        have := hperm1.length_eq
        simpa using this
      have hsub : ∀ y, y ∈ out ++ rest → x.Dist ≤ y.Dist := by
        intro y hy
        exact hmin y (hperm1.subset (List.mem_cons_of_mem _ (hperm.subset hy)))
      refine ⟨x :: out, rest, ?_, ?_, ?_, ?_, ?_, ?_⟩
      · simp only [popLoop, hne, if_true, hpop, Option.some_bind, hloop]
        simp
      · simp only [List.length_cons, hlen]
        omega
      · exact (List.Perm.cons x hperm).trans hperm1
      · refine List.Pairwise.cons ?_ hsorted
        intro y hy
        exact hsub y (List.mem_append_left _ hy)
      · intro a ha b hb
        rcases List.mem_cons.1 ha with rfl | ha
        · exact hsub b (List.mem_append_right _ hb)
        · exact hsplit a ha b hb
      · simp [hroot]
    · have hnil : h = [] := List.length_eq_zero.1 (by omega)
      subst hnil
      exact ⟨[], [], by simp [popLoop], by simp, by simp, by simp, by simp, by simp⟩

end annbench

end VectorSearch

namespace VectorSearch

namespace annbench

/-! ## `NNMock.Search` -/

/-- The gathering loop returns when the metric does; it keeps the heap a
min-heap that holds exactly the examined candidates within the threshold. -/
theorem searchLoop_spec {F : Type} [LinearOrder F] (nn : NNMock F) (maxCandidates : Int)
    (query : List F) (distanceThrsh : WithTop F) (ids : List String) (st : SearchState F)
    (hmetric : ∀ a b, (nn.distanceMetric.GetDist a b).isSome = true)
    (hheap : IsMinHeap st.minHeap)
    (hperm : st.minHeap.Perm
      (st.examined.filter fun a => decide ((a.Dist : WithTop F) ≤ distanceThrsh))) :
    ∃ res, searchLoop nn maxCandidates query distanceThrsh ids st = some res ∧
      ∀ st1, res = .ok st1 → IsMinHeap st1.minHeap ∧
        st1.minHeap.Perm
          (st1.examined.filter fun a => decide ((a.Dist : WithTop F) ≤ distanceThrsh)) := by
  induction ids generalizing st with
  | nil =>
    refine ⟨.ok st, by simp [searchLoop], ?_⟩
    intro st1 h1
    cases h1
    exact ⟨hheap, hperm⟩
  | cons id rest ih =>
    by_cases hfull : maxCandidates ≤ (st.minHeap.length : Int)
    · refine ⟨.ok st, by simp [searchLoop, hfull], ?_⟩
      intro st1 h1
      cases h1
      exact ⟨hheap, hperm⟩
    · by_cases hseen : id ∈ st.closestSet
      · obtain ⟨res, hres, hinv⟩ := ih st hheap hperm
        exact ⟨res, by simp [searchLoop, hfull, hseen, hres], hinv⟩
      · cases hvec : nn.index.GetVector id with
        | error err =>
          refine ⟨.error err, by simp [searchLoop, hfull, hseen, hvec], ?_⟩
          intro st1 h1
          cases h1
        | ok vec =>
          obtain ⟨dist, hdist⟩ := Option.isSome_iff_exists.1 (hmetric vec query)
          by_cases hthr : (dist : WithTop F) ≤ distanceThrsh
          · obtain ⟨h1, hpush, hheap1, hperm1⟩ :=
              heapPush_spec st.minHeap { Record := { ID := id, Vec := vec }, Dist := dist } hheap
            obtain ⟨res, hres, hinv⟩ := ih
              { closestSet := id :: st.closestSet, minHeap := h1,
                examined := { Record := { ID := id, Vec := vec }, Dist := dist } :: st.examined }
              hheap1 (by
                simp only [List.filter_cons, hthr, decide_True, if_true]
                exact hperm1.trans (hperm.cons _))
            exact ⟨res, by simp [searchLoop, hfull, hseen, hvec, hdist, hthr, hpush, hres], hinv⟩
          · obtain ⟨res, hres, hinv⟩ := ih
              { st with
                examined := { Record := { ID := id, Vec := vec }, Dist := dist } :: st.examined }
              hheap (by
                simp only [List.filter_cons, hthr, decide_False]
                exact hperm)
            exact ⟨res, by simp [searchLoop, hfull, hseen, hvec, hdist, hthr, hres], hinv⟩

/-- `NNMock.Search` returns when the metric does: either the error of the
gathering loop with an empty list, or the `min K (len heap)` smallest elements
of the final heap in ascending order. -/
theorem Search_spec {F : Type} [LinearOrder F] (nn : NNMock F) (query : List F) (maxNN : Int)
    (distanceThrsh : WithTop F)
    (hmetric : ∀ a b, (nn.distanceMetric.GetDist a b).isSome = true) :
    (∃ err, searchLoop nn nn.MaxCandidates query distanceThrsh (nn.index.GetHashIterator "0")
          { closestSet := [], minHeap := [], examined := [] } = some (.error err) ∧
        nn.Search query maxNN distanceThrsh = some ([], some err)) ∨
    (∃ st closest rest,
        searchLoop nn nn.MaxCandidates query distanceThrsh (nn.index.GetHashIterator "0")
          { closestSet := [], minHeap := [], examined := [] } = some (.ok st) ∧
        nn.Search query maxNN distanceThrsh = some (closest, none) ∧
        st.minHeap.Perm
          (st.examined.filter fun a => decide ((a.Dist : WithTop F) ≤ distanceThrsh)) ∧
        closest.length = min maxNN.toNat st.minHeap.length ∧
        (closest ++ rest).Perm st.minHeap ∧
        closest.Pairwise (fun a b => a.Dist ≤ b.Dist) ∧
        (∀ a ∈ closest, ∀ b ∈ rest, a.Dist ≤ b.Dist)) := by
  obtain ⟨res, hres, hinv⟩ := searchLoop_spec nn nn.MaxCandidates query distanceThrsh
    (nn.index.GetHashIterator "0") { closestSet := [], minHeap := [], examined := [] } hmetric
    (by intro k _; simp [key]) (by simp)
  cases res with
  | error err =>
    left
    exact ⟨err, hres, by simp [NNMock.Search, hres]⟩
  | ok st =>
    right
    obtain ⟨hheap, hperm⟩ := hinv st rfl
    obtain ⟨out, rest, hloop, hlen, hperm2, hsorted, hsplit, _⟩ :=
      popLoop_spec maxNN.toNat st.minHeap [] hheap
    exact ⟨st, out, rest, hres, by simp [NNMock.Search, hres, hloop], hperm, hlen, hperm2,
      hsorted, hsplit⟩

end annbench

/-! ## Search results: claims C4 and C5 -/

/-- C4: with a metric that returns, `NNMock.Search` returns a list of at most
`K` elements (none when `K ≤ 0`), sorted by `Dist` in ascending order; when it
returns no error, the list consists of the `min K n` smallest-distance ones of
the `n` neighbors pushed onto the min-heap (the content of the heap after the
gathering loop). -/
theorem C4_search_returns_k_smallest {F : Type} [LinearOrder F] (nn : annbench.NNMock F)
    (query : List F) (maxNN : Int) (distanceThrsh : WithTop F)
    (hmetric : ∀ a b, (nn.distanceMetric.GetDist a b).isSome = true) :
    ∃ closest err, nn.Search query maxNN distanceThrsh = some (closest, err) ∧
      closest.length ≤ maxNN.toNat ∧
      closest.Pairwise (fun a b => a.Dist ≤ b.Dist) ∧
      (err = none → ∃ st rest,
        annbench.searchLoop nn nn.MaxCandidates query distanceThrsh
          (nn.index.GetHashIterator "0")
          { closestSet := [], minHeap := [], examined := [] } = some (.ok st) ∧
        closest.length = min maxNN.toNat st.minHeap.length ∧
        (closest ++ rest).Perm st.minHeap ∧
        ∀ a ∈ closest, ∀ b ∈ rest, a.Dist ≤ b.Dist) := by
  rcases annbench.Search_spec nn query maxNN distanceThrsh hmetric with
    ⟨err, _, hsearch⟩ | ⟨st, closest, rest, hloop, hsearch, _, hlen, hperm, hsorted, hsplit⟩
  · exact ⟨[], some err, hsearch, by simp, by simp, by simp⟩
  · refine ⟨closest, none, hsearch, by omega, hsorted, ?_⟩
    intro _
    exact ⟨st, rest, hloop, hlen, hperm, hsplit⟩

/-- C5: with a metric that returns, every neighbor that `NNMock.Search` returns
has `Dist ≤ distanceThrsh`; and when it returns no error and fewer than `K` of
the examined candidates lie within the threshold, it returns all of them. -/
theorem C5_search_within_threshold {F : Type} [LinearOrder F] (nn : annbench.NNMock F)
    (query : List F) (maxNN : Int) (distanceThrsh : WithTop F)
    (hmetric : ∀ a b, (nn.distanceMetric.GetDist a b).isSome = true) :
    ∃ closest err, nn.Search query maxNN distanceThrsh = some (closest, err) ∧
      (∀ a ∈ closest, (a.Dist : WithTop F) ≤ distanceThrsh) ∧
      (err = none → ∃ st,
        annbench.searchLoop nn nn.MaxCandidates query distanceThrsh
          (nn.index.GetHashIterator "0")
          { closestSet := [], minHeap := [], examined := [] } = some (.ok st) ∧
        (((st.examined.filter fun a => decide ((a.Dist : WithTop F) ≤ distanceThrsh)).length : Int)
            < maxNN →
          closest.Perm
            (st.examined.filter fun a => decide ((a.Dist : WithTop F) ≤ distanceThrsh)))) := by
  rcases annbench.Search_spec nn query maxNN distanceThrsh hmetric with
    ⟨err, _, hsearch⟩ | ⟨st, closest, rest, hloop, hsearch, hheap, hlen, hperm, _, _⟩
  · exact ⟨[], some err, hsearch, by simp, by simp⟩
  · refine ⟨closest, none, hsearch, ?_, ?_⟩
    · intro a ha
      have hmem : a ∈ st.examined.filter fun a => decide ((a.Dist : WithTop F) ≤ distanceThrsh) :=
        hheap.subset (hperm.subset (List.mem_append_left _ ha))
      simpa using (List.mem_filter.1 hmem).2
    · intro _
      refine ⟨st, hloop, ?_⟩
      intro hfew
      have hlen2 := hheap.length_eq
      have hlen3 := hperm.length_eq
      simp only [List.length_append] at hlen3
      have hrest : rest = [] := List.length_eq_zero.1 (by omega)
      subst hrest
      simpa using hperm.trans hheap

end VectorSearch

namespace VectorSearch

theorem C4_search_returns_k_smallest_witness :
    ∃ closest err, annbench.exampleTrained.Search [1] 2 5 = some (closest, err) ∧
      closest.length ≤ (2 : Int).toNat ∧
      closest.Pairwise (fun a b => a.Dist ≤ b.Dist) ∧
      (err = none → ∃ st rest,
        annbench.searchLoop annbench.exampleTrained annbench.exampleTrained.MaxCandidates [1] 5
          (annbench.exampleTrained.index.GetHashIterator "0")
          { closestSet := [], minHeap := [], examined := [] } = some (.ok st) ∧
        closest.length = min (2 : Int).toNat st.minHeap.length ∧
        (closest ++ rest).Perm st.minHeap ∧
        ∀ a ∈ closest, ∀ b ∈ rest, a.Dist ≤ b.Dist) :=
  C4_search_returns_k_smallest annbench.exampleTrained [1] 2 5 (fun _ _ => rfl)

theorem C5_search_within_threshold_witness :
    ∃ closest err, annbench.exampleTrained.Search [1] 2 1 = some (closest, err) ∧
      (∀ a ∈ closest, (a.Dist : WithTop Int) ≤ 1) ∧
      (err = none → ∃ st,
        annbench.searchLoop annbench.exampleTrained annbench.exampleTrained.MaxCandidates [1] 1
          (annbench.exampleTrained.index.GetHashIterator "0")
          { closestSet := [], minHeap := [], examined := [] } = some (.ok st) ∧
        (((st.examined.filter fun a => decide ((a.Dist : WithTop Int) ≤ 1)).length : Int)
            < 2 →
          closest.Perm
            (st.examined.filter fun a => decide ((a.Dist : WithTop Int) ≤ 1)))) :=
  C5_search_within_threshold annbench.exampleTrained [1] 2 1 (fun _ _ => rfl)

end VectorSearch

namespace VectorSearch

namespace algorithm

theorem Vector.L2_eq {F : Type} [LinearOrderedField F] (sqrt : F → F) (vec inpVec : Vector F)
    (hlen : vec.Values.length ≤ inpVec.Values.length) :
    vec.L2 sqrt inpVec
      = some (sqrt (List.zipWith (fun a b => (a - b) * (a - b)) vec.Values inpVec.Values).sum) := by
  unfold Vector.L2
  rw [forRange_eq_foldl vec.Values.length _
    (fun s i => s + (vec.Values[i]?.getD 0 - inpVec.Values[i]?.getD 0)
      * (vec.Values[i]?.getD 0 - inpVec.Values[i]?.getD 0))]
  · rw [range_foldl_add (fun i => (vec.Values[i]?.getD 0 - inpVec.Values[i]?.getD 0)
        * (vec.Values[i]?.getD 0 - inpVec.Values[i]?.getD 0)),
      range_map_zipWith (fun a b => (a - b) * (a - b)) vec.Values inpVec.Values 0 0 hlen]
    simp
  · intro i s hi
    have hi2 : i < inpVec.Values.length := by omega
    simp [List.getElem?_eq_getElem, hi, hi2]

theorem sum_sq_diff_self {F : Type} [LinearOrderedField F] (v : List F) :
    (List.zipWith (fun a b => (a - b) * (a - b)) v v).sum = 0 := by
  induction v with
  | nil => simp
  | cons a v ih => simp [ih]

end algorithm

namespace annbench

/-! ## `NNMock.Train` followed by `NNMock.Search` -/

/-- The store after the loop of `Train`: bucket "0" gains the new ids in
order, every new record has its vector, and the iteration order is kept. -/
theorem train_fold {F : Type} (records : List (Record F)) (s : Store F)
    (hnodup : (records.map fun r => r.ID).Nodup)
    (hfresh : ∀ r ∈ records, r.ID ∉ s.buckets "0") :
    (records.foldl (fun st rec => (st.SetVector rec.ID rec.Vec).SetHash "0" rec.ID) s).buckets "0"
        = s.buckets "0" ++ records.map (fun r => r.ID) ∧
    (records.foldl (fun st rec => (st.SetVector rec.ID rec.Vec).SetHash "0" rec.ID) s).iterOrder
        = s.iterOrder ∧
    (∀ r ∈ records,
      (records.foldl (fun st rec => (st.SetVector rec.ID rec.Vec).SetHash "0" rec.ID) s).vectors r.ID
        = some r.Vec) ∧
    (∀ id, id ∉ records.map (fun r => r.ID) →
      (records.foldl (fun st rec => (st.SetVector rec.ID rec.Vec).SetHash "0" rec.ID) s).vectors id
        = s.vectors id) := by
  induction records generalizing s with
  | nil => simp
  | cons r0 rest ih =>
    simp only [List.map_cons, List.nodup_cons] at hnodup
    obtain ⟨hr0, hrest⟩ := hnodup
    have hr0fresh : r0.ID ∉ s.buckets "0" := hfresh r0 (List.mem_cons_self _ _)
    have hb1 : ((s.SetVector r0.ID r0.Vec).SetHash "0" r0.ID).buckets "0"
        = s.buckets "0" ++ [r0.ID] := by
      simp [Store.SetHash, Store.SetVector, hr0fresh]
    obtain ⟨ihb, ihi, ihv, ihk⟩ := ih ((s.SetVector r0.ID r0.Vec).SetHash "0" r0.ID) hrest
      (by
        intro r hr
        rw [hb1]
        intro hmem
        rcases List.mem_append.1 hmem with h | h
        · exact hfresh r (List.mem_cons_of_mem _ hr) h
        · simp only [List.mem_singleton] at h
          exact hr0 (h ▸ List.mem_map_of_mem (fun r => r.ID) hr))
    simp only [List.foldl_cons]
    refine ⟨?_, ?_, ?_, ?_⟩
    · rw [ihb, hb1]; simp
    · rw [ihi]; simp [Store.SetHash, Store.SetVector]
    · intro r hr
      rcases List.mem_cons.1 hr with rfl | hr
      · rw [ihk _ hr0]
        simp [Store.SetHash, Store.SetVector]
      · exact ihv r hr
    · intro id hid
      simp only [List.map_cons, List.mem_cons, not_or] at hid
      rw [ihk id hid.2]
      simp [Store.SetHash, Store.SetVector, hid.1]

/-- When the budget covers every id still to come, all of them are new, have a
vector and lie within the threshold, the gathering loop pushes them all. -/
theorem searchLoop_full {F : Type} [LinearOrder F] (nn : NNMock F) (maxCandidates : Int)
    (query : List F) (distanceThrsh : WithTop F) (ids : List String) (st : SearchState F)
    (hnodup : ids.Nodup) (hfresh : ∀ id ∈ ids, id ∉ st.closestSet)
    (hcand : ∀ id ∈ ids, ∃ vec dist, nn.index.GetVector id = .ok vec ∧
      nn.distanceMetric.GetDist vec query = some dist ∧ (dist : WithTop F) ≤ distanceThrsh)
    (hbudget : (st.minHeap.length : Int) + ids.length ≤ maxCandidates)
    (hheap : IsMinHeap st.minHeap) :
    ∃ st1, searchLoop nn maxCandidates query distanceThrsh ids st = some (.ok st1) ∧
      IsMinHeap st1.minHeap ∧
      (∀ a ∈ st.minHeap, a ∈ st1.minHeap) ∧
      (∀ id ∈ ids, ∃ a ∈ st1.minHeap, nn.index.GetVector id = .ok a.Record.Vec ∧
        nn.distanceMetric.GetDist a.Record.Vec query = some a.Dist) ∧
      (∀ a ∈ st1.minHeap, a ∈ st.minHeap ∨
        ∃ vec, nn.distanceMetric.GetDist vec query = some a.Dist) := by
  induction ids generalizing st with
  | nil =>
    exact ⟨st, by simp [searchLoop], hheap, fun a ha => ha, by simp, fun a ha => Or.inl ha⟩
  | cons id rest ih =>
    simp only [List.nodup_cons] at hnodup
    obtain ⟨hid, hrest⟩ := hnodup
    have hfull : ¬ maxCandidates ≤ (st.minHeap.length : Int) := by
      simp only [List.length_cons] at hbudget
      push_cast at hbudget
      omega
    have hseen : id ∉ st.closestSet := hfresh id (List.mem_cons_self _ _)
    obtain ⟨vec, dist, hvec, hdist, hthr⟩ := hcand id (List.mem_cons_self _ _)
    obtain ⟨h1, hpush, hheap1, hperm1⟩ :=
      heapPush_spec st.minHeap { Record := { ID := id, Vec := vec }, Dist := dist } hheap
    have hlen1 : h1.length = st.minHeap.length + 1 := by
      have := hperm1.length_eq
      simpa using this
    obtain ⟨st1, hloop, hheap2, hmono, hall, hsrc⟩ := ih
      { closestSet := id :: st.closestSet, minHeap := h1,
        examined := { Record := { ID := id, Vec := vec }, Dist := dist } :: st.examined }
      hrest
      (by
        intro id1 hid1
        simp only [List.mem_cons, not_or]
        exact ⟨fun e => hid (e ▸ hid1), hfresh id1 (List.mem_cons_of_mem _ hid1)⟩)
      (fun id1 hid1 => hcand id1 (List.mem_cons_of_mem _ hid1))
      (by
        simp only [List.length_cons] at hbudget
        push_cast at hbudget
        simp only [hlen1]
        push_cast
        omega)
      hheap1
    refine ⟨st1, by simp [searchLoop, hfull, hseen, hvec, hdist, hthr, hpush, hloop], hheap2,
      ?_, ?_, ?_⟩
    · intro a ha
      exact hmono a (hperm1.symm.subset (List.mem_cons_of_mem _ ha))
    · intro id1 hid1
      rcases List.mem_cons.1 hid1 with rfl | hid1
      · exact ⟨_, hmono _ (hperm1.symm.subset (List.mem_cons_self _ _)), hvec, hdist⟩
      · exact hall id1 hid1
    · intro a ha
      rcases hsrc a ha with h | h
      · rcases List.mem_cons.1 (hperm1.subset h) with rfl | h
        · exact Or.inr ⟨vec, hdist⟩
        · exact Or.inl h
      · exact Or.inr h

end annbench

end VectorSearch

namespace VectorSearch

/-! ## Claim C6 -/

/-- C6 (amended): after `Train(R)` on records with pairwise distinct IDs and
vectors of one dimension, with a store that iterates a bucket in some order and
`MaxCandidates ≥ len(R)`, for every record `r` of `R` the call
`Search(r.Vec, 1, +∞)` under the Euclidean metric returns exactly one neighbor,
whose `Dist` is 0. -/
theorem C6_search_finds_trained_record {F : Type} [LinearOrderedField F] (sqrt : F → F)
    (store : annbench.Store F) (maxCandidates : Int) (records : List (annbench.Record F))
    (r : annbench.Record F) (D : Nat)
    (hsqrt0 : sqrt 0 = 0) (hsqrt : ∀ x, 0 ≤ sqrt x)
    (hiter : ∀ ids, (store.iterOrder ids).Perm ids)
    (hids : (records.map fun rec => rec.ID).Nodup)
    (hdim : ∀ rec ∈ records, rec.Vec.length = D)
    (hr : r ∈ records) (hmax : (records.length : Int) ≤ maxCandidates) :
    ∃ n, ((annbench.NewNNMock maxCandidates store (annbench.NewL2 sqrt)).Train records).1.Search
        r.Vec 1 ⊤ = some ([n], none) ∧ n.Dist = 0 := by
  obtain ⟨hb, hi, hv, _⟩ := annbench.train_fold records
    (store.Clear).1 hids (by simp [annbench.Store.Clear])
  generalize htrained : ((annbench.NewNNMock maxCandidates store (annbench.NewL2 sqrt)).Train
    records).1 = nn
  have hnn : nn =
      { index := (records.foldl
          (fun st rec => (st.SetVector rec.ID rec.Vec).SetHash "0" rec.ID) (store.Clear).1),
        distanceMetric := annbench.NewL2 sqrt, MaxCandidates := maxCandidates } := by
    rw [← htrained]
    simp [annbench.NNMock.Train, annbench.NewNNMock, annbench.Store.Clear]
  have hiterids : (nn.index.GetHashIterator "0").Perm (records.map fun rec => rec.ID) := by
    rw [hnn]
    simp only [annbench.Store.GetHashIterator, hb, hi]
    simpa [annbench.Store.Clear] using hiter (records.map fun rec => rec.ID)
  have hgetvec : ∀ rec ∈ records, nn.index.GetVector rec.ID = .ok rec.Vec := by
    intro rec hrec
    rw [hnn]
    simp [annbench.Store.GetVector, hv rec hrec]
  have hdist : ∀ vec : List F, vec.length = D →
      nn.distanceMetric.GetDist vec r.Vec
        = some (sqrt (List.zipWith (fun a b => (a - b) * (a - b)) vec r.Vec).sum) := by
    intro vec hvec
    rw [hnn]
    simp only [annbench.NewL2]
    exact algorithm.Vector.L2_eq sqrt _ _ (by simp [algorithm.NewVector, hvec, hdim r hr])
  have hnonneg : ∀ (vec : List F) (d : F), nn.distanceMetric.GetDist vec r.Vec = some d → 0 ≤ d := by
    intro vec d hd
    rw [hnn] at hd
    simp only [annbench.NewL2, algorithm.Vector.L2, Option.bind_eq_some] at hd
    obtain ⟨l2, _, hl2⟩ := hd
    cases hl2
    exact hsqrt l2
  obtain ⟨st, hloop, hheap, _, hall, hsrc⟩ := annbench.searchLoop_full nn nn.MaxCandidates r.Vec ⊤
    (nn.index.GetHashIterator "0") { closestSet := [], minHeap := [], examined := [] }
    (hiterids.nodup_iff.2 hids) (by simp)
    (by
      intro id hid
      obtain ⟨rec, hrec, rfl⟩ := List.mem_map.1 (hiterids.subset hid)
      exact ⟨rec.Vec, _, hgetvec rec hrec, hdist rec.Vec (hdim rec hrec), le_top⟩)
    (by
      have hlen := hiterids.length_eq
      simp only [List.length_map] at hlen
      simp only [List.length_nil, hlen]
      rw [hnn]
      simpa using hmax)
    (by intro k _; simp [annbench.key])
  obtain ⟨a, ha, havec, hadist⟩ := hall r.ID
    (hiterids.symm.subset (List.mem_map_of_mem (fun rec => rec.ID) hr))
  have haval : a.Dist = 0 := by
    rw [hgetvec r hr] at havec
    have hav : r.Vec = a.Record.Vec := Except.ok.inj havec
    rw [← hav, hdist r.Vec (hdim r hr), algorithm.sum_sq_diff_self, hsqrt0] at hadist
    exact (Option.some.inj hadist).symm
  obtain ⟨out, rest, hpop, hlen, hperm, _, hsplit, _⟩ :=
    annbench.popLoop_spec 1 st.minHeap [] hheap
  have hpos : 0 < st.minHeap.length := List.length_pos_of_mem ha
  have hlen1 : out.length = 1 := by omega
  obtain ⟨n, rfl⟩ := List.length_eq_one.1 hlen1
  refine ⟨n, ?_, ?_⟩
  · simp only [annbench.NNMock.Search, hloop, Option.some_bind]
    simp only [show (1 : Int).toNat = 1 from rfl, hpop]
    simp
  · have hn : n ∈ st.minHeap := hperm.subset (by simp)
    have hge : 0 ≤ n.Dist := by
      rcases hsrc n hn with h | ⟨vec, hvec⟩
      · simp at h
      · exact hnonneg vec n.Dist hvec
    have hle : n.Dist ≤ a.Dist := by
      rcases List.mem_append.1 (hperm.symm.subset ha) with h | h
      · simp only [List.mem_singleton] at h
        rw [h]
      · exact hsplit n (by simp) a h
    rw [haval] at hle
    exact le_antisymm hle hge

end VectorSearch

namespace VectorSearch

theorem NewL2_dim_one (a b : ℚ) :
    (annbench.NewL2 Rat.sqrt).GetDist [a] [b] = some (Rat.sqrt ((a - b) * (a - b))) := by
  simp only [annbench.NewL2]
  rw [algorithm.Vector.L2_eq Rat.sqrt _ _ (by simp [algorithm.NewVector])]
  simp [algorithm.NewVector]

theorem C6_search_finds_trained_record_witness :
    ∃ n, ((annbench.NewNNMock 2
          { vectors := fun _ => none, buckets := fun _ => [], iterOrder := fun ids => ids }
          (annbench.NewL2 Rat.sqrt)).Train annbench.twoRecords).1.Search [1] 1 ⊤
        = some ([n], none) ∧ n.Dist = 0 :=
  C6_search_finds_trained_record Rat.sqrt
    { vectors := fun _ => none, buckets := fun _ => [], iterOrder := fun ids => ids }
    2 annbench.twoRecords { ID := "b", Vec := [1] } 1
    (by simp [Rat.sqrt]) Rat.sqrt_nonneg (fun ids => List.Perm.refl ids)
    (by simp [annbench.twoRecords]) (by simp [annbench.twoRecords])
    (by simp [annbench.twoRecords]) (by simp [annbench.twoRecords])

/-- C6 as stated fails when `MaxCandidates` is smaller than the number of
records: with a budget of one candidate and the two records `a = [0]` and
`b = [1]`, whichever of the two the store yields first, the search for the
vector of the other record returns the first one, at distance 1. -/
theorem C6_counterexample :
    (¬ ∀ r ∈ annbench.twoRecords, ∃ closest,
        ((annbench.oneCandidateMock fun ids => ids).Train annbench.twoRecords).1.Search
          r.Vec 1 ⊤ = some (closest, none) ∧ ∃ n ∈ closest, n.Dist = 0) ∧
    (¬ ∀ r ∈ annbench.twoRecords, ∃ closest,
        ((annbench.oneCandidateMock List.reverse).Train annbench.twoRecords).1.Search
          r.Vec 1 ⊤ = some (closest, none) ∧ ∃ n ∈ closest, n.Dist = 0) := by
  constructor
  · intro h
    obtain ⟨closest, hsearch, n, hn, hdist⟩ := h { ID := "b", Vec := [1] }
      (by simp [annbench.twoRecords])
    have heval : ((annbench.oneCandidateMock fun ids => ids).Train annbench.twoRecords).1.Search
        [1] 1 ⊤ = some ([{ Record := { ID := "a", Vec := [0] }, Dist := 1 }], none) := by
      simp [annbench.NNMock.Search, annbench.NNMock.Train, annbench.oneCandidateMock,
        annbench.twoRecords, annbench.NewNNMock, annbench.Store.Clear, annbench.Store.SetVector,
        annbench.Store.SetHash, annbench.Store.GetHashIterator, annbench.searchLoop,
        annbench.Store.GetVector, NewL2_dim_one, Rat.sqrt_eq,
        annbench.heapPush, annbench.FloatMinHeap.Push, annbench.up, annbench.popLoop,
        annbench.heapPop, annbench.FloatMinHeap.Swap, annbench.down, annbench.FloatMinHeap.Pop]
    rw [heval] at hsearch
    simp only [Option.some.injEq, Prod.mk.injEq, and_true] at hsearch
    subst hsearch
    simp only [List.mem_singleton] at hn
    subst hn
    norm_num at hdist
  · intro h
    obtain ⟨closest, hsearch, n, hn, hdist⟩ := h { ID := "a", Vec := [0] }
      (by simp [annbench.twoRecords])
    have heval : ((annbench.oneCandidateMock List.reverse).Train annbench.twoRecords).1.Search
        [0] 1 ⊤ = some ([{ Record := { ID := "b", Vec := [1] }, Dist := 1 }], none) := by
      simp [annbench.NNMock.Search, annbench.NNMock.Train, annbench.oneCandidateMock,
        annbench.twoRecords, annbench.NewNNMock, annbench.Store.Clear, annbench.Store.SetVector,
        annbench.Store.SetHash, annbench.Store.GetHashIterator, annbench.searchLoop,
        annbench.Store.GetVector, NewL2_dim_one, Rat.sqrt_eq,
        annbench.heapPush, annbench.FloatMinHeap.Push, annbench.up, annbench.popLoop,
        annbench.heapPop, annbench.FloatMinHeap.Swap, annbench.down, annbench.FloatMinHeap.Pop]
    rw [heval] at hsearch
    simp only [Option.some.injEq, Prod.mk.injEq, and_true] at hsearch
    subst hsearch
    simp only [List.mem_singleton] at hn
    subst hn
    norm_num at hdist

end VectorSearch

namespace VectorSearch

/-! ## Random planes -/

/-- The coefficient loop shared by both `getRandomPlane` functions: after `n`
rounds the first `n` cells hold `-1 + 2 r_i`, the accumulator their sum of
squares, and `n` draws are consumed. -/
theorem coefLoop_spec {F : Type} [LinearOrderedField F] (rnd : Rand F) (D n : Nat) (hn : n ≤ D) :
    forRange n (fun i (st : List F × F × Rand F) =>
        let draw := Float64 st.2.2
        (setIdx st.1 i (-1 + draw.1 * 2)).bind fun coefs =>
        coefs[i]?.bind fun ci =>
        some (coefs, st.2.1 + ci * ci, draw.2)) (List.replicate (D + 1) (0 : F), 0, rnd)
      = some ((List.range n).map (fun i => -1 + rnd i * 2) ++ List.replicate (D + 1 - n) (0 : F),
          ((List.range n).map fun i => (-1 + rnd i * 2) * (-1 + rnd i * 2)).sum,
          fun k => rnd (k + n)) := by
  induction n with
  | zero => simp [forRange_zero]
  | succ n ih =>
    rw [forRange_succ, ih (by omega)]
    have hlen : n < ((List.range n).map (fun i => -1 + rnd i * 2)
        ++ List.replicate (D + 1 - n) (0 : F)).length := by
      simp; omega
    have hrep : List.replicate (D + 1 - n) (0 : F) = 0 :: List.replicate (D + 1 - (n + 1)) 0 := by
      rw [show D + 1 - n = (D + 1 - (n + 1)) + 1 by omega, List.replicate_succ]
    have hset : (List.map (fun i => -1 + rnd i * 2) (List.range n)
          ++ List.replicate (D + 1 - n) (0 : F)).set n (-1 + rnd n * 2)
        = List.map (fun i => -1 + rnd i * 2) (List.range (n + 1))
          ++ List.replicate (D + 1 - (n + 1)) (0 : F) := by
      rw [List.set_append_right _ _ (by simp), hrep]
      simp [List.range_succ]
    have hget : (List.map (fun i => -1 + rnd i * 2) (List.range (n + 1))
          ++ List.replicate (D + 1 - (n + 1)) (0 : F))[n]? = some (-1 + rnd n * 2) := by
      rw [List.getElem?_append_left (by simp)]
      simp [List.range_succ]
    simp only [Option.some_bind, Float64, setIdx, if_pos hlen, zero_add, hset, hget]
    congr 1
    refine Prod.ext rfl (Prod.ext ?_ ?_)
    · simp [List.range_succ]
    · funext k
      simp only
      congr 1
      omega

end VectorSearch

namespace VectorSearch

theorem sum_sq_randomCoefs {F : Type} [LinearOrderedField F] (D : Nat) (rnd : Rand F) :
    ((List.range D).map fun i => (-1 + rnd i * 2) * (-1 + rnd i * 2)).sum
      = ((randomCoefs D rnd).map fun x => x * x).sum := by
  simp only [randomCoefs, List.map_map]
  rfl

theorem lsh.Hasher.getRandomPlane_closed {F : Type} [LinearOrderedField F] (sqrt : F → F)
    (lshIndex : lsh.Hasher F) (rnd : Rand F) (D : Nat) (hD : lshIndex.Config.Dims = D) :
    lshIndex.getRandomPlane sqrt rnd
      = some (randomCoefs D rnd ++ [randomOffset sqrt lshIndex.Config.Bias D rnd],
          fun k => rnd (k + (D + 1))) := by
  unfold lsh.Hasher.getRandomPlane
  rw [hD, show ((D : Int) + 1) = ((D + 1 : Nat) : Int) by push_cast; rfl,
    algorithm.makeSlice_length]
  simp only [Option.some_bind, Int.toNat_ofNat]
  rw [coefLoop_spec rnd D D (le_refl D)]
  simp only [Option.some_bind, Float64, sum_sq_randomCoefs]
  have hlen : ((List.map (fun i => -1 + rnd i * 2) (List.range D)
      ++ List.replicate (D + 1 - D) (0 : F)).length : Int) - 1 = (D : Int) := by
    simp
  rw [hlen]
  simp only [setIdxInt, setIdx, Int.toNat_ofNat, Int.natCast_nonneg, if_true]
  rw [if_pos (by simp)]
  simp only [Option.some_bind]
  rw [List.set_append_right _ _ (by simp)]
  simp only [List.length_map, List.length_range, Nat.sub_self, Nat.add_sub_cancel_left,
    List.replicate_one, List.set_cons_zero, zero_add]
  congr 1
  refine Prod.ext rfl ?_
  funext k
  simp only
  congr 1
  omega

theorem algorithm.LSHIndex.getRandomPlane_values {F : Type} [LinearOrderedField F] (sqrt : F → F)
    (lsh : algorithm.LSHIndex F) (rnd : Rand F) (D : Nat) (hD : lsh.dims = D) :
    lsh.getRandomPlane sqrt rnd
      = some ({ Values := randomCoefs D rnd ++ [randomOffset sqrt lsh.bias D rnd],
                Size := (D : Int) + 1 },
          fun k => rnd (k + (D + 1))) := by
  unfold algorithm.LSHIndex.getRandomPlane
  rw [hD, show ((D : Int) + 1) = ((D + 1 : Nat) : Int) by push_cast; rfl,
    algorithm.makeSlice_length]
  simp only [Option.some_bind, Int.toNat_ofNat]
  rw [coefLoop_spec rnd D D (le_refl D)]
  simp only [Option.some_bind, Float64, sum_sq_randomCoefs]
  have hsz : ((D + 1 : Nat) : Int) - 1 = (D : Int) := by
    push_cast; ring
  rw [hsz]
  simp only [setIdxInt, setIdx, Int.toNat_ofNat, Int.natCast_nonneg, if_true]
  rw [if_pos (by simp)]
  simp only [Option.some_bind]
  rw [List.set_append_right _ _ (by simp)]
  simp only [List.length_map, List.length_range, Nat.sub_self, Nat.add_sub_cancel_left,
    List.replicate_one, List.set_cons_zero, zero_add]
  congr 1
  refine Prod.ext ?_ ?_
  · simp [randomCoefs, randomOffset, norm2]
  · funext k
    simp only
    congr 1
    omega

end VectorSearch

namespace VectorSearch

/-! ## Random planes: claims C7 and C8 -/

theorem randomCoefs_length {F : Type} [LinearOrderedField F] (D : Nat) (rnd : Rand F) :
    (randomCoefs D rnd).length = D := by
  simp [randomCoefs]

theorem randomCoefs_bounds {F : Type} [LinearOrderedField F] (D : Nat) (rnd : Rand F)
    (hrnd : ∀ k, 0 ≤ rnd k ∧ rnd k < 1) : ∀ ci ∈ randomCoefs D rnd, -1 ≤ ci ∧ ci ≤ 1 := by
  intro ci hci
  simp only [randomCoefs, List.mem_map] at hci
  obtain ⟨i, _, rfl⟩ := hci
  obtain ⟨h0, h1⟩ := hrnd i
  constructor <;> linarith

theorem randomOffset_bound {F : Type} [LinearOrderedField F] (sqrt : F → F) (bias : F) (D : Nat)
    (rnd : Rand F) (hsqrt : ∀ x, 0 ≤ sqrt x) (hbias : 0 ≤ bias)
    (hrnd : ∀ k, 0 ≤ rnd k ∧ rnd k < 1) :
    |randomOffset sqrt bias D rnd| ≤ norm2 sqrt (randomCoefs D rnd) * bias := by
  have hb : 0 ≤ norm2 sqrt (randomCoefs D rnd) * bias := mul_nonneg (hsqrt _) hbias
  obtain ⟨h0, h1⟩ := hrnd D
  unfold randomOffset
  rw [abs_le]
  constructor <;> nlinarith

/-- In exact arithmetic: for `Bias ≥ 0`, dimension `D ≥ 0` and draws in `[0, 1)`, both
`getRandomPlane` functions return a plane whose coefficients lie in `[-1, 1]`
and whose offset `d` satisfies `|d| ≤ ‖c‖ * Bias`, so that `|d| / ‖c‖ ≤ Bias`
when `‖c‖ > 0`. -/
theorem random_plane_bounds_exact {F : Type} [LinearOrderedField F] (sqrt : F → F)
    (lshIndex : lsh.Hasher F) (index : algorithm.LSHIndex F) (rnd : Rand F) (D : Nat)
    (hsqrt : ∀ x, 0 ≤ sqrt x)
    (hD1 : lshIndex.Config.Dims = D) (hD2 : index.dims = D)
    (hb1 : 0 ≤ lshIndex.Config.Bias) (hb2 : 0 ≤ index.bias)
    (hrnd : ∀ k, 0 ≤ rnd k ∧ rnd k < 1) :
    (∃ c d rnd1, lshIndex.getRandomPlane sqrt rnd = some (c ++ [d], rnd1) ∧ c.length = D ∧
      (∀ ci ∈ c, -1 ≤ ci ∧ ci ≤ 1) ∧ |d| ≤ norm2 sqrt c * lshIndex.Config.Bias ∧
      (0 < norm2 sqrt c → |d| / norm2 sqrt c ≤ lshIndex.Config.Bias)) ∧
    (∃ c d rnd1,
      index.getRandomPlane sqrt rnd = some ({ Values := c ++ [d], Size := (D : Int) + 1 }, rnd1) ∧
      c.length = D ∧
      (∀ ci ∈ c, -1 ≤ ci ∧ ci ≤ 1) ∧ |d| ≤ norm2 sqrt c * index.bias ∧
      (0 < norm2 sqrt c → |d| / norm2 sqrt c ≤ index.bias)) := by
  constructor
  · refine ⟨randomCoefs D rnd, randomOffset sqrt lshIndex.Config.Bias D rnd, _,
      lsh.Hasher.getRandomPlane_closed sqrt lshIndex rnd D hD1, randomCoefs_length D rnd,
      randomCoefs_bounds D rnd hrnd, randomOffset_bound sqrt _ D rnd hsqrt hb1 hrnd, ?_⟩
    intro hpos
    rw [div_le_iff₀ hpos, mul_comm]
    exact randomOffset_bound sqrt _ D rnd hsqrt hb1 hrnd
  · refine ⟨randomCoefs D rnd, randomOffset sqrt index.bias D rnd, _,
      algorithm.LSHIndex.getRandomPlane_values sqrt index rnd D hD2, randomCoefs_length D rnd,
      randomCoefs_bounds D rnd hrnd, randomOffset_bound sqrt _ D rnd hsqrt hb2 hrnd, ?_⟩
    intro hpos
    rw [div_le_iff₀ hpos, mul_comm]
    exact randomOffset_bound sqrt _ D rnd hsqrt hb2 hrnd

theorem sum_sq_eq_zero {F : Type} [LinearOrderedField F] (cs : List F)
    (hc : ∀ ci ∈ cs, ci = 0) : (cs.map (fun ci => ci * ci)).sum = 0 := by
  induction cs with
  | nil => simp
  | cons a cs ih =>
    simp only [List.map_cons, List.sum_cons]
    rw [hc a (List.mem_cons_self _ _), ih (fun ci hci => hc ci (List.mem_cons_of_mem _ hci))]
    simp

/-- The random coefficient vector has a positive norm exactly when some
coefficient draw differs from 1/2. -/
theorem norm2_randomCoefs_pos_iff {F : Type} [LinearOrderedField F] (sqrt : F → F) (D : Nat)
    (rnd : Rand F) (hsqrt0 : sqrt 0 = 0) (hsqrtpos : ∀ x, 0 < x → 0 < sqrt x) :
    0 < norm2 sqrt (randomCoefs D rnd) ↔ ∃ k, k < D ∧ rnd k ≠ 1 / 2 := by
  constructor
  · intro hpos
    by_contra hnone
    have hall : ∀ ci ∈ randomCoefs D rnd, ci = 0 := by
      intro ci hci
      simp only [randomCoefs, List.mem_map, List.mem_range] at hci
      obtain ⟨i, hi, rfl⟩ := hci
      have : rnd i = 1 / 2 := by
        by_contra hne
        exact hnone ⟨i, hi, hne⟩
      rw [this]
      norm_num
    unfold norm2 at hpos
    rw [sum_sq_eq_zero _ hall, hsqrt0] at hpos
    exact lt_irrefl _ hpos
  · rintro ⟨k, hk, hne⟩
    apply hsqrtpos
    apply sum_sq_pos
    refine ⟨-1 + rnd k * 2, ?_, ?_⟩
    · simp only [randomCoefs, List.mem_map, List.mem_range]
      exact ⟨k, hk, rfl⟩
    · intro h0
      apply hne
      linarith

/-- C8 (amended): for every dimension `D ≥ 0` and every sequence of draws, both
`getRandomPlane` functions return a plane whose coefficient vector is non-zero
(`‖c‖ > 0`) if and only if at least one of the `D` coefficient draws differs
from 1/2. -/
theorem C8_random_plane_nonzero_iff {F : Type} [LinearOrderedField F] (sqrt : F → F)
    (lshIndex : lsh.Hasher F) (index : algorithm.LSHIndex F) (rnd : Rand F) (D : Nat)
    (hsqrt0 : sqrt 0 = 0) (hsqrtpos : ∀ x, 0 < x → 0 < sqrt x)
    (hD1 : lshIndex.Config.Dims = D) (hD2 : index.dims = D) :
    (∃ c d rnd1, lshIndex.getRandomPlane sqrt rnd = some (c ++ [d], rnd1) ∧ c.length = D ∧
      (0 < norm2 sqrt c ↔ ∃ k, k < D ∧ rnd k ≠ 1 / 2)) ∧
    (∃ c d rnd1,
      index.getRandomPlane sqrt rnd = some ({ Values := c ++ [d], Size := (D : Int) + 1 }, rnd1) ∧
      c.length = D ∧ (0 < norm2 sqrt c ↔ ∃ k, k < D ∧ rnd k ≠ 1 / 2)) :=
  ⟨⟨randomCoefs D rnd, randomOffset sqrt lshIndex.Config.Bias D rnd, _,
      lsh.Hasher.getRandomPlane_closed sqrt lshIndex rnd D hD1, randomCoefs_length D rnd,
      norm2_randomCoefs_pos_iff sqrt D rnd hsqrt0 hsqrtpos⟩,
    ⟨randomCoefs D rnd, randomOffset sqrt index.bias D rnd, _,
      algorithm.LSHIndex.getRandomPlane_values sqrt index rnd D hD2, randomCoefs_length D rnd,
      norm2_randomCoefs_pos_iff sqrt D rnd hsqrt0 hsqrtpos⟩⟩

theorem rat_sqrt_pos (x : ℚ) (hx : 0 < x) : 0 < Rat.sqrt x := by
  unfold Rat.sqrt
  rw [Rat.mkRat_eq_div]
  apply div_pos
  · have hnum : 0 < x.num := Rat.num_pos.2 hx
    have : 0 < Int.sqrt x.num := by
      unfold Int.sqrt
      have h1 : 0 < x.num.toNat := by omega
      exact_mod_cast Nat.sqrt_pos.2 h1
    exact_mod_cast this
  · have : 0 < Nat.sqrt x.den := Nat.sqrt_pos.2 x.den_pos
    exact_mod_cast this

theorem C8_random_plane_nonzero_iff_witness :
    (∃ c d rnd1, lsh.exampleHasher.getRandomPlane Rat.sqrt (fun _ => 1 / 4) = some (c ++ [d], rnd1) ∧
      c.length = 1 ∧
      (0 < norm2 Rat.sqrt c ↔ ∃ k, k < 1 ∧ (fun _ => (1 / 4 : ℚ)) k ≠ 1 / 2)) ∧
    (∃ c d rnd1,
      algorithm.exampleIndex.getRandomPlane Rat.sqrt (fun _ => 1 / 4)
        = some ({ Values := c ++ [d], Size := ((1 : Nat) : Int) + 1 }, rnd1) ∧
      c.length = 1 ∧ (0 < norm2 Rat.sqrt c ↔ ∃ k, k < 1 ∧ (fun _ => (1 / 4 : ℚ)) k ≠ 1 / 2)) :=
  C8_random_plane_nonzero_iff Rat.sqrt lsh.exampleHasher algorithm.exampleIndex (fun _ => 1 / 4) 1
    (by simp [Rat.sqrt]) rat_sqrt_pos rfl rfl

/-- C8 as stated fails: in dimension 1 with every draw equal to 1/2, which lies
in `[0, 1)`, both `getRandomPlane` functions return the zero coefficient
vector, whose norm is not positive. -/
theorem C8_counterexample :
    (¬ ∃ c d rnd1, lsh.exampleHasher.getRandomPlane Rat.sqrt (fun _ => 1 / 2) = some (c ++ [d], rnd1) ∧
      c.length = 1 ∧ 0 < norm2 Rat.sqrt c) ∧
    (¬ ∃ c d rnd1,
      algorithm.exampleIndex.getRandomPlane Rat.sqrt (fun _ => 1 / 2)
        = some ({ Values := c ++ [d], Size := 2 }, rnd1) ∧
      c.length = 1 ∧ 0 < norm2 Rat.sqrt c) := by
  have hcoefs : randomCoefs 1 (fun _ => (1 / 2 : ℚ)) = [0] := by
    norm_num [randomCoefs, List.range_succ]
  have hnorm : ¬ 0 < norm2 Rat.sqrt [(0 : ℚ)] := by
    simp [norm2, Rat.sqrt]
  constructor
  · rintro ⟨c, d, rnd1, hplane, hlen, hpos⟩
    rw [lsh.Hasher.getRandomPlane_closed Rat.sqrt lsh.exampleHasher _ 1 rfl, hcoefs] at hplane
    simp only [Option.some.injEq, Prod.mk.injEq] at hplane
    have hc : [(0 : ℚ)] = c := (List.append_inj hplane.1 (by simp [hlen])).1
    rw [← hc] at hpos
    exact hnorm hpos
  · rintro ⟨c, d, rnd1, hplane, hlen, hpos⟩
    rw [algorithm.LSHIndex.getRandomPlane_values Rat.sqrt algorithm.exampleIndex _ 1 rfl, hcoefs]
      at hplane
    simp only [Option.some.injEq, Prod.mk.injEq, algorithm.Vector.mk.injEq] at hplane
    have hc : [(0 : ℚ)] = c := (List.append_inj hplane.1.1 (by simp [hlen])).1
    rw [← hc] at hpos
    exact hnorm hpos

end VectorSearch

namespace VectorSearch

namespace lsh

/-! ## `Hasher.Generate` -/

/-- A plane as `newHasherInstance` samples it in dimension `D` with scale
`bias`: its coefficients and offset come from the draws of some source. -/
theorem newHasherInstanceLoop_spec {F : Type} [LinearOrderedField F] (sqrt : F → F)
    (lshIndex : Hasher F) (D : Nat) (hD : lshIndex.Config.Dims = D) (n : Nat)
    (lshInstance : HasherInstance F) (rnd : Rand F) :
    ∃ inst, newHasherInstanceLoop sqrt lshIndex n lshInstance rnd = some inst ∧
      inst.Planes.length = lshInstance.Planes.length + n ∧
      ∀ p ∈ inst.Planes, p ∈ lshInstance.Planes ∨
        ∃ rnd1, p.Coefs = randomCoefs D rnd1 ∧
          p.D = randomOffset sqrt lshIndex.Config.Bias D rnd1 := by
  induction n generalizing lshInstance rnd with
  | zero => exact ⟨lshInstance, rfl, rfl, fun p hp => Or.inl hp⟩
  | succ n ih =>
    have hlen : ((randomCoefs D rnd ++ [randomOffset sqrt lshIndex.Config.Bias D rnd]).length : Int)
        - 1 = (D : Int) := by
      simp [randomCoefs_length]
    have hslice : sliceTo (randomCoefs D rnd ++ [randomOffset sqrt lshIndex.Config.Bias D rnd])
        (D : Int) = some (randomCoefs D rnd) := by
      simp [sliceTo, randomCoefs_length, List.take_append_of_le_length]
    have hidx : idxInt (randomCoefs D rnd ++ [randomOffset sqrt lshIndex.Config.Bias D rnd])
        (D : Int) = some (randomOffset sqrt lshIndex.Config.Bias D rnd) := by
      simp [idxInt, randomCoefs_length]
    obtain ⟨inst, hloop, hcount, hplanes⟩ := ih
      { Planes := lshInstance.Planes ++
          [{ Coefs := randomCoefs D rnd, D := randomOffset sqrt lshIndex.Config.Bias D rnd }] }
      (fun k => rnd (k + (D + 1)))
    refine ⟨inst, ?_, ?_, ?_⟩
    · simp only [newHasherInstanceLoop, Hasher.getRandomPlane_closed sqrt lshIndex rnd D hD,
        Option.some_bind, hlen, hslice, hidx]
      exact hloop
    · rw [hcount]
      simp
      omega
    · intro p hp
      rcases hplanes p hp with h | h
      · rcases List.mem_append.1 h with h1 | h1
        · exact Or.inl h1
        · simp only [List.mem_singleton] at h1
          subst h1
          exact Or.inr ⟨rnd, rfl, rfl⟩
      · exact Or.inr h

theorem Hasher.newHasherInstance_nonpos {F : Type} [LinearOrderedField F] (sqrt : F → F)
    (lshIndex : Hasher F) (rnd : Rand F) (hD : lshIndex.Config.Dims ≤ 0) :
    lshIndex.newHasherInstance sqrt rnd
      = some ({ Planes := [] }, some "dimensions number must be a positive integer") := by
  simp [Hasher.newHasherInstance, hD]

theorem Hasher.newHasherInstance_pos {F : Type} [LinearOrderedField F] (sqrt : F → F)
    (lshIndex : Hasher F) (rnd : Rand F) (hD : 0 < lshIndex.Config.Dims) :
    ∃ inst, lshIndex.newHasherInstance sqrt rnd = some (inst, none) ∧
      inst.Planes.length = lshIndex.Config.NPlanes.toNat ∧
      ∀ p ∈ inst.Planes, ∃ rnd1, p.Coefs = randomCoefs lshIndex.Config.Dims.toNat rnd1 ∧
        p.D = randomOffset sqrt lshIndex.Config.Bias lshIndex.Config.Dims.toNat rnd1 := by
  have hD2 : lshIndex.Config.Dims = (lshIndex.Config.Dims.toNat : Int) := by omega
  obtain ⟨inst, hloop, hcount, hplanes⟩ := newHasherInstanceLoop_spec sqrt lshIndex
    lshIndex.Config.Dims.toNat hD2 lshIndex.Config.NPlanes.toNat { Planes := [] } rnd
  refine ⟨inst, ?_, by simpa using hcount, ?_⟩
  · have hnot : ¬ lshIndex.Config.Dims ≤ 0 := by omega
    simp [Hasher.newHasherInstance, hnot, hloop]
  · intro p hp
    rcases hplanes p hp with h | h
    · simp at h
    · exact h

/-- With a non-positive dimension the first round of the loop of `Generate`
returns the error of `newHasherInstance`. -/
theorem generateLoop_nonpos {F : Type} [LinearOrderedField F] (sqrt : F → F)
    (seeded : Nat → Rand F) (n i : Nat) (lshIndex : Hasher F)
    (hD : lshIndex.Config.Dims ≤ 0) (hn : 0 < n) :
    generateLoop sqrt seeded n i lshIndex
      = some (lshIndex, some "dimensions number must be a positive integer") := by
  cases n with
  | zero => omega
  | succ n => simp [generateLoop, Hasher.newHasherInstance_nonpos sqrt lshIndex _ hD]

/-- With a positive dimension and room for the permutations the loop of
`Generate` returns no error, keeps the configuration and the other cells, and
fills each cell `i ≤ k < i + n` with a freshly sampled instance. -/
theorem generateLoop_pos {F : Type} [LinearOrderedField F] (sqrt : F → F)
    (seeded : Nat → Rand F) (n i : Nat) (lshIndex : Hasher F)
    (hD : 0 < lshIndex.Config.Dims)
    (hlen1 : i + n ≤ lshIndex.Instances.length)
    (hlen2 : i + n ≤ lshIndex.HashFieldsNames.length) :
    ∃ h1, generateLoop sqrt seeded n i lshIndex = some (h1, none) ∧
      h1.Config = lshIndex.Config ∧ h1.Instances.length = lshIndex.Instances.length ∧
      (∀ k, k < i ∨ i + n ≤ k → h1.Instances[k]? = lshIndex.Instances[k]?) ∧
      (∀ k, i ≤ k → k < i + n → ∃ inst, h1.Instances[k]? = some inst ∧
        inst.Planes.length = lshIndex.Config.NPlanes.toNat ∧
        ∀ p ∈ inst.Planes, ∃ rnd1, p.Coefs = randomCoefs lshIndex.Config.Dims.toNat rnd1 ∧
          p.D = randomOffset sqrt lshIndex.Config.Bias lshIndex.Config.Dims.toNat rnd1) := by
  induction n generalizing i lshIndex with
  | zero =>
    refine ⟨lshIndex, rfl, rfl, rfl, fun _ _ => rfl, ?_⟩
    intro k h1 h2
    omega
  | succ n ih =>
    obtain ⟨inst, hinst, hcount, hplanes⟩ := Hasher.newHasherInstance_pos sqrt lshIndex (seeded i) hD
    have hi1 : i < lshIndex.Instances.length := by omega
    have hi2 : i < lshIndex.HashFieldsNames.length := by omega
    obtain ⟨h1, hloop, hcfg, hlen, hkeep, hfill⟩ := ih (i + 1)
      { lshIndex with Instances := lshIndex.Instances.set i inst,
                      HashFieldsNames := lshIndex.HashFieldsNames.set i (toString i) }
      hD (by simp; omega) (by simp; omega)
    refine ⟨h1, ?_, hcfg, by simpa using hlen, ?_, ?_⟩
    · simp only [generateLoop, hinst, setIdx, if_pos hi1, if_pos hi2, Option.some_bind]
      exact hloop
    · intro k hk
      rw [hkeep k (by omega)]
      simp only
      rw [List.getElem?_set]
      rw [if_neg (by omega)]
    · intro k hk1 hk2
      by_cases hki : k = i
      · subst hki
        refine ⟨inst, ?_, hcount, hplanes⟩
        rw [hkeep k (by omega)]
        simp [List.getElem?_set, hi1]
      · exact hfill k (by omega) (by omega)

end lsh

end VectorSearch

namespace VectorSearch

namespace lsh

theorem blasNrm2_scal_zero {F : Type} [LinearOrderedField F] (sqrt : F → F) (x : List F) :
    blasNrm2 sqrt (blasScal 0 x) = sqrt 0 := by
  unfold blasNrm2 blasScal
  rw [sum_sq_eq_zero]
  intro ci hci
  simp only [List.mem_map] at hci
  obtain ⟨a, _, rfl⟩ := hci
  simp

theorem randomOffset_zero_bias {F : Type} [LinearOrderedField F] (sqrt : F → F) (D : Nat)
    (rnd : Rand F) : randomOffset sqrt 0 D rnd = 0 := by
  simp [randomOffset]

/-- The hasher as `Generate` leaves it before its loop: the mean stored and
the bias recomputed. -/
theorem Hasher.Generate_eq {F : Type} [LinearOrderedField F] (sqrt : F → F)
    (seeded : Nat → Rand F) (lshIndex : Hasher F) (convMean convStd : List F) :
    lshIndex.Generate sqrt seeded convMean convStd
      = generateLoop sqrt seeded lshIndex.Config.NPermutes.toNat 0
          { lshIndex with
            Config := { lshIndex.Config with
              MeanVec := convMean
              Bias := blasNrm2 sqrt
                  (if lshIndex.Config.IsAngularDistance = 1 then blasScal 0 convStd else convStd)
                * lshIndex.Config.BiasMultiplier } } := by
  rfl

theorem Hasher.Generate_nonpos {F : Type} [LinearOrderedField F] (sqrt : F → F)
    (seeded : Nat → Rand F) (lshIndex : Hasher F) (convMean convStd : List F)
    (hD : lshIndex.Config.Dims ≤ 0) (hN : 0 < lshIndex.Config.NPermutes) :
    ∃ h1, lshIndex.Generate sqrt seeded convMean convStd
        = some (h1, some "dimensions number must be a positive integer") ∧
      h1.Instances = lshIndex.Instances ∧
      h1.Config.Bias = blasNrm2 sqrt
          (if lshIndex.Config.IsAngularDistance = 1 then blasScal 0 convStd else convStd)
        * lshIndex.Config.BiasMultiplier := by
  rw [Hasher.Generate_eq]
  exact ⟨_, generateLoop_nonpos sqrt seeded _ 0 _ hD (by omega), rfl, rfl⟩

theorem Hasher.Generate_no_permutation {F : Type} [LinearOrderedField F] (sqrt : F → F)
    (seeded : Nat → Rand F) (lshIndex : Hasher F) (convMean convStd : List F)
    (hN : lshIndex.Config.NPermutes ≤ 0) :
    ∃ h1, lshIndex.Generate sqrt seeded convMean convStd = some (h1, none) ∧
      h1.Instances = lshIndex.Instances ∧
      h1.Config.Bias = blasNrm2 sqrt
          (if lshIndex.Config.IsAngularDistance = 1 then blasScal 0 convStd else convStd)
        * lshIndex.Config.BiasMultiplier := by
  rw [Hasher.Generate_eq]
  have h0 : lshIndex.Config.NPermutes.toNat = 0 := by omega
  rw [h0]
  exact ⟨_, rfl, rfl, rfl⟩

theorem Hasher.Generate_pos {F : Type} [LinearOrderedField F] (sqrt : F → F)
    (seeded : Nat → Rand F) (lshIndex : Hasher F) (convMean convStd : List F)
    (hD : 0 < lshIndex.Config.Dims)
    (hlen1 : lshIndex.Config.NPermutes.toNat ≤ lshIndex.Instances.length)
    (hlen2 : lshIndex.Config.NPermutes.toNat ≤ lshIndex.HashFieldsNames.length) :
    ∃ h1, lshIndex.Generate sqrt seeded convMean convStd = some (h1, none) ∧
      h1.Config.Bias = blasNrm2 sqrt
          (if lshIndex.Config.IsAngularDistance = 1 then blasScal 0 convStd else convStd)
        * lshIndex.Config.BiasMultiplier ∧
      h1.Config.MeanVec = convMean ∧
      h1.Instances.length = lshIndex.Instances.length ∧
      (∀ k, lshIndex.Config.NPermutes.toNat ≤ k → h1.Instances[k]? = lshIndex.Instances[k]?) ∧
      (∀ k, k < lshIndex.Config.NPermutes.toNat → ∃ inst, h1.Instances[k]? = some inst ∧
        inst.Planes.length = lshIndex.Config.NPlanes.toNat ∧
        ∀ p ∈ inst.Planes, ∃ rnd1, p.Coefs = randomCoefs lshIndex.Config.Dims.toNat rnd1 ∧
          p.D = randomOffset sqrt h1.Config.Bias lshIndex.Config.Dims.toNat rnd1) := by
  rw [Hasher.Generate_eq]
  obtain ⟨h1, hloop, hcfg, hlen, hkeep, hfill⟩ := generateLoop_pos sqrt seeded
    lshIndex.Config.NPermutes.toNat 0
    { lshIndex with
      Config := { lshIndex.Config with
        MeanVec := convMean
        Bias := blasNrm2 sqrt
            (if lshIndex.Config.IsAngularDistance = 1 then blasScal 0 convStd else convStd)
          * lshIndex.Config.BiasMultiplier } }
    hD (by simpa using hlen1) (by simpa using hlen2)
  refine ⟨h1, hloop, by rw [hcfg], by rw [hcfg], hlen, ?_, ?_⟩
  · intro k hk
    exact hkeep k (Or.inr (by simpa using hk))
  · intro k hk
    obtain ⟨inst, hinst, hcount, hplanes⟩ := hfill k (Nat.zero_le k) (by simpa using hk)
    refine ⟨inst, hinst, hcount, ?_⟩
    rw [hcfg]
    exact hplanes

end lsh

/-! ## Generation: claims C9 and C10 -/

/-- C9: when `IsAngularDistance == 1` and the slices of the hasher have room
for the permutations, `Generate` returns, for every mean and std input, with
`Config.Bias` set to 0; when it returns no error every plane of each of the
`NPermutes` generated instances has offset `D = 0`, and otherwise no instance
is touched. -/
theorem C9_angular_planes_through_origin {F : Type} [LinearOrderedField F] (sqrt : F → F)
    (seeded : Nat → Rand F) (lshIndex : lsh.Hasher F) (convMean convStd : List F)
    (hsqrt0 : sqrt 0 = 0) (hang : lshIndex.Config.IsAngularDistance = 1)
    (hlen1 : lshIndex.Config.NPermutes.toNat ≤ lshIndex.Instances.length)
    (hlen2 : lshIndex.Config.NPermutes.toNat ≤ lshIndex.HashFieldsNames.length) :
    ∃ h1 err, lshIndex.Generate sqrt seeded convMean convStd = some (h1, err) ∧
      h1.Config.Bias = 0 ∧
      (err = none → ∀ k, k < lshIndex.Config.NPermutes.toNat →
        ∃ inst, h1.Instances[k]? = some inst ∧ ∀ p ∈ inst.Planes, p.D = 0) ∧
      (err ≠ none → h1.Instances = lshIndex.Instances) := by
  have hbias : blasNrm2 sqrt
        (if lshIndex.Config.IsAngularDistance = 1 then blasScal 0 convStd else convStd)
      * lshIndex.Config.BiasMultiplier = 0 := by
    rw [if_pos hang, lsh.blasNrm2_scal_zero, hsqrt0, zero_mul]
  by_cases hD : 0 < lshIndex.Config.Dims
  · obtain ⟨h1, hgen, hb, _, _, _, hfill⟩ :=
      lsh.Hasher.Generate_pos sqrt seeded lshIndex convMean convStd hD hlen1 hlen2
    refine ⟨h1, none, hgen, by rw [hb, hbias], ?_, by simp⟩
    intro _ k hk
    obtain ⟨inst, hinst, _, hplanes⟩ := hfill k hk
    refine ⟨inst, hinst, ?_⟩
    intro p hp
    obtain ⟨rnd1, _, hd⟩ := hplanes p hp
    rw [hd, hb, hbias, lsh.randomOffset_zero_bias]
  · by_cases hN : 0 < lshIndex.Config.NPermutes
    · obtain ⟨h1, hgen, hinst, hb⟩ :=
        lsh.Hasher.Generate_nonpos sqrt seeded lshIndex convMean convStd (by omega) hN
      exact ⟨h1, _, hgen, by rw [hb, hbias], by simp, fun _ => hinst⟩
    · obtain ⟨h1, hgen, hinst, hb⟩ :=
        lsh.Hasher.Generate_no_permutation sqrt seeded lshIndex convMean convStd (by omega)
      refine ⟨h1, none, hgen, by rw [hb, hbias], ?_, by simp⟩
      intro _ k hk
      omega

theorem C9_angular_planes_through_origin_witness :
    ∃ h1 err, lsh.angularHasher.Generate Rat.sqrt (fun _ _ => 1 / 4) [1, 2] [3, 4]
        = some (h1, err) ∧
      h1.Config.Bias = 0 ∧
      (err = none → ∀ k, k < lsh.angularHasher.Config.NPermutes.toNat →
        ∃ inst, h1.Instances[k]? = some inst ∧ ∀ p ∈ inst.Planes, p.D = 0) ∧
      (err ≠ none → h1.Instances = lsh.angularHasher.Instances) :=
  C9_angular_planes_through_origin Rat.sqrt (fun _ _ => 1 / 4) lsh.angularHasher [1, 2] [3, 4]
    (by simp [Rat.sqrt]) rfl (by decide) (by decide)

/-- C10 (amended): for every mean and std input, `Generate` returns a
configuration error whenever `Dims ≤ 0` and `NPermutes ≥ 1`; when `Dims > 0`
and the slices of the hasher have room for the permutations it returns no
error, whatever `NPlanes` is. -/
theorem C10_generate_error_on_dims {F : Type} [LinearOrderedField F] (sqrt : F → F)
    (seeded : Nat → Rand F) (lshIndex : lsh.Hasher F) (convMean convStd : List F) :
    (lshIndex.Config.Dims ≤ 0 → 0 < lshIndex.Config.NPermutes →
      ∃ h1 msg, lshIndex.Generate sqrt seeded convMean convStd = some (h1, some msg)) ∧
    (0 < lshIndex.Config.Dims →
      lshIndex.Config.NPermutes.toNat ≤ lshIndex.Instances.length →
      lshIndex.Config.NPermutes.toNat ≤ lshIndex.HashFieldsNames.length →
      ∃ h1, lshIndex.Generate sqrt seeded convMean convStd = some (h1, none)) := by
  constructor
  · intro hD hN
    obtain ⟨h1, hgen, _⟩ := lsh.Hasher.Generate_nonpos sqrt seeded lshIndex convMean convStd hD hN
    exact ⟨h1, _, hgen⟩
  · intro hD hlen1 hlen2
    obtain ⟨h1, hgen, _⟩ :=
      lsh.Hasher.Generate_pos sqrt seeded lshIndex convMean convStd hD hlen1 hlen2
    exact ⟨h1, hgen⟩

theorem C10_generate_error_on_dims_witness :
    (∃ h1 msg, lsh.zeroDimHasher.Generate Rat.sqrt (fun _ _ => 1 / 4) [0] [1]
        = some (h1, some msg)) ∧
    (∃ h1, lsh.exampleHasher.Generate Rat.sqrt (fun _ _ => 1 / 4) [0] [1] = some (h1, none)) :=
  ⟨(C10_generate_error_on_dims Rat.sqrt (fun _ _ => 1 / 4) lsh.zeroDimHasher [0] [1]).1
      (by decide) (by decide),
    (C10_generate_error_on_dims Rat.sqrt (fun _ _ => 1 / 4) lsh.exampleHasher [0] [1]).2
      (by decide) (by decide) (by decide)⟩

/-- C10 as stated fails: `Generate` returns no error for a hasher of dimension
1 with `NPlanes = 65 > 64`, and none for a hasher with `Dims = 0` and no
permutation. -/
theorem C10_counterexample :
    (64 < lsh.exampleHasher.Config.NPlanes ∧
      ¬ ∃ h1 msg, lsh.exampleHasher.Generate Rat.sqrt (fun _ _ => 1 / 4) [0] [1]
        = some (h1, some msg)) ∧
    (lsh.emptyHasher.Config.Dims ≤ 0 ∧
      ¬ ∃ h1 msg, lsh.emptyHasher.Generate Rat.sqrt (fun _ _ => 1 / 4) [0] [1]
        = some (h1, some msg)) := by
  refine ⟨⟨by decide, ?_⟩, ⟨by decide, ?_⟩⟩
  · rintro ⟨h1, msg, hgen⟩
    obtain ⟨h2, hgen2, _⟩ := lsh.Hasher.Generate_pos Rat.sqrt (fun _ _ => 1 / 4)
      lsh.exampleHasher [0] [1] (by decide) (by decide) (by decide)
    rw [hgen2] at hgen
    simp at hgen
  · rintro ⟨h1, msg, hgen⟩
    obtain ⟨h2, hgen2, _⟩ := lsh.Hasher.Generate_no_permutation Rat.sqrt (fun _ _ => 1 / 4)
      lsh.emptyHasher [0] [1] (by decide)
    rw [hgen2] at hgen
    simp at hgen

end VectorSearch

namespace VectorSearch

/-! ## Claim C11 -/

theorem lsh.NewLSHIndex_spec {F : Type} (config : lsh.Config F) (lshIndex : lsh.Hasher F)
    (hnew : lsh.NewLSHIndex config = some lshIndex) :
    0 ≤ config.NPermutes ∧ lshIndex.Config = config ∧
      lshIndex.Instances.length = config.NPermutes.toNat ∧
      lshIndex.HashFieldsNames.length = config.NPermutes.toNat := by
  unfold lsh.NewLSHIndex at hnew
  by_cases hN : 0 ≤ config.NPermutes
  · rw [if_pos hN] at hnew
    cases hnew
    simp [hN]
  · rw [if_neg hN] at hnew
    cases hnew

theorem blasScal_zero {F : Type} [LinearOrderedField F] (x : List F) :
    blasScal 0 x = List.replicate x.length 0 := by
  unfold blasScal
  induction x with
  | nil => rfl
  | cons a x ih => simp [List.replicate_succ, ih]

/-- C11: for a hasher created by `NewLSHIndex` with `Dims > 0`, `Generate(mu,
sigma)` succeeds, stores `mu` as `Config.MeanVec`, sets `Config.Bias` to
`‖sigma‖₂ * BiasMultiplier` (with `sigma` zeroed if angular), and leaves exactly
`NPermutes` instances, each with exactly `NPlanes` planes (none when
`NPlanes ≤ 0`) whose coefficient vectors have length `Dims`. -/
theorem C11_generate_populates_instances {F : Type} [LinearOrderedField F] (sqrt : F → F)
    (seeded : Nat → Rand F) (config : lsh.Config F) (lshIndex : lsh.Hasher F)
    (convMean convStd : List F)
    (hnew : lsh.NewLSHIndex config = some lshIndex) (hD : 0 < config.Dims) :
    ∃ h1, lshIndex.Generate sqrt seeded convMean convStd = some (h1, none) ∧
      h1.Config.MeanVec = convMean ∧
      h1.Config.Bias
        = norm2 sqrt (if config.IsAngularDistance = 1 then List.replicate convStd.length 0
            else convStd) * config.BiasMultiplier ∧
      (h1.Instances.length : Int) = config.NPermutes ∧
      ∀ inst ∈ h1.Instances, inst.Planes.length = config.NPlanes.toNat ∧
        ∀ p ∈ inst.Planes, (p.Coefs.length : Int) = config.Dims := by
  obtain ⟨hN, hcfg, hlen1, hlen2⟩ := lsh.NewLSHIndex_spec config lshIndex hnew
  obtain ⟨h1, hgen, hbias, hmean, hlen, _, hfill⟩ := lsh.Hasher.Generate_pos sqrt seeded lshIndex
    convMean convStd (by rw [hcfg]; exact hD) (by rw [hcfg, hlen1]) (by rw [hcfg, hlen2])
  refine ⟨h1, hgen, hmean, ?_, ?_, ?_⟩
  · rw [hbias, hcfg]
    by_cases hang : config.IsAngularDistance = 1
    · simp only [if_pos hang, blasScal_zero]
      rfl
    · simp only [if_neg hang]
      rfl
  · rw [hlen, hlen1]
    omega
  · intro inst hinst
    obtain ⟨k, hk⟩ := List.mem_iff_getElem?.1 hinst
    have hklt : k < h1.Instances.length := by
      by_contra hge
      rw [List.getElem?_eq_none (by omega)] at hk
      cases hk
    obtain ⟨inst1, hinst1, hcount, hplanes⟩ := hfill k (by rw [hcfg, ← hlen1, ← hlen]; exact hklt)
    rw [hk] at hinst1
    cases hinst1
    refine ⟨by rw [hcount, hcfg], ?_⟩
    intro p hp
    obtain ⟨rnd1, hcoefs, _⟩ := hplanes p hp
    rw [hcoefs, randomCoefs_length, hcfg]
    omega

theorem C11_generate_populates_instances_witness :
    ∃ h1, lsh.exampleHasher.Generate Rat.sqrt (fun _ _ => 1 / 4) [2] [3] = some (h1, none) ∧
      h1.Config.MeanVec = [2] ∧
      h1.Config.Bias
        = norm2 Rat.sqrt (if lsh.exampleConfig.IsAngularDistance = 1
            then List.replicate ([3] : List ℚ).length 0 else [3])
          * lsh.exampleConfig.BiasMultiplier ∧
      (h1.Instances.length : Int) = lsh.exampleConfig.NPermutes ∧
      ∀ inst ∈ h1.Instances, inst.Planes.length = lsh.exampleConfig.NPlanes.toNat ∧
        ∀ p ∈ inst.Planes, (p.Coefs.length : Int) = lsh.exampleConfig.Dims :=
  C11_generate_populates_instances Rat.sqrt (fun _ _ => 1 / 4) lsh.exampleConfig lsh.exampleHasher
    [2] [3] (by simp [lsh.NewLSHIndex, lsh.exampleHasher, lsh.exampleConfig]) (by decide)

end VectorSearch

namespace VectorSearch

/-! ## Scaling one plane: claim C12 -/

theorem Signbit_scale {F : Type} [LinearOrderedField F] (a x : F) (ha : 0 < a) :
    Signbit (a * x) = Signbit x := by
  unfold Signbit
  congr 1
  apply propext
  constructor
  · intro h
    by_contra hx
    exact absurd h (not_lt.2 (mul_nonneg (le_of_lt ha) (not_lt.1 hx)))
  · intro h
    exact mul_neg_of_pos_of_neg ha h

theorem sum_zipWith_scale {F : Type} [LinearOrderedField F] (a : F) (v cs : List F) :
    (List.zipWith (fun x y => x * y) v (cs.map fun ci => a * ci)).sum
      = a * (List.zipWith (fun x y => x * y) v cs).sum := by
  induction v generalizing cs with
  | nil => simp
  | cons x v ih =>
    cases cs with
    | nil => simp
    | cons y cs =>
      simp only [List.map_cons, List.zipWith_cons_cons, List.sum_cons, ih cs]
      ring

theorem forRange_map_sim {σ : Type} (n : Nat) (body1 body2 : Nat → σ → Option σ) (f : σ → σ)
    (init : σ) (hbody : ∀ i s, body2 i (f s) = (body1 i s).map f) :
    forRange n body2 (f init) = (forRange n body1 init).map f := by
  induction n with
  | zero => simp [forRange_zero]
  | succ n ih =>
    rw [forRange_succ, forRange_succ, ih]
    cases forRange n body1 init with
    | none => rfl
    | some s => simp [hbody]

namespace lsh

theorem getHashLoop_scale {F : Type} [LinearOrderedField F] (a : F) (ha : 0 < a)
    (shiftedVec : List F) (pre post : List (Plane F)) (p : Plane F) (i : Nat) (vec : List F)
    (hash : Nat) :
    getHashLoop shiftedVec
        (pre ++ { Coefs := p.Coefs.map (fun ci => a * ci), D := a * p.D } :: post) i vec hash
      = getHashLoop shiftedVec (pre ++ p :: post) i vec hash := by
  induction pre generalizing i vec hash with
  | nil =>
    simp only [List.nil_append, getHashLoop]
    cases blasCopy shiftedVec vec with
    | none => rfl
    | some vec1 =>
      simp only [Option.some_bind, blasDot, List.length_map]
      by_cases hlen : vec1.length = p.Coefs.length
      · simp only [if_pos hlen, Option.some_bind, sum_zipWith_scale, ← mul_sub,
          Signbit_scale _ _ ha]
      · simp only [if_neg hlen, Option.none_bind]
  | cons q pre ih =>
    simp only [List.cons_append, getHashLoop]
    cases blasCopy shiftedVec vec with
    | none => rfl
    | some vec1 =>
      simp only [Option.some_bind]
      cases blasDot vec1 q.Coefs with
      | none => rfl
      | some s =>
        simp only [Option.some_bind]
        exact ih _ _ _

end lsh

namespace algorithm

theorem Vector.DotProd_scale {F : Type} [LinearOrderedField F] (a : F) (vec coefs : Vector F) :
    vec.DotProd { coefs with Values := coefs.Values.map fun ci => a * ci }
      = (vec.DotProd coefs).map fun s => a * s := by
  unfold Vector.DotProd
  have h0 : (0 : F) = a * 0 := by simp
  conv_lhs => rw [h0]
  apply forRange_map_sim
  intro i s
  cases hv : vec.Values[i]? with
  | none => simp
  | some x =>
    cases hc : coefs.Values[i]? with
    | none => simp [hc]
    | some y =>
      simp only [List.getElem?_map, hc, Option.map_some', Option.some_bind, Option.some.injEq]
      ring

theorem LSHIndex.GetHash_scale {F : Type} [LinearOrderedField F] (a : F) (ha : 0 < a)
    (index : LSHIndex F) (pre post : List (Plane F)) (p : Plane F) (inpVec : Vector F)
    (hplanes : index.Planes = pre ++ p :: post) :
    LSHIndex.GetHash
        { index with
          Planes := pre ++
            { p with Coefs := { p.Coefs with Values := p.Coefs.Values.map fun ci => a * ci } }
              :: post } inpVec
      = index.GetHash inpVec := by
  unfold LSHIndex.GetHash
  simp only
  congr 1
  funext i hash
  rw [hplanes]
  rcases Nat.lt_trichotomy i pre.length with hi | hi | hi
  · rw [List.getElem?_append_left hi, List.getElem?_append_left hi]
  · subst hi
    simp only [List.getElem?_append_right (le_refl _), Nat.sub_self, List.getElem?_cons_zero,
      Option.some_bind]
    cases index.MeanVec.ConstMul (-1) with
    | none => rfl
    | some negMean =>
      simp only [Option.some_bind]
      cases inpVec.Add negMean with
      | none => rfl
      | some vec0 =>
        simp only [Option.some_bind]
        cases p.InnerPoint.ConstMul (-1) with
        | none => rfl
        | some negPoint =>
          simp only [Option.some_bind]
          cases vec0.Add negPoint with
          | none => rfl
          | some vec =>
            simp only [Option.some_bind, Vector.DotProd_scale]
            cases vec.DotProd p.Coefs with
            | none => rfl
            | some dp => simp only [Option.map_some', Option.some_bind, Signbit_scale _ _ ha]
  · rw [List.getElem?_append_right (by omega), List.getElem?_append_right (by omega)]
    have hsub : i - pre.length = (i - pre.length - 1) + 1 := by omega
    rw [hsub, List.getElem?_cons_succ, List.getElem?_cons_succ]

end algorithm

/-- In exact arithmetic: multiplying all coefficients of a single plane and its
offset `D` by the same positive constant, everything else of the hasher left
as it is, does not change the result of `HasherInstance.GetHash(x, mu)`; and
for `LSHIndex.GetHash`, whose planes hold an inner point instead of an offset,
multiplying the coefficients alone does not change the result. -/
theorem scaling_plane_keeps_hash_exact {F : Type} [LinearOrderedField F] (a : F) (ha : 0 < a)
    (pre post : List (lsh.Plane F)) (p : lsh.Plane F) (x mu : List F)
    (index : algorithm.LSHIndex F) (apre apost : List (algorithm.Plane F))
    (ap : algorithm.Plane F) (xv : algorithm.Vector F)
    (hplanes : index.Planes = apre ++ ap :: apost) :
    lsh.HasherInstance.GetHash
        { Planes := pre ++ { Coefs := p.Coefs.map (fun ci => a * ci), D := a * p.D } :: post }
        x mu
      = lsh.HasherInstance.GetHash { Planes := pre ++ p :: post } x mu ∧
    algorithm.LSHIndex.GetHash
        { index with
          Planes := apre ++
            { ap with Coefs := { ap.Coefs with Values := ap.Coefs.Values.map fun ci => a * ci } }
              :: apost } xv
      = index.GetHash xv := by
  constructor
  · unfold lsh.HasherInstance.GetHash
    cases blasCopy x (List.replicate x.length (0 : F)) with
    | none => rfl
    | some shiftedVec0 =>
      simp only [Option.some_bind]
      cases blasAxpy (-1) mu shiftedVec0 with
      | none => rfl
      | some shiftedVec =>
        simp only [Option.some_bind]
        exact lsh.getHashLoop_scale a ha shiftedVec pre post p 0 _ 0
  · exact algorithm.LSHIndex.GetHash_scale a ha index apre apost ap xv hplanes

end VectorSearch

namespace VectorSearch

/-- C12 as stated fails for `HasherInstance.GetHash`: for the plane with
coefficient 1 and offset 1, the input 3/2 and the mean 0, bit 0 is set, and it
is clear once the coefficient alone is multiplied by 1/2. -/
theorem C12_counterexample :
    lsh.HasherInstance.GetHash
        ({ Planes := [{ Coefs := [1], D := 1 }] } : lsh.HasherInstance ℚ) [3 / 2] [0] = some 1 ∧
    lsh.HasherInstance.GetHash
        ({ Planes := [{ Coefs := ([1] : List ℚ).map (fun ci => 1 / 2 * ci), D := 1 }] } :
          lsh.HasherInstance ℚ) [3 / 2] [0] = some 0 := by
  constructor
  · norm_num [lsh.HasherInstance.GetHash, blasCopy, blasAxpy, lsh.getHashLoop, blasDot, Signbit,
      setBit64]
  · norm_num [lsh.HasherInstance.GetHash, blasCopy, blasAxpy, lsh.getHashLoop, blasDot, Signbit,
      setBit64]

end VectorSearch

namespace VectorSearch

/-! ## Shifting the mean: claim C13 -/

theorem dot_vsub_shift {F : Type} [LinearOrderedField F] (cs x mu delta : List F)
    (hc : cs.length = x.length) (hmu : mu.length = x.length) (hdelta : delta.length = x.length) :
    dot cs (vsub x (List.zipWith (fun m e => m + e) mu delta))
      = dot cs (vsub x mu) - dot cs delta := by
  unfold dot vsub
  induction x generalizing cs mu delta with
  | nil =>
    have hc0 : cs = [] := List.length_eq_zero.1 hc
    subst hc0
    simp
  | cons a x ih =>
    cases cs with
    | nil => simp at hc
    | cons e cs =>
      cases mu with
      | nil => simp at hmu
      | cons m mu =>
        cases delta with
        | nil => simp at hdelta
        | cons g delta =>
          simp only [List.length_cons, Nat.add_right_cancel_iff] at hc hmu hdelta
          simp only [List.zipWith_cons_cons, List.sum_cons, ih cs mu delta hc hmu hdelta]
          ring

/-- In exact arithmetic: for an instance and vectors `x`, `mu`, `delta` of the
planes' dimension, replacing the mean `mu` by `mu + delta` and simultaneously
replacing every plane offset `d_i` by `d_i − c_i · delta` leaves
`HasherInstance.GetHash(x, ·)` unchanged. -/
theorem mean_shift_keeps_hash_exact {F : Type} [LinearOrderedField F]
    (lshInstance : lsh.HasherInstance F) (x mu delta : List F)
    (hmu : mu.length = x.length) (hdelta : delta.length = x.length)
    (hdim : ∀ p ∈ lshInstance.Planes, p.Coefs.length = x.length) :
    ∃ h, lsh.HasherInstance.GetHash
          { Planes := lshInstance.Planes.map fun p =>
              { Coefs := p.Coefs, D := p.D - dot p.Coefs delta } }
          x (List.zipWith (fun m e => m + e) mu delta) = some h ∧
      lshInstance.GetHash x mu = some h := by
  obtain ⟨h1, hh1, hbits1⟩ := lsh.HasherInstance.GetHash_bits
    ({ Planes := lshInstance.Planes.map fun p =>
        { Coefs := p.Coefs, D := p.D - dot p.Coefs delta } } : lsh.HasherInstance F)
    x (List.zipWith (fun m e => m + e) mu delta) (by simp [hmu, hdelta])
    (by
      intro p hp
      simp only [List.mem_map] at hp
      obtain ⟨q, hq, rfl⟩ := hp
      exact hdim q hq)
  obtain ⟨h2, hh2, hbits2⟩ := lsh.HasherInstance.GetHash_bits lshInstance x mu hmu hdim
  refine ⟨h1, hh1, ?_⟩
  rw [hh2]
  congr 1
  apply Nat.eq_of_testBit_eq
  intro k
  rw [hbits1 k, hbits2 k]
  congr 1
  simp only [List.getElem?_map]
  cases hk : lshInstance.Planes[k]? with
  | none => rfl
  | some p =>
    have hp : p ∈ lshInstance.Planes := List.mem_iff_getElem?.2 ⟨k, hk⟩
    have key : dot p.Coefs (vsub x (List.zipWith (fun m e => m + e) mu delta))
        - (p.D - dot p.Coefs delta) = dot p.Coefs (vsub x mu) - p.D := by
      rw [dot_vsub_shift p.Coefs x mu delta (hdim p hp) hmu hdelta]
      ring
    simp only [Option.map_some', key]

/-- C13 as stated fails when the offsets are shifted by `+ c_i · delta`: for
the plane with coefficient 1 and offset 0, the input 1, the mean 0 and
`delta = 2`, bit 0 is set before the change and clear after it. -/
theorem C13_counterexample :
    lsh.HasherInstance.GetHash ({ Planes := [{ Coefs := [1], D := 0 }] } : lsh.HasherInstance ℚ)
        [1] [0] = some 1 ∧
    lsh.HasherInstance.GetHash
        ({ Planes := ([{ Coefs := [1], D := 0 }] : List (lsh.Plane ℚ)).map fun p =>
            { Coefs := p.Coefs, D := p.D + dot p.Coefs [2] } } : lsh.HasherInstance ℚ)
        [1] (List.zipWith (fun m e => m + e) [0] [2]) = some 0 := by
  constructor
  · norm_num [lsh.HasherInstance.GetHash, blasCopy, blasAxpy, lsh.getHashLoop, blasDot, Signbit,
      setBit64]
  · norm_num [lsh.HasherInstance.GetHash, blasCopy, blasAxpy, lsh.getHashLoop, blasDot, Signbit,
      setBit64, dot]

end VectorSearch

namespace VectorSearch

/-! ## The map of hash codes: claim C14 -/

namespace lsh

/-- The map after the goroutines of `schedule` have run: each scheduled key
holds the code of its instance, the other keys are as before. -/
theorem getHashesSteps_spec {F : Type} [LinearOrderedField F] (lshIndex : Hasher F)
    (vec : List F) (schedule : List Nat) (v : Nat → Option Nat)
    (hrange : ∀ i ∈ schedule, i < lshIndex.Instances.length)
    (hmean : lshIndex.Config.MeanVec.length = vec.length)
    (hdim : ∀ inst ∈ lshIndex.Instances, ∀ p ∈ inst.Planes, p.Coefs.length = vec.length) :
    ∃ v1, getHashesSteps lshIndex vec schedule v = some v1 ∧
      ∀ k, v1 k = if k ∈ schedule
        then lshIndex.Instances[k]?.bind fun inst => inst.GetHash vec lshIndex.Config.MeanVec
        else v k := by
  induction schedule generalizing v with
  | nil => exact ⟨v, rfl, by simp⟩
  | cons i rest ih =>
    have hi : i < lshIndex.Instances.length := hrange i (List.mem_cons_self _ _)
    have hmem : lshIndex.Instances[i] ∈ lshIndex.Instances := List.getElem_mem _
    obtain ⟨hash, hhash, _⟩ := HasherInstance.GetHash_bits lshIndex.Instances[i] vec
      lshIndex.Config.MeanVec hmean (hdim _ hmem)
    obtain ⟨v1, hsteps, hv1⟩ := ih (fun k => if k = i then some hash else v k)
      (fun j hj => hrange j (List.mem_cons_of_mem _ hj))
    refine ⟨v1, ?_, ?_⟩
    · simp only [getHashesSteps, List.getElem?_eq_getElem hi, Option.some_bind, hhash]
      exact hsteps
    · intro k
      rw [hv1 k]
      by_cases hk : k ∈ rest
      · simp [hk]
      · by_cases hki : k = i
        · subst hki
          simp [hk, List.getElem?_eq_getElem hi, hhash]
        · simp [hk, hki]

end lsh

/-- C14: for a hasher with `N` instances and a vector `x` of the planes'
dimension, in whatever order the goroutines take the lock, `GetHashes(x)`
returns a map whose key set is exactly `{0, …, N-1}` and whose value at `k` is
`Instances[k].GetHash(x, Config.MeanVec)`; the map is the same for every such
order, so equal input vectors give equal maps. -/
theorem C14_getHashes_map {F : Type} [LinearOrderedField F] (lshIndex : lsh.Hasher F)
    (vec : List F) (schedule : List Nat)
    (hperm : schedule.Perm (List.range lshIndex.Instances.length))
    (hmean : lshIndex.Config.MeanVec.length = vec.length)
    (hdim : ∀ inst ∈ lshIndex.Instances, ∀ p ∈ inst.Planes, p.Coefs.length = vec.length) :
    ∃ hashes, lshIndex.GetHashes vec schedule = some hashes ∧
      (∀ k, (hashes k).isSome = true ↔ k < lshIndex.Instances.length) ∧
      (∀ (k : Nat) (hk : k < lshIndex.Instances.length),
        hashes k = (lshIndex.Instances[k]).GetHash vec lshIndex.Config.MeanVec) ∧
      (∀ schedule2 : List Nat, schedule2.Perm (List.range lshIndex.Instances.length) →
        lshIndex.GetHashes vec schedule2 = some hashes) := by
  have hmemiff : ∀ (s : List Nat), s.Perm (List.range lshIndex.Instances.length) →
      ∀ k, k ∈ s ↔ k < lshIndex.Instances.length := by
    intro s hs k
    rw [hs.mem_iff, List.mem_range]
  have hspec : ∀ (s : List Nat), s.Perm (List.range lshIndex.Instances.length) →
      ∃ v1, lshIndex.GetHashes vec s = some v1 ∧
        ∀ k, v1 k = if k < lshIndex.Instances.length
          then lshIndex.Instances[k]?.bind fun inst => inst.GetHash vec lshIndex.Config.MeanVec
          else none := by
    intro s hs
    obtain ⟨v1, hsteps, hv1⟩ := lsh.getHashesSteps_spec lshIndex vec s (fun _ => none)
      (fun i hi => (hmemiff s hs i).1 hi) hmean hdim
    refine ⟨v1, hsteps, ?_⟩
    intro k
    rw [hv1 k]
    by_cases hk : k < lshIndex.Instances.length
    · rw [if_pos ((hmemiff s hs k).2 hk), if_pos hk]
    · rw [if_neg (fun h => hk ((hmemiff s hs k).1 h)), if_neg hk]
  obtain ⟨hashes, hget, hval⟩ := hspec schedule hperm
  refine ⟨hashes, hget, ?_, ?_, ?_⟩
  · intro k
    rw [hval k]
    by_cases hk : k < lshIndex.Instances.length
    · have hmem : lshIndex.Instances[k] ∈ lshIndex.Instances := List.getElem_mem _
      obtain ⟨hash, hhash, _⟩ := lsh.HasherInstance.GetHash_bits lshIndex.Instances[k] vec
        lshIndex.Config.MeanVec hmean (hdim _ hmem)
      simp [hk, List.getElem?_eq_getElem hk, hhash]
    · simp [hk]
  · intro k hk
    rw [hval k, if_pos hk, List.getElem?_eq_getElem hk, Option.some_bind]
  · intro schedule2 hperm2
    obtain ⟨hashes2, hget2, hval2⟩ := hspec schedule2 hperm2
    rw [hget2]
    congr 1
    funext k
    rw [hval k, hval2 k]

theorem C14_getHashes_map_witness :
    ∃ hashes, lsh.twoTableHasher.GetHashes [1, 2] [1, 0] = some hashes ∧
      (∀ k, (hashes k).isSome = true ↔ k < lsh.twoTableHasher.Instances.length) ∧
      (∀ (k : Nat) (hk : k < lsh.twoTableHasher.Instances.length),
        hashes k = (lsh.twoTableHasher.Instances[k]).GetHash [1, 2]
          lsh.twoTableHasher.Config.MeanVec) ∧
      (∀ schedule2 : List Nat,
        schedule2.Perm (List.range lsh.twoTableHasher.Instances.length) →
        lsh.twoTableHasher.GetHashes [1, 2] schedule2 = some hashes) :=
  C14_getHashes_map lsh.twoTableHasher [1, 2] [1, 0] (by decide) (by decide)
    (by simp [lsh.twoTableHasher])

end VectorSearch

namespace VectorSearch

namespace annbench

/-! ## The candidate budget and missing vectors: claims C15 and C16 -/

/-- The gathering loop never lets the heap grow beyond the budget, pushes
pairwise distinct ids, and fetches nothing when the heap is already at the
budget. -/
theorem searchLoop_budget {F : Type} [LinearOrder F] (nn : NNMock F) (maxCandidates : Int)
    (query : List F) (distanceThrsh : WithTop F) (ids : List String) (st : SearchState F)
    (hmetric : ∀ a b, (nn.distanceMetric.GetDist a b).isSome = true)
    (hheap : IsMinHeap st.minHeap)
    (hlen : (st.minHeap.length : Int) ≤ max maxCandidates 0)
    (hseen : (st.minHeap.map fun a => a.Record.ID).Perm st.closestSet)
    (hnodup : st.closestSet.Nodup) :
    ∃ res, searchLoop nn maxCandidates query distanceThrsh ids st = some res ∧
      ∀ st1, res = .ok st1 →
        (st1.minHeap.length : Int) ≤ max maxCandidates 0 ∧
        (st1.minHeap.map fun a => a.Record.ID).Nodup ∧
        (maxCandidates ≤ (st.minHeap.length : Int) → st1 = st) := by
  induction ids generalizing st with
  | nil =>
    refine ⟨.ok st, by simp [searchLoop], ?_⟩
    intro st1 h1
    cases h1
    exact ⟨hlen, hseen.nodup_iff.2 hnodup, fun _ => rfl⟩
  | cons id rest ih =>
    by_cases hfull : maxCandidates ≤ (st.minHeap.length : Int)
    · refine ⟨.ok st, by simp [searchLoop, hfull], ?_⟩
      intro st1 h1
      cases h1
      exact ⟨hlen, hseen.nodup_iff.2 hnodup, fun _ => rfl⟩
    · by_cases hin : id ∈ st.closestSet
      · obtain ⟨res, hres, hinv⟩ := ih st hheap hlen hseen hnodup
        refine ⟨res, by simp [searchLoop, hfull, hin, hres], ?_⟩
        intro st1 h1
        obtain ⟨h2, h3, _⟩ := hinv st1 h1
        exact ⟨h2, h3, fun h => absurd h hfull⟩
      · cases hvec : nn.index.GetVector id with
        | error err =>
          refine ⟨.error err, by simp [searchLoop, hfull, hin, hvec], ?_⟩
          intro st1 h1
          cases h1
        | ok vec =>
          obtain ⟨dist, hdist⟩ := Option.isSome_iff_exists.1 (hmetric vec query)
          by_cases hthr : (dist : WithTop F) ≤ distanceThrsh
          · obtain ⟨h1, hpush, hheap1, hperm1⟩ :=
              heapPush_spec st.minHeap { Record := { ID := id, Vec := vec }, Dist := dist } hheap
            have hlen1 : h1.length = st.minHeap.length + 1 := by
              have := hperm1.length_eq
              simpa using this
            obtain ⟨res, hres, hinv⟩ := ih
              { closestSet := id :: st.closestSet, minHeap := h1,
                examined := { Record := { ID := id, Vec := vec }, Dist := dist } :: st.examined }
              hheap1
              (by
                simp only [hlen1]
                push_cast
                have h0 : maxCandidates ≤ max maxCandidates 0 := le_max_left _ _
                omega)
              (by
                have := (hperm1.map fun a => a.Record.ID)
                simp only [List.map_cons] at this
                exact this.trans (hseen.cons id))
              (List.nodup_cons.2 ⟨hin, hnodup⟩)
            refine ⟨res, by simp [searchLoop, hfull, hin, hvec, hdist, hthr, hpush, hres], ?_⟩
            intro st1 hst1
            obtain ⟨h2, h3, _⟩ := hinv st1 hst1
            exact ⟨h2, h3, fun h => absurd h hfull⟩
          · obtain ⟨res, hres, hinv⟩ := ih
              { st with
                examined := { Record := { ID := id, Vec := vec }, Dist := dist } :: st.examined }
              hheap hlen hseen hnodup
            refine ⟨res, by simp [searchLoop, hfull, hin, hvec, hdist, hthr, hres], ?_⟩
            intro st1 hst1
            obtain ⟨h2, h3, _⟩ := hinv st1 hst1
            exact ⟨h2, h3, fun h => absurd h hfull⟩

/-- A prefix of the ids that the loop went through with room left in the
budget can be cut off: the loop continues from the state it left. -/
theorem searchLoop_append {F : Type} [LinearOrder F] (nn : NNMock F) (maxCandidates : Int)
    (query : List F) (distanceThrsh : WithTop F) (pre rest : List String)
    (st st1 : SearchState F)
    (hpre : searchLoop nn maxCandidates query distanceThrsh pre st = some (.ok st1))
    (hroom : ¬ maxCandidates ≤ (st1.minHeap.length : Int)) :
    searchLoop nn maxCandidates query distanceThrsh (pre ++ rest) st
      = searchLoop nn maxCandidates query distanceThrsh rest st1 := by
  induction pre generalizing st with
  | nil =>
    simp only [searchLoop, Option.some.injEq, Except.ok.injEq] at hpre
    subst hpre
    rfl
  | cons id pre ih =>
    simp only [searchLoop, List.cons_append] at hpre ⊢
    by_cases hfull : maxCandidates ≤ (st.minHeap.length : Int)
    · rw [if_pos hfull] at hpre
      simp only [Option.some.injEq, Except.ok.injEq] at hpre
      subst hpre
      exact absurd hfull hroom
    · rw [if_neg hfull] at hpre ⊢
      by_cases hin : id ∈ st.closestSet
      · rw [if_pos hin] at hpre ⊢
        exact ih st hpre
      · rw [if_neg hin] at hpre ⊢
        cases hvec : nn.index.GetVector id with
        | error err =>
          rw [hvec] at hpre
          simp at hpre
        | ok vec =>
          rw [hvec] at hpre
          simp only at hpre ⊢
          cases hdist : nn.distanceMetric.GetDist vec query with
          | none =>
            rw [hdist] at hpre
            simp at hpre
          | some dist =>
            rw [hdist] at hpre
            simp only [Option.some_bind] at hpre ⊢
            by_cases hthr : (dist : WithTop F) ≤ distanceThrsh
            · rw [if_pos hthr] at hpre ⊢
              cases hpush : heapPush st.minHeap
                  { Record := { ID := id, Vec := vec }, Dist := dist } with
              | none =>
                rw [hpush] at hpre
                simp at hpre
              | some h1 =>
                rw [hpush] at hpre
                simp only [Option.some_bind] at hpre ⊢
                exact ih _ hpre
            · rw [if_neg hthr] at hpre ⊢
              exact ih _ hpre

end annbench

/-- C15 (amended): with a metric that returns, the gathering loop of `Search`
stops once `MaxCandidates` candidates within the distance threshold have been
pushed: the heap ends with at most `MaxCandidates` neighbors (none when
`MaxCandidates ≤ 0`), of pairwise distinct IDs, and with `MaxCandidates ≤ 0` no
vector is fetched and no distance computed. -/
theorem C15_search_budget_counts_matches {F : Type} [LinearOrder F] (nn : annbench.NNMock F)
    (query : List F) (distanceThrsh : WithTop F)
    (hmetric : ∀ a b, (nn.distanceMetric.GetDist a b).isSome = true) :
    ∃ res, annbench.searchLoop nn nn.MaxCandidates query distanceThrsh
          (nn.index.GetHashIterator "0")
          { closestSet := [], minHeap := [], examined := [] } = some res ∧
      ∀ st, res = .ok st →
        st.minHeap.length ≤ nn.MaxCandidates.toNat ∧
        (st.minHeap.map fun a => a.Record.ID).Nodup ∧
        (st.examined.filter fun a => decide ((a.Dist : WithTop F) ≤ distanceThrsh)).length
          ≤ nn.MaxCandidates.toNat ∧
        (nn.MaxCandidates ≤ 0 → st.examined = []) := by
  have hheap0 : annbench.IsMinHeap ([] : List (annbench.Neighbor F)) := by
    intro k _
    simp [annbench.key]
  obtain ⟨res, hres, hinv⟩ := annbench.searchLoop_budget nn nn.MaxCandidates query distanceThrsh
    (nn.index.GetHashIterator "0") { closestSet := [], minHeap := [], examined := [] } hmetric
    hheap0 (by simp) (by simp) (by simp)
  obtain ⟨res2, hres2, hinv2⟩ := annbench.searchLoop_spec nn nn.MaxCandidates query distanceThrsh
    (nn.index.GetHashIterator "0") { closestSet := [], minHeap := [], examined := [] } hmetric
    hheap0 (by simp)
  rw [hres] at hres2
  cases hres2
  refine ⟨res, hres, ?_⟩
  intro st hst
  obtain ⟨hlen, hnodup, hstop⟩ := hinv st hst
  obtain ⟨_, hperm⟩ := hinv2 st hst
  have hbound : st.minHeap.length ≤ nn.MaxCandidates.toNat := by
    rcases le_total nn.MaxCandidates 0 with h | h
    · rw [max_eq_right h] at hlen
      omega
    · rw [max_eq_left h] at hlen
      omega
  refine ⟨hbound, hnodup, ?_, ?_⟩
  · rw [← hperm.length_eq]
    exact hbound
  · intro hzero
    rw [hstop (by simpa using hzero)]

theorem C15_search_budget_counts_matches_witness :
    ∃ res, annbench.searchLoop annbench.budgetOneTrained annbench.budgetOneTrained.MaxCandidates
          [3] 0 (annbench.budgetOneTrained.index.GetHashIterator "0")
          { closestSet := [], minHeap := [], examined := [] } = some res ∧
      ∀ st, res = .ok st →
        st.minHeap.length ≤ annbench.budgetOneTrained.MaxCandidates.toNat ∧
        (st.minHeap.map fun a => a.Record.ID).Nodup ∧
        (st.examined.filter fun a => decide ((a.Dist : WithTop Int) ≤ 0)).length
          ≤ annbench.budgetOneTrained.MaxCandidates.toNat ∧
        (annbench.budgetOneTrained.MaxCandidates ≤ 0 → st.examined = []) :=
  C15_search_budget_counts_matches annbench.budgetOneTrained [3] 0 (fun _ _ => rfl)

/-- C15 as stated fails: with `MaxCandidates = 1` and the threshold 0, the
search for `[3]` among `x1 = [0]`, `x2 = [1]`, `x3 = [3]` fetches a vector and
computes a distance for three distinct IDs. -/
theorem C15_counterexample :
    annbench.budgetOneTrained.MaxCandidates = 1 ∧
    (annbench.searchLoop annbench.budgetOneTrained annbench.budgetOneTrained.MaxCandidates
        [3] 0 (annbench.budgetOneTrained.index.GetHashIterator "0")
        { closestSet := [], minHeap := [], examined := [] }).map annbench.examinedIDs
      = some ["x1", "x2", "x3"] := by
  decide

/-- C16 (amended): if the store has no vector for an ID that `Search` fetches
(the iterator yields it while the heap is below the budget and the ID has not
been pushed before), `Search` fails the query: it returns the error of
`GetVector` and a nil list, whatever the other candidates are. -/
theorem C16_missing_vector_fails_query {F : Type} [LinearOrder F] (nn : annbench.NNMock F)
    (query : List F) (maxNN : Int) (distanceThrsh : WithTop F) (pre post : List String)
    (id err : String) (st : annbench.SearchState F)
    (hiter : nn.index.GetHashIterator "0" = pre ++ id :: post)
    (hpre : annbench.searchLoop nn nn.MaxCandidates query distanceThrsh pre
      { closestSet := [], minHeap := [], examined := [] } = some (.ok st))
    (hroom : ¬ nn.MaxCandidates ≤ (st.minHeap.length : Int))
    (hnew : id ∉ st.closestSet)
    (hmiss : nn.index.GetVector id = .error err) :
    nn.Search query maxNN distanceThrsh = some ([], some err) := by
  have hloop : annbench.searchLoop nn nn.MaxCandidates query distanceThrsh
      (nn.index.GetHashIterator "0") { closestSet := [], minHeap := [], examined := [] }
      = some (.error err) := by
    rw [hiter, annbench.searchLoop_append nn nn.MaxCandidates query distanceThrsh pre
      (id :: post) _ st hpre hroom]
    simp [annbench.searchLoop, hroom, hnew, hmiss]
  simp [annbench.NNMock.Search, hloop]

theorem C16_missing_vector_fails_query_witness :
    annbench.skewedMock.Search [0] 2 5 = some ([], some "not found") :=
  C16_missing_vector_fails_query annbench.skewedMock [0] 2 5 ["x1"] ["x2"] "ghost" "not found"
    { closestSet := ["x1"],
      minHeap := [{ Record := { ID := "x1", Vec := [0] }, Dist := 0 }],
      examined := [{ Record := { ID := "x1", Vec := [0] }, Dist := 0 }] }
    rfl rfl (by decide) (by decide) rfl

/-- C16 as stated fails: when the bucket yields `x1`, `ghost`, `x2` and the
store has no vector for `ghost`, `Search` returns the error and no neighbor,
although `x1` and `x2` lie within the threshold. -/
theorem C16_counterexample :
    (annbench.skewedMock.Search [0] 2 5).map
        (fun r => (r.1.map (fun a => a.Record.ID), r.2))
      = some ([], some "not found") := by
  decide

end VectorSearch

namespace VectorSearch

namespace annbench

/-! ## Ties: claim C17 -/

/-- `heap.up` leaves the root in place unless the rising cell is smaller than
it. -/
theorem up_root {F : Type} [LinearOrder F] (fuel : Nat) (h h1 : FloatMinHeap F) (j : Nat)
    (hj : j < h.length) (hup : up fuel h j = some h1) (hge : ¬ key h j < key h 0) :
    h1[0]? = h[0]? := by
  induction fuel generalizing h j with
  | zero => simp [up] at hup
  | succ fuel ih =>
    by_cases hj0 : (j - 1) / 2 = j
    · simp only [up, hj0, if_true, Option.some.injEq] at hup
      rw [← hup]
    · have hjpos : 0 < j := by omega
      have hi : (j - 1) / 2 < h.length := by omega
      by_cases hlt : key h j < key h ((j - 1) / 2)
      · obtain ⟨h2, hswap, hlen, _, hget⟩ := Swap_spec h ((j - 1) / 2) j (by omega) hj
        have hi0 : (j - 1) / 2 ≠ 0 := by
          intro h0
          rw [h0] at hlt
          exact hge hlt
        simp only [up, hj0, if_false, Less_spec h j ((j - 1) / 2) hj hi, hlt, decide_True,
          Option.some_bind, Bool.not_true, Bool.false_eq_true, hswap] at hup
        have hroot : h2[0]? = h[0]? := by
          rw [hget 0, if_neg (by omega), if_neg (fun e => hi0 e.symm)]
        have hkeyj : key h2 ((j - 1) / 2) = key h j :=
          key_of_getElem? _ _ _ _ (by rw [hget, if_neg hj0, if_pos rfl])
        have hkey0 : key h2 0 = key h 0 := key_of_getElem? _ _ _ _ hroot
        rw [ih h2 ((j - 1) / 2) (by omega) hup (by rw [hkeyj, hkey0]; exact hge), hroot]
      · simp only [up, hj0, if_false, Less_spec h j ((j - 1) / 2) hj hi, hlt, decide_False,
          Option.some_bind, Bool.not_false, if_true, Option.some.injEq] at hup
        rw [← hup]

/-- The root after `heap.Push`: the new element when it is closer than the old
root (or the heap was empty), the old root otherwise. -/
theorem heapPush_root {F : Type} [LinearOrder F] (h h1 : FloatMinHeap F) (x : Neighbor F)
    (hheap : IsMinHeap h) (hpush : heapPush h x = some h1) :
    h1[0]? = match h[0]? with
      | none => some x
      | some r => if x.Dist < r.Dist then some x else some r := by
  obtain ⟨h2, hpush2, hheap2, hperm⟩ := heapPush_spec h x hheap
  rw [hpush] at hpush2
  cases hpush2
  cases hroot : h[0]? with
  | none =>
    have hnil : h = [] := by
      cases h with
      | nil => rfl
      | cons a t => simp at hroot
    subst hnil
    have hlen := hperm.length_eq
    simp only [List.length_singleton] at hlen
    obtain ⟨y, rfl⟩ := List.length_eq_one.1 hlen
    have hy : y ∈ [x] := hperm.subset (List.mem_singleton_self y)
    simp only [List.mem_singleton] at hy
    simp [hy]
  | some r =>
    have hpos : 0 < h.length := by
      cases h with
      | nil => simp at hroot
      | cons a t => simp
    have hpos1 : 0 < h1.length := by
      rw [hperm.length_eq]
      simp
    have hr : r ∈ h := List.mem_iff_getElem?.2 ⟨0, hroot⟩
    simp only
    by_cases hlt : x.Dist < r.Dist
    · rw [if_pos hlt]
      have hrootmin : ∀ y ∈ h, r.Dist ≤ y.Dist := by
        intro y hy
        obtain ⟨k, hk⟩ := List.mem_iff_getElem?.1 hy
        exact (key_le_iff h 0 k r y hroot hk).1 (IsMinHeap.root_le h hheap k)
      have hy0 : h1[0]? = some h1[0] := List.getElem?_eq_getElem hpos1
      have hxmem : x ∈ h1 := hperm.symm.subset (List.mem_cons_self _ _)
      obtain ⟨k, hk⟩ := List.mem_iff_getElem?.1 hxmem
      have hle : (h1[0]).Dist ≤ x.Dist :=
        (key_le_iff h1 0 k h1[0] x hy0 hk).1 (IsMinHeap.root_le h1 hheap2 k)
      have hmem0 : h1[0] ∈ x :: h := hperm.subset (List.getElem_mem _)
      rcases List.mem_cons.1 hmem0 with heq | hin
      · rw [hy0, heq]
      · exact absurd (lt_of_le_of_lt (le_trans (hrootmin _ hin) hle) hlt) (lt_irrefl _)
    · rw [if_neg hlt]
      have hlenapp : (h ++ [x]).length = h.length + 1 := by simp
      have hup : up (h.length + 1) (h ++ [x]) h.length = some h1 := by
        have := hpush
        simp only [heapPush, FloatMinHeap.Push, hlenapp, Nat.add_sub_cancel] at this
        exact this
      have hkx : key (h ++ [x]) h.length = (x.Dist : WithTop F) := by
        simp [key]
      have hk0 : key (h ++ [x]) 0 = (r.Dist : WithTop F) := by
        rw [key_append_left h [x] 0 hpos]
        simp [key, hroot]
      rw [up_root (h.length + 1) (h ++ [x]) h1 h.length (by omega) hup
        (by rw [hkx, hk0]; exact fun hc => hlt (WithTop.coe_lt_coe.1 hc)),
        List.getElem?_append_left hpos, hroot]

theorem IsFirstMin.push {F : Type} [LinearOrder F] (r x : Neighbor F)
    (pushed : List (Neighbor F)) (hr : IsFirstMin r pushed) :
    IsFirstMin (if x.Dist < r.Dist then x else r) (pushed ++ [x]) := by
  obtain ⟨pre, post, hsplit, hpre, hpost⟩ := hr
  by_cases hlt : x.Dist < r.Dist
  · rw [if_pos hlt]
    refine ⟨pushed, [], by simp, ?_, by simp⟩
    intro b hb
    rw [hsplit] at hb
    rcases List.mem_append.1 hb with h | h
    · exact lt_trans hlt (hpre b h)
    · rcases List.mem_cons.1 h with rfl | h
      · exact hlt
      · exact lt_of_lt_of_le hlt (hpost b h)
  · rw [if_neg hlt]
    refine ⟨pre, post ++ [x], by simp [hsplit], hpre, ?_⟩
    intro b hb
    rcases List.mem_append.1 hb with h | h
    · exact hpost b h
    · simp only [List.mem_singleton] at h
      rw [h]
      exact not_lt.1 hlt

/-- The gathering loop keeps at the root of the heap the first-pushed neighbor
of smallest distance. -/
theorem searchLoop_root {F : Type} [LinearOrder F] (nn : NNMock F) (maxCandidates : Int)
    (query : List F) (distanceThrsh : WithTop F) (ids : List String) (st : SearchState F)
    (hmetric : ∀ a b, (nn.distanceMetric.GetDist a b).isSome = true)
    (hheap : IsMinHeap st.minHeap)
    (hperm : st.minHeap.Perm
      (st.examined.filter fun a => decide ((a.Dist : WithTop F) ≤ distanceThrsh)))
    (hroot : ∀ r, st.minHeap[0]? = some r → IsFirstMin r
      (st.examined.filter fun a => decide ((a.Dist : WithTop F) ≤ distanceThrsh)).reverse) :
    ∃ res, searchLoop nn maxCandidates query distanceThrsh ids st = some res ∧
      ∀ st1, res = .ok st1 → ∀ r, st1.minHeap[0]? = some r → IsFirstMin r
        (st1.examined.filter fun a => decide ((a.Dist : WithTop F) ≤ distanceThrsh)).reverse := by
  induction ids generalizing st with
  | nil =>
    refine ⟨.ok st, by simp [searchLoop], ?_⟩
    intro st1 h1
    cases h1
    exact hroot
  | cons id rest ih =>
    by_cases hfull : maxCandidates ≤ (st.minHeap.length : Int)
    · refine ⟨.ok st, by simp [searchLoop, hfull], ?_⟩
      intro st1 h1
      cases h1
      exact hroot
    · by_cases hin : id ∈ st.closestSet
      · obtain ⟨res, hres, hinv⟩ := ih st hheap hperm hroot
        exact ⟨res, by simp [searchLoop, hfull, hin, hres], hinv⟩
      · cases hvec : nn.index.GetVector id with
        | error err =>
          refine ⟨.error err, by simp [searchLoop, hfull, hin, hvec], ?_⟩
          intro st1 h1
          cases h1
        | ok vec =>
          obtain ⟨dist, hdist⟩ := Option.isSome_iff_exists.1 (hmetric vec query)
          by_cases hthr : (dist : WithTop F) ≤ distanceThrsh
          · obtain ⟨h1, hpush, hheap1, hperm1⟩ :=
              heapPush_spec st.minHeap { Record := { ID := id, Vec := vec }, Dist := dist } hheap
            have hroot1 := heapPush_root st.minHeap h1 _ hheap hpush
            obtain ⟨res, hres, hinv⟩ := ih
              { closestSet := id :: st.closestSet, minHeap := h1,
                examined := { Record := { ID := id, Vec := vec }, Dist := dist } :: st.examined }
              hheap1
              (by
                simp only [List.filter_cons, hthr, decide_True, if_true]
                exact hperm1.trans (List.Perm.cons _ hperm))
              (by
                intro r hr
                simp only [List.filter_cons, hthr, decide_True, if_true, List.reverse_cons]
                simp only at hr
                rw [hroot1] at hr
                cases hold : st.minHeap[0]? with
                | none =>
                  rw [hold] at hr
                  simp only [Option.some.injEq] at hr
                  subst hr
                  have hnil : st.minHeap = [] := by
                    cases hmh : st.minHeap with
                    | nil => rfl
                    | cons a t => rw [hmh] at hold; simp at hold
                  have hempty : (st.examined.filter
                      fun a => decide ((a.Dist : WithTop F) ≤ distanceThrsh)) = [] := by
                    rw [hnil] at hperm
                    exact List.Perm.eq_nil hperm.symm |> fun e => e
                  rw [hempty]
                  exact ⟨[], [], by simp, by simp, by simp⟩
                | some r0 =>
                  rw [hold] at hr
                  simp only at hr
                  have hpushr := IsFirstMin.push r0
                    { Record := { ID := id, Vec := vec }, Dist := dist } _ (hroot r0 hold)
                  by_cases hlt : dist < r0.Dist
                  · simp only [hlt, if_true, Option.some.injEq] at hr hpushr
                    rw [← hr]
                    exact hpushr
                  · simp only [hlt, if_false, Option.some.injEq] at hr hpushr
                    rw [← hr]
                    exact hpushr)
            exact ⟨res, by simp [searchLoop, hfull, hin, hvec, hdist, hthr, hpush, hres], hinv⟩
          · obtain ⟨res, hres, hinv⟩ := ih
              { st with
                examined := { Record := { ID := id, Vec := vec }, Dist := dist } :: st.examined }
              hheap
              (by
                simp only [List.filter_cons, hthr, decide_False]
                exact hperm)
              (by
                intro r hr
                simp only [List.filter_cons, hthr, decide_False]
                exact hroot r hr)
            exact ⟨res, by simp [searchLoop, hfull, hin, hvec, hdist, hthr, hres], hinv⟩

end annbench

/-- C17 (amended): with a metric that returns and `0 < K`, the first neighbor
of the list returned by `NNMock.Search` is the first inserted one among the
neighbors of smallest `Dist` pushed onto the heap (the candidates within the
distance threshold, in the order in which they were examined); the order of
the later neighbors of equal `Dist` follows the pops of the heap. -/
theorem C17_first_neighbor_is_first_inserted_minimum {F : Type} [LinearOrder F]
    (nn : annbench.NNMock F) (query : List F) (maxNN : Int) (distanceThrsh : WithTop F)
    (hmetric : ∀ a b, (nn.distanceMetric.GetDist a b).isSome = true) (hK : 0 < maxNN) :
    ∃ res, annbench.searchLoop nn nn.MaxCandidates query distanceThrsh
        (nn.index.GetHashIterator "0") { closestSet := [], minHeap := [], examined := [] }
        = some res ∧
      ∀ st, res = .ok st → ∃ closest, nn.Search query maxNN distanceThrsh = some (closest, none) ∧
        (closest = [] ↔
          (st.examined.filter fun a => decide ((a.Dist : WithTop F) ≤ distanceThrsh)) = []) ∧
        ∀ a, closest.head? = some a → annbench.IsFirstMin a
          (st.examined.filter fun a => decide ((a.Dist : WithTop F) ≤ distanceThrsh)).reverse := by
  obtain ⟨res, hres, hinv⟩ := annbench.searchLoop_root nn nn.MaxCandidates query distanceThrsh
    (nn.index.GetHashIterator "0") { closestSet := [], minHeap := [], examined := [] } hmetric
    (by intro k _; simp [annbench.key]) (by simp) (by simp)
  obtain ⟨res2, hres2, hinv2⟩ := annbench.searchLoop_spec nn nn.MaxCandidates query distanceThrsh
    (nn.index.GetHashIterator "0") { closestSet := [], minHeap := [], examined := [] } hmetric
    (by intro k _; simp [annbench.key]) (by simp)
  rw [hres] at hres2
  cases hres2
  refine ⟨res, hres, ?_⟩
  intro st hst
  obtain ⟨hheap, hperm⟩ := hinv2 st hst
  obtain ⟨out, rest, hloop, hlen, hperm2, _, _, hhead⟩ :=
    annbench.popLoop_spec maxNN.toNat st.minHeap [] hheap
  have hn : maxNN.toNat ≠ 0 := by omega
  rw [if_neg hn] at hhead
  refine ⟨out, by simp [annbench.NNMock.Search, hres, hst, hloop], ?_, ?_⟩
  · constructor
    · intro hnil
      rw [hnil] at hlen
      have h0 : st.minHeap.length = 0 := by
        simp only [List.length_nil] at hlen
        omega
      have := hperm.length_eq
      rw [h0] at this
      exact List.length_eq_zero.1 this.symm
    · intro hnil
      rw [hnil] at hperm
      have h0 : st.minHeap = [] := hperm.eq_nil
      rw [h0] at hlen
      simpa using hlen
  · intro a ha
    rw [hhead] at ha
    exact hinv st hst a ha

theorem C17_first_neighbor_is_first_inserted_minimum_witness :
    (∀ a b, (annbench.tiedTrained.distanceMetric.GetDist a b).isSome = true) ∧ (0 : Int) < 3 ∧
    ∃ res, annbench.searchLoop annbench.tiedTrained annbench.tiedTrained.MaxCandidates [1] 5
        (annbench.tiedTrained.index.GetHashIterator "0")
        { closestSet := [], minHeap := [], examined := [] } = some res ∧
      ∀ st, res = .ok st → ∃ closest, annbench.tiedTrained.Search [1] 3 5 = some (closest, none) ∧
        (closest = [] ↔
          (st.examined.filter fun a => decide ((a.Dist : WithTop Int) ≤ 5)) = []) ∧
        ∀ a, closest.head? = some a → annbench.IsFirstMin a
          (st.examined.filter fun a => decide ((a.Dist : WithTop Int) ≤ 5)).reverse :=
  ⟨fun _ _ => rfl, by decide,
    C17_first_neighbor_is_first_inserted_minimum annbench.tiedTrained [1] 3 5 (fun _ _ => rfl)
      (by decide)⟩

/-- C17 as stated fails: three records `t1`, `t2`, `t3` with the same vector
are pushed in this order with equal `Dist`, and `Search` returns them in the
order `t1`, `t3`, `t2`. -/
theorem C17_counterexample :
    ((annbench.searchLoop annbench.tiedTrained annbench.tiedTrained.MaxCandidates [1] 5
        (annbench.tiedTrained.index.GetHashIterator "0")
        { closestSet := [], minHeap := [], examined := [] }).map annbench.examinedIDs
      = some ["t1", "t2", "t3"]) ∧
    (annbench.tiedTrained.Search [1] 3 5).map
        (fun r => (r.1.map (fun a => (a.Record.ID, a.Dist)), r.2))
      = some ([("t1", 0), ("t3", 0), ("t2", 0)], none) := by
  decide

end VectorSearch

namespace VectorSearch

/-! ## Distances of the hasher: claim C18 -/

theorem lsh.cmIsZeroVector_iff {F : Type} [LinearOrderedField F] (v : List F) :
    lsh.cmIsZeroVector v = true ↔ ∀ x ∈ v, x = 0 := by
  simp [lsh.cmIsZeroVector]

/-- C18: under the angular metric `Hasher.GetDist` returns the sentinel
distance 1 with the flag `false` whenever one of the two vectors is a zero
vector; for all other inputs, under either metric, it returns the computed
distance (`cm.CosineSim` under the angular metric, `cm.L2` otherwise) and the
flag is `true` if and only if this distance is at most
`Config.DistanceThrsh`. -/
theorem C18_getDist_sentinel_and_flag {F : Type} [LinearOrderedField F] (sqrt : F → F)
    (lshIndex : lsh.Hasher F) (lv rv : List F) :
    (lshIndex.Config.IsAngularDistance = 1 → ((∀ x ∈ lv, x = 0) ∨ (∀ x ∈ rv, x = 0)) →
      lshIndex.GetDist sqrt lv rv = (1, false)) ∧
    (¬ (lshIndex.Config.IsAngularDistance = 1 ∧ ((∀ x ∈ lv, x = 0) ∨ (∀ x ∈ rv, x = 0))) →
      (lshIndex.GetDist sqrt lv rv).1
          = (if lshIndex.Config.IsAngularDistance = 1 then lsh.cmCosineSim sqrt lv rv
              else lsh.cmL2 sqrt lv rv) ∧
        ((lshIndex.GetDist sqrt lv rv).2 = true ↔
          (lshIndex.GetDist sqrt lv rv).1 ≤ lshIndex.Config.DistanceThrsh)) := by
  constructor
  · intro hang hzero
    have hz : (lsh.cmIsZeroVector lv || lsh.cmIsZeroVector rv) = true := by
      rw [Bool.or_eq_true, lsh.cmIsZeroVector_iff, lsh.cmIsZeroVector_iff]
      exact hzero
    simp only [lsh.Hasher.GetDist, hang, if_true, hz]
  · intro hnot
    by_cases hang : lshIndex.Config.IsAngularDistance = 1
    · have hz : (lsh.cmIsZeroVector lv || lsh.cmIsZeroVector rv) = false := by
        rw [Bool.eq_false_iff]
        intro hc
        rw [Bool.or_eq_true, lsh.cmIsZeroVector_iff, lsh.cmIsZeroVector_iff] at hc
        exact hnot ⟨hang, hc⟩
      by_cases hle : lsh.cmCosineSim sqrt lv rv ≤ lshIndex.Config.DistanceThrsh
      · simp [lsh.Hasher.GetDist, hang, hz, hle]
      · simp [lsh.Hasher.GetDist, hang, hz, hle]
    · by_cases hle : lsh.cmL2 sqrt lv rv ≤ lshIndex.Config.DistanceThrsh
      · simp [lsh.Hasher.GetDist, hang, hle]
      · simp [lsh.Hasher.GetDist, hang, hle]

theorem C18_getDist_sentinel_and_flag_witness :
    lsh.angularHasher.GetDist Rat.sqrt [0, 0] [3, 4] = (1, false) ∧
    ((lsh.twoTableHasher.GetDist Rat.sqrt [0, 0] [3, 4]).2 = true ↔
      (lsh.twoTableHasher.GetDist Rat.sqrt [0, 0] [3, 4]).1
        ≤ lsh.twoTableHasher.Config.DistanceThrsh) :=
  ⟨(C18_getDist_sentinel_and_flag Rat.sqrt lsh.angularHasher [0, 0] [3, 4]).1 rfl
      (Or.inl (by simp)),
    ((C18_getDist_sentinel_and_flag Rat.sqrt lsh.twoTableHasher [0, 0] [3, 4]).2
      (by simp [lsh.twoTableHasher])).2⟩

end VectorSearch

namespace VectorSearch

/-! ## Norms and cosines of package `algorithm`: claims C19 and C20 -/

theorem sum_sq_diff_zero {F : Type} [LinearOrderedField F] (v : List F) (n : Nat)
    (hlen : v.length ≤ n) :
    (List.zipWith (fun a b => (a - b) * (a - b)) v (List.replicate n 0)).sum
      = (v.map fun x => x * x).sum := by
  induction v generalizing n with
  | nil => simp
  | cons a v ih =>
    cases n with
    | zero => simp at hlen
    | succ n =>
      simp only [List.length_cons, Nat.add_le_add_iff_right] at hlen
      simp [List.replicate_succ, ih n hlen]

theorem dot_self {F : Type} [LinearOrderedField F] (v : List F) :
    dot v v = (v.map fun x => x * x).sum := by
  unfold dot
  induction v with
  | nil => simp
  | cons a v ih => simp [ih]

theorem dot_self_pos {F : Type} [LinearOrderedField F] (v : List F) (hv : ∃ x ∈ v, x ≠ 0) :
    0 < dot v v := by
  rw [dot_self]
  exact sum_sq_pos v hv

theorem sum_sq_diff_comm {F : Type} [LinearOrderedField F] (x y : List F) :
    (List.zipWith (fun a b => (a - b) * (a - b)) x y).sum
      = (List.zipWith (fun a b => (a - b) * (a - b)) y x).sum := by
  induction x generalizing y with
  | nil => simp
  | cons a x ih =>
    cases y with
    | nil => simp
    | cons b y =>
      simp only [List.zipWith_cons_cons, List.sum_cons, ih y]
      ring

theorem range_sum_eq_finset {F : Type} [LinearOrderedField F] (g : Nat → F) (n : Nat) :
    ((List.range n).map g).sum = ∑ i in Finset.range n, g i := by
  induction n with
  | zero => simp
  | succ n ih => simp [List.range_succ, Finset.sum_range_succ, ih]

/-- The Cauchy–Schwarz inequality on coordinate lists. -/
theorem dot_sq_le {F : Type} [LinearOrderedField F] (a b : List F) (hlen : a.length = b.length) :
    dot a b * dot a b ≤ dot a a * dot b b := by
  have hab : dot a b = ∑ i in Finset.range a.length, a[i]?.getD 0 * b[i]?.getD 0 := by
    rw [← range_sum_eq_finset, range_map_zipWith (fun x y => x * y) a b 0 0 (le_of_eq hlen)]
    rfl
  have haa : dot a a = ∑ i in Finset.range a.length, a[i]?.getD 0 ^ 2 := by
    rw [← range_sum_eq_finset, dot_self, ← range_map_getD (fun x => x * x) a 0]
    simp [sq]
  have hbb : dot b b = ∑ i in Finset.range a.length, b[i]?.getD 0 ^ 2 := by
    rw [← range_sum_eq_finset, dot_self, ← range_map_getD (fun x => x * x) b 0, hlen]
    simp [sq]
  rw [hab, haa, hbb, ← sq]
  exact Finset.sum_mul_sq_le_sq_mul_sq _ _ _

theorem dot_map_mul {F : Type} [LinearOrderedField F] (a b : List F) (t : F) :
    dot a (b.map fun x => x * t) = dot a b * t := by
  unfold dot
  induction a generalizing b with
  | nil => simp
  | cons x a ih =>
    cases b with
    | nil => simp
    | cons y b =>
      simp only [List.map_cons, List.zipWith_cons_cons, List.sum_cons, ih b]
      ring

theorem dot_map_mul_left {F : Type} [LinearOrderedField F] (a b : List F) (t : F) :
    dot (a.map fun x => x * t) b = dot a b * t := by
  unfold dot
  induction a generalizing b with
  | nil => simp
  | cons x a ih =>
    cases b with
    | nil => simp
    | cons y b =>
      simp only [List.map_cons, List.zipWith_cons_cons, List.sum_cons, ih b]
      ring

namespace algorithm

/-- The distance `vec.L2(zeroVec)` to a slice of zeros: the square root of the
sum of the squares. -/
theorem Vector.L2_zero {F : Type} [LinearOrderedField F] (sqrt : F → F) (vec : Vector F)
    (n : Nat) (size : Int) (hlen : vec.Values.length ≤ n) :
    vec.L2 sqrt { Values := List.replicate n 0, Size := size }
      = some (sqrt (dot vec.Values vec.Values)) := by
  rw [Vector.L2_eq sqrt vec _ (by simpa using hlen)]
  simp only
  rw [sum_sq_diff_zero vec.Values n hlen, dot_self]

/-- The value of `CosineSim` on vectors of equal length: the cosine
`(a · b) / (‖a‖ ‖b‖)`. -/
theorem Vector.CosineSim_eq {F : Type} [LinearOrderedField F] (sqrt : F → F) (a b : List F)
    (hlen : a.length = b.length) :
    (NewVector a).CosineSim sqrt (NewVector b)
      = some (dot a b / (sqrt (dot a a) * sqrt (dot b b))) := by
  unfold Vector.CosineSim
  simp only [NewVector]
  rw [makeSlice_length]
  simp only [Option.some_bind]
  rw [Vector.DotProd_eq _ _ (by simpa using le_of_eq hlen),
    Vector.L2_zero sqrt _ a.length 0 (by simp),
    Vector.L2_zero sqrt _ a.length 0 (by simp [hlen])]
  rfl

end algorithm

/-- In exact arithmetic, with exact square roots: for all non-zero vectors `a` and `b` of equal length,
`Vector.CosineSim` returns the cosine `(a · b) / (‖a‖ ‖b‖)` itself: a
similarity lying in `[-1, 1]` that is 0 for orthogonal vectors and 1 for
vectors of identical direction (`b = t a` with `0 < t`). -/
theorem cosineSim_returns_cosine_exact {F : Type} [LinearOrderedField F] (sqrt : F → F)
    (a b : List F) (hlen : a.length = b.length) (ha : ∃ x ∈ a, x ≠ 0) (hb : ∃ x ∈ b, x ≠ 0)
    (hsa : IsSqrtAt sqrt (dot a a)) (hsb : IsSqrtAt sqrt (dot b b)) :
    ∃ cosine, (algorithm.NewVector a).CosineSim sqrt (algorithm.NewVector b) = some cosine ∧
      cosine = dot a b / (sqrt (dot a a) * sqrt (dot b b)) ∧
      -1 ≤ cosine ∧ cosine ≤ 1 ∧
      (dot a b = 0 → cosine = 0) ∧
      (∀ t, 0 < t → b = a.map (fun x => x * t) → cosine = 1) := by
  refine ⟨_, algorithm.Vector.CosineSim_eq sqrt a b hlen, rfl, ?_⟩
  have hpa := dot_self_pos a ha
  have hpb := dot_self_pos b hb
  obtain ⟨hna, hsqa⟩ := hsa
  obtain ⟨hnb, hsqb⟩ := hsb
  have hna : 0 < sqrt (dot a a) := by
    rcases lt_or_eq_of_le hna with h | h
    · exact h
    · rw [← h] at hsqa
      simp only [mul_zero] at hsqa
      exact absurd hsqa (ne_of_lt hpa)
  have hnb : 0 < sqrt (dot b b) := by
    rcases lt_or_eq_of_le hnb with h | h
    · exact h
    · rw [← h] at hsqb
      simp only [mul_zero] at hsqb
      exact absurd hsqb (ne_of_lt hpb)
  have hden : 0 < sqrt (dot a a) * sqrt (dot b b) := mul_pos hna hnb
  have hcs := dot_sq_le a b hlen
  have habs : |dot a b| ≤ sqrt (dot a a) * sqrt (dot b b) := by
    apply abs_le_of_sq_le_sq _ (le_of_lt hden)
    rw [sq, sq]
    calc dot a b * dot a b ≤ dot a a * dot b b := hcs
      _ = sqrt (dot a a) * sqrt (dot b b) * (sqrt (dot a a) * sqrt (dot b b)) := by
        rw [mul_mul_mul_comm, hsqa, hsqb]
  obtain ⟨hlo, hhi⟩ := abs_le.1 habs
  refine ⟨?_, ?_, ?_, ?_⟩
  · rw [le_div_iff₀ hden]
    linarith
  · rw [div_le_iff₀ hden]
    linarith
  · intro h0
    rw [h0, zero_div]
  · intro t ht hbt
    have hdab : dot a b = dot a a * t := by rw [hbt, dot_map_mul]
    have hdbb : dot b b = dot a a * t * t := by
      rw [hbt, dot_map_mul, dot_map_mul_left]
    have hroot : sqrt (dot b b) = sqrt (dot a a) * t := by
      have hnn : 0 ≤ sqrt (dot a a) * t := le_of_lt (mul_pos hna ht)
      have hsq : sqrt (dot b b) * sqrt (dot b b)
          = sqrt (dot a a) * t * (sqrt (dot a a) * t) := by
        rw [hsqb, hdbb, mul_mul_mul_comm, hsqa]
        ring
      exact (mul_self_inj (le_of_lt hnb) hnn).1 hsq
    rw [hdab, hroot, ← mul_assoc, hsqa]
    exact div_self (ne_of_gt (mul_pos hpa ht))

/-- C19 as stated fails: for `a = b = [1]` (identical direction) `CosineSim`
returns 1 where `1 - (a · b) / (‖a‖ ‖b‖)` is 0, for the orthogonal `[1, 0]`
and `[0, 1]` it returns 0, and for the opposite `[1]` and `[-1]` it returns -1,
outside `[0, 2]`. -/
theorem C19_counterexample :
    (algorithm.NewVector [1]).CosineSim Rat.sqrt (algorithm.NewVector [1]) = some 1 ∧
    (1 : ℚ) - dot [1] [1] / (Rat.sqrt (dot [1] [1]) * Rat.sqrt (dot [1] [1])) = 0 ∧
    (algorithm.NewVector [1, 0]).CosineSim Rat.sqrt (algorithm.NewVector [0, 1]) = some 0 ∧
    (algorithm.NewVector [1]).CosineSim Rat.sqrt (algorithm.NewVector [-1]) = some (-1) := by
  have h1 : Rat.sqrt 1 = 1 := by
    have h := Rat.sqrt_eq 1
    simp only [mul_one, abs_one] at h
    exact h
  refine ⟨?_, ?_, ?_, ?_⟩
  · rw [algorithm.Vector.CosineSim_eq Rat.sqrt [1] [1] rfl]
    norm_num [dot, h1]
  · norm_num [dot, h1]
  · rw [algorithm.Vector.CosineSim_eq Rat.sqrt [1, 0] [0, 1] rfl]
    norm_num [dot, h1]
  · rw [algorithm.Vector.CosineSim_eq Rat.sqrt [1] [-1] rfl]
    norm_num [dot, h1]

end VectorSearch

namespace VectorSearch

/-- In exact arithmetic: for all vectors `x` and `y` of equal length, `L2` returns and
`L2(x, y) = L2(y, x)` and `L2(x, x) = 0`; for the zero vector of the same
length, `L2(x, 0)` is the norm of `x`: it is non-negative and its square is
`DotProd(x, x)`. The square root is exact at 0 and at the sum of the squares
of `x`. -/
theorem l2_symmetric_zero_norm_exact {F : Type} [LinearOrderedField F] (sqrt : F → F)
    (x y : List F) (hlen : x.length = y.length) (h0 : IsSqrtAt sqrt 0)
    (hx : IsSqrtAt sqrt (dot x x)) :
    (∃ d, (algorithm.NewVector x).L2 sqrt (algorithm.NewVector y) = some d ∧
      (algorithm.NewVector y).L2 sqrt (algorithm.NewVector x) = some d) ∧
    (algorithm.NewVector x).L2 sqrt (algorithm.NewVector x) = some 0 ∧
    ∃ n dp, (algorithm.NewVector x).L2 sqrt (algorithm.NewVector (List.replicate x.length 0))
        = some n ∧
      (algorithm.NewVector x).DotProd (algorithm.NewVector x) = some dp ∧
      0 ≤ n ∧ n * n = dp := by
  refine ⟨⟨_, algorithm.Vector.L2_eq sqrt _ _ (le_of_eq hlen), ?_⟩, ?_, ?_⟩
  · rw [algorithm.Vector.L2_eq sqrt _ _ (le_of_eq hlen.symm)]
    simp only [algorithm.NewVector]
    rw [sum_sq_diff_comm]
  · rw [algorithm.Vector.L2_eq sqrt _ _ (le_refl _)]
    simp only [algorithm.NewVector]
    rw [algorithm.sum_sq_diff_self]
    have hz : sqrt 0 = 0 := mul_self_eq_zero.1 h0.2
    rw [hz]
  · refine ⟨sqrt (dot x x), dot x x, ?_, ?_, hx.1, hx.2⟩
    · exact algorithm.Vector.L2_zero sqrt (algorithm.NewVector x) x.length _ (le_refl _)
    · exact algorithm.Vector.DotProd_eq _ _ (le_refl _)

end VectorSearch

namespace VectorSearch

/-! ## Persistence: claims C21 and C22 -/

theorem gobField_fresh {α : Type} [DecidableEq α] (zero sent : α) :
    gobField zero sent zero = sent := by
  unfold gobField
  split
  · next h => exact h.symm
  · rfl

theorem gobSlice_fresh {α : Type} (elem : α → α → α) (zero : α) (sent : List α)
    (helem : ∀ s ∈ sent, elem s zero = s) : gobSlice elem zero sent [] = sent := by
  unfold gobSlice
  by_cases h0 : sent.length = 0
  · rw [if_pos h0]
    exact (List.length_eq_zero.1 h0).symm
  · rw [if_neg h0, if_pos (by simpa using Nat.pos_of_ne_zero h0)]
    calc sent.map (fun s => elem s zero) = sent.map id :=
          List.map_congr_left (fun s hs => helem s hs)
      _ = sent := List.map_id sent

theorem gobBasicSlice_fresh {α : Type} (zero : α) (sent : List α) :
    gobBasicSlice zero sent [] = sent :=
  gobSlice_fresh _ zero sent (fun _ _ => rfl)

namespace lsh

theorem gobDecodePlane_fresh {F : Type} [LinearOrderedField F] (sent : Plane F) :
    gobDecodePlane sent { Coefs := [], D := 0 } = sent := by
  simp [gobDecodePlane, gobField_fresh, gobBasicSlice_fresh]

theorem gobDecodeInstance_fresh {F : Type} [LinearOrderedField F] (sent : HasherInstance F) :
    gobDecodeInstance sent { Planes := [] } = sent := by
  simp only [gobDecodeInstance]
  rw [gobSlice_fresh _ _ _ (fun s _ => gobDecodePlane_fresh s)]

/-- Decoding the stream of a hasher into the zero value `Hasher{}` gives the
hasher back. -/
theorem gobDecodeHasher_fresh {F : Type} [LinearOrderedField F] (sent : Hasher F) :
    gobDecodeHasher sent zeroHasher = sent := by
  simp only [gobDecodeHasher, gobDecodeConfig, zeroHasher, gobField_fresh, gobBasicSlice_fresh]
  rw [gobSlice_fresh _ _ _ (fun s _ => gobDecodeInstance_fresh s)]

/-- The round trip of package `lsh`: the bytes that `Dump` produces for a
hasher with at least one instance load into the zero value `Hasher{}` as the
same hasher. -/
theorem Hasher.Load_Dump {F : Type} [LinearOrderedField F] (x : Hasher F)
    (hx : x.Instances ≠ []) :
    ∃ bytes, x.Dump = (some bytes, none) ∧
      zeroHasher.Load bytes = (x, none) := by
  have hlen : x.Instances.length ≠ 0 := fun h => hx (List.length_eq_zero.1 h)
  refine ⟨GobBytes.stream x, by simp [Hasher.Dump, hlen], ?_⟩
  simp only [Hasher.Load, gobDecodeHasher_fresh]

end lsh

namespace algorithm

theorem gobDecodeVector_fresh {F : Type} [LinearOrderedField F] (sent : Vector F) :
    gobDecodeVector sent { Values := [], Size := 0 } = sent := by
  simp [gobDecodeVector, gobField_fresh, gobBasicSlice_fresh]

theorem gobDecodePlane_fresh_point {F : Type} [LinearOrderedField F] (sent : Plane F) :
    gobDecodePlane sent
      { Coefs := { Values := [], Size := 0 }, InnerPoint := { Values := [], Size := 0 } }
      = sent := by
  simp [gobDecodePlane, gobDecodeVector_fresh]

/-- The round trip of package `algorithm`: loading the file that `Dump`
wrote into an index without planes and mean vector restores `Planes` and
`MeanVec`, and keeps the `dims`, `nPlanes` and `bias` of the receiver. -/
theorem LSHIndex.Load_Dump_exported {F : Type} [LinearOrderedField F] (x recv : LSHIndex F)
    (path : String) (disk : Disk F) (hplanes : recv.Planes = [])
    (hmean : recv.MeanVec = { Values := [], Size := 0 }) :
    recv.Load path (x.Dump path disk).1
      = ({ recv with Planes := x.Planes, MeanVec := x.MeanVec }, none) := by
  simp only [LSHIndex.Load, LSHIndex.Dump, if_true, hplanes, hmean, gobDecodeVector_fresh]
  rw [gobSlice_fresh _ _ _ (fun s _ => gobDecodePlane_fresh_point s)]

/-- An index whose `nPlanes` is not positive gives the code 0 to every vector. -/
theorem LSHIndex.GetHash_no_plane {F : Type} [LinearOrderedField F] (lsh : LSHIndex F)
    (inpVec : Vector F) (hn : lsh.nPlanes ≤ 0) : lsh.GetHash inpVec = some 0 := by
  have h0 : lsh.nPlanes.toNat = 0 := Int.toNat_eq_zero.2 hn
  simp [LSHIndex.GetHash, h0, forRange]

end algorithm

/-- C21 (failing input): the index `builtIndex` of package `algorithm`, with
one plane as `Build` appends it, gives the code 1 to the vector `[2]`;
`Dump` followed by `Load` into the zero value `LSHIndex{}` returns no error
and restores `Planes` and `MeanVec`, but the loaded index has `nPlanes = 0`,
differs from `builtIndex` and gives the code 0 to `[2]`. -/
theorem C21_lshIndex_round_trip_loses_plane_count :
    (algorithm.newPlane (algorithm.NewVector [1, 1])).map (fun p => [p])
      = some algorithm.builtIndex.Planes ∧
    algorithm.builtIndex.WellFormed 1 ∧
    ∃ loaded,
      algorithm.zeroIndex.Load "index.gob"
          (algorithm.builtIndex.Dump "index.gob" algorithm.emptyDisk).1 = (loaded, none) ∧
      loaded.Planes = algorithm.builtIndex.Planes ∧
      loaded.MeanVec = algorithm.builtIndex.MeanVec ∧
      loaded.nPlanes = 0 ∧ algorithm.builtIndex.nPlanes = 1 ∧
      algorithm.builtIndex.GetHash (algorithm.NewVector [2]) = some 1 ∧
      loaded.GetHash (algorithm.NewVector [2]) = some 0 := by
  refine ⟨?_, ?_, _, algorithm.LSHIndex.Load_Dump_exported algorithm.builtIndex algorithm.zeroIndex
    "index.gob" algorithm.emptyDisk rfl rfl, rfl, rfl, rfl, rfl, ?_, ?_⟩
  · have h := algorithm.GetPointPlaneDist_eq [(1 : ℚ)] 1
    simp only [List.nil_append, List.cons_append] at h
    simp only [algorithm.newPlane, h]
    simp [algorithm.builtIndex, algorithm.NewVector]
  · simp [algorithm.LSHIndex.WellFormed, algorithm.Vector.HasDim, algorithm.builtIndex]
  · simp [algorithm.LSHIndex.GetHash, algorithm.builtIndex, forRange, algorithm.Vector.ConstMul,
      algorithm.Vector.Add, algorithm.Vector.DotProd, algorithm.NewVector, makeSlice, setIdx,
      Signbit, setBit64, List.range_succ]
  · exact algorithm.LSHIndex.GetHash_no_plane _ _ (le_refl _)

end VectorSearch

namespace VectorSearch

/-- C22 (amended): `Dump` fails with an error, instead of producing bytes,
exactly when the hasher holds no instance.  For a hasher returned by
`NewLSHIndex` on which `Generate` has not been called this is the case
exactly when `Config.NPermutes = 0`; with `NPermutes ≥ 1` the untrained
hasher holds `NPermutes` empty instances and `Dump` produces bytes without
an error. -/
theorem C22_dump_fails_iff_no_instance {F : Type} (config : lsh.Config F)
    (lshIndex : lsh.Hasher F) (hnew : lsh.NewLSHIndex config = some lshIndex) :
    (lshIndex.Dump = (none, some "search index must contain at least one object") ↔
      lshIndex.Instances = []) ∧
    (lshIndex.Instances = [] ↔ config.NPermutes = 0) ∧
    (0 < config.NPermutes ↔ lshIndex.Dump = (some (GobBytes.stream lshIndex), none)) := by
  have hn : 0 ≤ config.NPermutes := by
    by_contra hneg
    simp [lsh.NewLSHIndex, hneg] at hnew
  have hinst : lshIndex.Instances
      = List.replicate config.NPermutes.toNat { Planes := [] } := by
    simp only [lsh.NewLSHIndex, hn, if_true, Option.some.injEq] at hnew
    rw [← hnew]
  have hlen : lshIndex.Instances.length = config.NPermutes.toNat := by
    rw [hinst, List.length_replicate]
  have hnil : lshIndex.Instances = [] ↔ config.NPermutes = 0 := by
    rw [← List.length_eq_zero, hlen]
    omega
  refine ⟨?_, hnil, ?_⟩
  · by_cases h0 : lshIndex.Instances.length = 0
    · simp [lsh.Hasher.Dump, h0, List.length_eq_zero.1 h0]
    · have hne : lshIndex.Instances ≠ [] := fun h => h0 (List.length_eq_zero.2 h)
      simp [lsh.Hasher.Dump, h0, hne]
  · by_cases h0 : lshIndex.Instances.length = 0
    · have h1 : config.NPermutes = 0 := hnil.1 (List.length_eq_zero.1 h0)
      simp [lsh.Hasher.Dump, h0, h1]
    · have h1 : 0 < config.NPermutes := by omega
      simp [lsh.Hasher.Dump, h0, h1]

theorem C22_dump_fails_iff_no_instance_witness :
    (lsh.emptyHasher.Dump = (none, some "search index must contain at least one object") ↔
      lsh.emptyHasher.Instances = []) ∧
    (lsh.emptyHasher.Instances = [] ↔
      ({ lsh.exampleConfig with NPermutes := 0, Dims := 0 } : lsh.Config ℚ).NPermutes = 0) ∧
    (0 < ({ lsh.exampleConfig with NPermutes := 0, Dims := 0 } : lsh.Config ℚ).NPermutes ↔
      lsh.emptyHasher.Dump = (some (GobBytes.stream lsh.emptyHasher), none)) :=
  C22_dump_fails_iff_no_instance { lsh.exampleConfig with NPermutes := 0, Dims := 0 }
    lsh.emptyHasher rfl

/-- C22 as stated fails: the hasher that `NewLSHIndex` returns for a
configuration with `NPermutes = 1`, on which `Generate` has not been called,
holds one empty instance, and `Dump` returns bytes and no error. -/
theorem C22_counterexample :
    lsh.exampleConfig.NPermutes = 1 ∧
    lsh.NewLSHIndex lsh.exampleConfig = some lsh.exampleHasher ∧
    lsh.exampleHasher.Instances = [{ Planes := [] }] ∧
    lsh.exampleHasher.Dump = (some (GobBytes.stream lsh.exampleHasher), none) :=
  ⟨rfl, rfl, rfl, rfl⟩

end VectorSearch

namespace VectorSearch

/-! ## The inner point of a plane: claim C23 -/

/-- The inner point `c * d / k` of the plane `(c, d)`: its products with `c`
and with itself. -/
theorem dot_inner_point {F : Type} [LinearOrderedField F] (cf : List F) (d k : F) :
    dot cf (cf.map fun ci => ci * d / k) = dot cf cf * (d / k) ∧
    dot (cf.map fun ci => ci * d / k) (cf.map fun ci => ci * d / k)
      = dot cf cf * (d / k) * (d / k) := by
  have hmap : (cf.map fun ci => ci * d / k) = cf.map fun ci => ci * (d / k) := by
    apply List.map_congr_left
    intro ci _
    ring
  rw [hmap, dot_map_mul, dot_map_mul_left, dot_map_mul]
  exact ⟨rfl, rfl⟩

/-- In exact arithmetic: for every plane coefficient vector `(c, d)` with `c` non-zero,
`GetPointPlaneDist` returns the point `p = c * d / ‖c‖²`; the point lies on
the plane `c · x = d`, its norm `‖p‖` equals `|d| / ‖c‖`, and no point of the
plane is closer to the origin.  The square root is exact at `‖c‖²` and at
`d² / ‖c‖²`. -/
theorem inner_point_distance_exact {F : Type} [LinearOrderedField F] (sqrt : F → F)
    (cf : List F) (d : F) (hc : ∃ x ∈ cf, x ≠ 0) (hsc : IsSqrtAt sqrt (dot cf cf))
    (hsp : IsSqrtAt sqrt (d * d / dot cf cf)) :
    ∃ p, algorithm.GetPointPlaneDist (algorithm.NewVector (cf ++ [d])) = some p ∧
      p.Values = cf.map (fun ci => ci * d / dot cf cf) ∧ p.Size = cf.length ∧
      dot cf p.Values = d ∧
      sqrt (dot p.Values p.Values) = |d| / sqrt (dot cf cf) ∧
      ∀ x : List F, x.length = cf.length → dot cf x = d →
        dot p.Values p.Values ≤ dot x x := by
  have hk := dot_self_pos cf hc
  have hkne : dot cf cf ≠ 0 := ne_of_gt hk
  obtain ⟨hp1, hp2⟩ := dot_inner_point cf d (dot cf cf)
  have hpp : dot (cf.map fun ci => ci * d / dot cf cf) (cf.map fun ci => ci * d / dot cf cf)
      = d * d / dot cf cf := by
    rw [hp2]
    field_simp
  refine ⟨_, algorithm.GetPointPlaneDist_eq cf d, ?_, rfl, ?_, ?_, ?_⟩
  · simp only [dot_self]
  · simp only [← dot_self]
    rw [hp1]
    field_simp
  · simp only [← dot_self]
    rw [hpp]
    obtain ⟨hn1, hsq1⟩ := hsc
    obtain ⟨hn2, hsq2⟩ := hsp
    have hpos : 0 < sqrt (dot cf cf) := by
      rcases lt_or_eq_of_le hn1 with h | h
      · exact h
      · rw [← h] at hsq1
        simp only [mul_zero] at hsq1
        exact absurd hsq1 (ne_of_lt hk)
    have hnn : 0 ≤ |d| / sqrt (dot cf cf) := div_nonneg (abs_nonneg d) hn1
    have hsq : sqrt (d * d / dot cf cf) * sqrt (d * d / dot cf cf)
        = |d| / sqrt (dot cf cf) * (|d| / sqrt (dot cf cf)) := by
      rw [hsq2, div_mul_div_comm, hsq1, abs_mul_abs_self]
    exact (mul_self_inj hn2 hnn).1 hsq
  · intro x hlen hx
    simp only [← dot_self]
    rw [hpp, div_le_iff₀ hk]
    have hcs := dot_sq_le cf x hlen.symm
    rw [hx] at hcs
    rw [mul_comm (dot x x)]
    exact hcs

end VectorSearch

namespace VectorSearch

namespace annbench

/-! ## Precision and recall: claim C24 -/

/-- The map `gtSet` after the first loop of `PrecisionRecall`: the entries of
`groundTruth`, over the entries `m` that it held before. -/
theorem gtSet_fold (groundTruth : List Int) (m : Int → Bool) (k : Int) :
    groundTruth.foldl (fun m gt => fun k => if k = gt then true else m k) m k
      = (decide (k ∈ groundTruth) || m k) := by
  induction groundTruth generalizing m with
  | nil => simp
  | cons g gs ih =>
    simp only [List.foldl_cons, ih, List.mem_cons]
    by_cases hk : k = g
    · simp [hk]
    · simp [hk]

/-- The counter `valid` after the second loop of `PrecisionRecall`. -/
theorem valid_fold (gtSet : Int → Bool) (prediction : List Int) (valid : Int) :
    prediction.foldl (fun valid val => if gtSet val then valid + 1 else valid) valid
      = valid + ((prediction.filter fun val => gtSet val).length : Int) := by
  induction prediction generalizing valid with
  | nil => simp
  | cons a l ih =>
    simp only [List.foldl_cons, ih, List.filter_cons]
    by_cases ha : gtSet a = true
    · simp only [ha, if_true, List.length_cons]
      push_cast
      ring
    · simp only [ha, if_false]
      simp

/-- The two results of `PrecisionRecall` in closed form. -/
theorem PrecisionRecall_eq {F : Type} [LinearOrderedField F] (prediction groundTruth : List Int) :
    PrecisionRecall (F := F) prediction groundTruth
      = (if 0 < prediction.length then
            ((prediction.filter fun val => decide (val ∈ groundTruth)).length : F)
              / (prediction.length : F)
          else 0,
         ((prediction.filter fun val => decide (val ∈ groundTruth)).length : F)
           / (groundTruth.length : F)) := by
  have hset : (groundTruth.foldl (fun m gt => fun k => if k = gt then true else m k)
      (fun _ => false)) = fun k => decide (k ∈ groundTruth) := by
    funext k
    rw [gtSet_fold]
    simp
  simp only [PrecisionRecall, hset, valid_fold, zero_add, Int.cast_natCast]

end annbench

/-- C24: for every prediction list without repeated entries and every
non-empty ground-truth list, `PrecisionRecall` returns a precision and a
recall that both lie in `[0, 1]`; the recall is the ratio of the number of
relevant predictions (the entries of the prediction that occur in the ground
truth) over the number of ground-truth items, and the precision is 0 for an
empty prediction. -/
theorem C24_precision_recall_bounds {F : Type} [LinearOrderedField F]
    (prediction groundTruth : List Int) (hnodup : prediction.Nodup)
    (hgt : groundTruth ≠ []) :
    0 ≤ (annbench.PrecisionRecall (F := F) prediction groundTruth).1 ∧
    (annbench.PrecisionRecall (F := F) prediction groundTruth).1 ≤ 1 ∧
    0 ≤ (annbench.PrecisionRecall (F := F) prediction groundTruth).2 ∧
    (annbench.PrecisionRecall (F := F) prediction groundTruth).2 ≤ 1 ∧
    (annbench.PrecisionRecall (F := F) prediction groundTruth).2
      = ((prediction.filter fun val => decide (val ∈ groundTruth)).length : F)
          / (groundTruth.length : F) ∧
    (prediction = [] → (annbench.PrecisionRecall (F := F) prediction groundTruth).1 = 0) := by
  rw [annbench.PrecisionRecall_eq]
  have hle1 : (prediction.filter fun val => decide (val ∈ groundTruth)).length
      ≤ prediction.length := List.length_filter_le _ _
  have hle2 : (prediction.filter fun val => decide (val ∈ groundTruth)).length
      ≤ groundTruth.length := by
    apply List.Subperm.length_le
    apply List.Nodup.subperm (hnodup.filter _)
    intro a ha
    have := (List.mem_filter.1 ha).2
    simpa using this
  have hgpos : 0 < groundTruth.length := List.length_pos.2 hgt
  have hgposF : (0 : F) < (groundTruth.length : F) := by exact_mod_cast hgpos
  refine ⟨?_, ?_, ?_, ?_, rfl, ?_⟩
  · simp only
    split
    · exact div_nonneg (Nat.cast_nonneg _) (Nat.cast_nonneg _)
    · exact le_refl _
  · simp only
    split
    · next hpos =>
      have hposF : (0 : F) < (prediction.length : F) := by exact_mod_cast hpos
      rw [div_le_one hposF]
      exact_mod_cast hle1
    · exact zero_le_one
  · exact div_nonneg (Nat.cast_nonneg _) (Nat.cast_nonneg _)
  · simp only
    rw [div_le_one hgposF]
    exact_mod_cast hle2
  · intro hnil
    simp [hnil]

theorem C24_precision_recall_bounds_witness :
    0 ≤ (annbench.PrecisionRecall (F := ℚ) [1, 2, 5] [2, 2, 1, 7]).1 ∧
    (annbench.PrecisionRecall (F := ℚ) [1, 2, 5] [2, 2, 1, 7]).1 ≤ 1 ∧
    0 ≤ (annbench.PrecisionRecall (F := ℚ) [1, 2, 5] [2, 2, 1, 7]).2 ∧
    (annbench.PrecisionRecall (F := ℚ) [1, 2, 5] [2, 2, 1, 7]).2 ≤ 1 ∧
    (annbench.PrecisionRecall (F := ℚ) [1, 2, 5] [2, 2, 1, 7]).2
      = ((([1, 2, 5] : List Int).filter fun val => decide (val ∈ [2, 2, 1, 7])).length : ℚ)
          / (([2, 2, 1, 7] : List Int).length : ℚ) ∧
    (([1, 2, 5] : List Int) = [] →
      (annbench.PrecisionRecall (F := ℚ) [1, 2, 5] [2, 2, 1, 7]).1 = 0) :=
  C24_precision_recall_bounds [1, 2, 5] [2, 2, 1, 7] (by decide) (by decide)

end VectorSearch

namespace VectorSearch

/-! ## Hash codes over float64: claim C1 -/

namespace fp

namespace lsh

open VectorSearch.lsh

/-- The code that the loop of `GetHash` builds, bit by bit: bit `k` tests the
sign bit of the computed value `Dot(shiftedVec, Coefs) - D` of plane `k - i`. -/
theorem getHashLoop_bits {F : Type} (ops : FloatOps F) (shiftedVec : List F)
    (planes : List (Plane F)) (i : Nat) (vec : List F) (hash : Nat)
    (hvec : vec.length = shiftedVec.length)
    (hdim : ∀ p ∈ planes, p.Coefs.length = shiftedVec.length) :
    ∃ h, getHashLoop ops shiftedVec planes i vec hash = some h ∧
      ∀ k, h.testBit k = (hash.testBit k ||
        (decide (i ≤ k) && decide (k < 64) &&
          (match planes[k - i]? with
           | some p => (blasDot ops shiftedVec p.Coefs).any fun dot =>
               !ops.signbit (ops.sub dot p.D)
           | none => false))) := by
  induction planes generalizing i vec hash with
  | nil => exact ⟨hash, rfl, by simp⟩
  | cons plane rest ih =>
    have hp : plane.Coefs.length = shiftedVec.length := hdim plane (List.mem_cons_self _ _)
    have hdot : blasDot ops shiftedVec plane.Coefs
        = some ((List.zipWith (fun xi yi => ops.mul yi xi) shiftedVec plane.Coefs).foldl
            ops.add (ops.ofInt 0)) := by
      simp [blasDot, hp]
    obtain ⟨h, hh, hbits⟩ := ih (i + 1) shiftedVec
      (if !ops.signbit (ops.sub
          ((List.zipWith (fun xi yi => ops.mul yi xi) shiftedVec plane.Coefs).foldl
            ops.add (ops.ofInt 0)) plane.D)
        then setBit64 hash i else hash) rfl
      (fun p hp => hdim p (List.mem_cons_of_mem _ hp))
    refine ⟨h, ?_, ?_⟩
    · simp only [getHashLoop, blasCopy, hvec.symm, if_true, Option.some_bind]
      rw [hdot]
      simpa using hh
    · intro k
      rw [hbits]
      rcases Nat.lt_trichotomy k i with hk | hk | hk
      · have h1 : ¬ i ≤ k := by omega
        have h2 : ¬ i + 1 ≤ k := by omega
        have h3 : ¬ i = k := by omega
        by_cases hs : ops.signbit (ops.sub
            ((List.zipWith (fun xi yi => ops.mul yi xi) shiftedVec plane.Coefs).foldl
              ops.add (ops.ofInt 0)) plane.D) = true
        · simp [hs, h1, h2]
        · simp [hs, h1, h2, h3, setBit64_testBit]
      · subst hk
        have h2 : ¬ k + 1 ≤ k := by omega
        by_cases hs : ops.signbit (ops.sub
            ((List.zipWith (fun xi yi => ops.mul yi xi) shiftedVec plane.Coefs).foldl
              ops.add (ops.ofInt 0)) plane.D) = true
        · simp [hs, h2, hdot]
        · simp [hs, h2, hdot, setBit64_testBit]
      · have h1 : i ≤ k := by omega
        have h2 : i + 1 ≤ k := by omega
        have h3 : ¬ i = k := by omega
        have h4 : k - i = (k - (i + 1)) + 1 := by omega
        by_cases hs : ops.signbit (ops.sub
            ((List.zipWith (fun xi yi => ops.mul yi xi) shiftedVec plane.Coefs).foldl
              ops.add (ops.ofInt 0)) plane.D) = true
        · simp [hs, h1, h2, h4]
        · simp [hs, h1, h2, h3, h4, setBit64_testBit]

end lsh

end fp

/-- C1 (amended): for an instance with at most 64 planes and float64 vectors
of the planes' dimension, `HasherInstance.GetHash` returns a code whose bit
`i` is set if and only if the float64 value that the code computes for
`c_i · (x − mu) − d_i` has a clear sign bit: the value
`blas64.Dot(shiftedVec, c_i) - d_i`, where `shiftedVec` is `x` after
`blas64.Axpy(-1, mu, ·)`, each operation rounded.  Bit `i` always belongs to
plane `i`. -/
theorem C1_getHash_bit_iff_computed_sign {F : Type} (ops : FloatOps F)
    (lshInstance : lsh.HasherInstance F) (inpVec meanVec : List F)
    (hP : lshInstance.Planes.length ≤ 64) (hmu : meanVec.length = inpVec.length)
    (hdim : ∀ p ∈ lshInstance.Planes, p.Coefs.length = inpVec.length) :
    ∃ shiftedVec h, fp.blasAxpy ops (ops.ofInt (-1)) meanVec inpVec = some shiftedVec ∧
      fp.lsh.HasherInstance.GetHash ops lshInstance inpVec meanVec = some h ∧
      ∀ (i : Nat) (hi : i < lshInstance.Planes.length),
        ∃ dot, fp.blasDot ops shiftedVec (lshInstance.Planes[i]).Coefs = some dot ∧
          (h.testBit i = true ↔
            ops.signbit (ops.sub dot (lshInstance.Planes[i]).D) = false) := by
  have haxpy : fp.blasAxpy ops (ops.ofInt (-1)) meanVec inpVec
      = some (List.zipWith (fun xi yi => ops.add yi (ops.mul (ops.ofInt (-1)) xi))
          meanVec inpVec) := by
    simp [fp.blasAxpy, hmu]
  have hlen : (List.zipWith (fun xi yi => ops.add yi (ops.mul (ops.ofInt (-1)) xi))
      meanVec inpVec).length = inpVec.length := by
    simp [hmu]
  obtain ⟨h, hh, hbits⟩ := fp.lsh.getHashLoop_bits ops
    (List.zipWith (fun xi yi => ops.add yi (ops.mul (ops.ofInt (-1)) xi)) meanVec inpVec)
    lshInstance.Planes 0 (List.replicate inpVec.length (ops.ofInt 0)) 0
    (by simp [hmu]) (fun p hp => by rw [hlen]; exact hdim p hp)
  refine ⟨_, h, haxpy, ?_, ?_⟩
  · simp only [fp.lsh.HasherInstance.GetHash, blasCopy, List.length_replicate, if_true,
      Option.some_bind, haxpy]
    exact hh
  · intro i hi
    have hi64 : i < 64 := by omega
    have hp : (lshInstance.Planes[i]).Coefs.length
        = (List.zipWith (fun xi yi => ops.add yi (ops.mul (ops.ofInt (-1)) xi))
            meanVec inpVec).length := by
      rw [hlen]
      exact hdim _ (List.getElem_mem _)
    have hdot : fp.blasDot ops
        (List.zipWith (fun xi yi => ops.add yi (ops.mul (ops.ofInt (-1)) xi)) meanVec inpVec)
        (lshInstance.Planes[i]).Coefs
        = some ((List.zipWith (fun xi yi => ops.mul yi xi)
            (List.zipWith (fun xi yi => ops.add yi (ops.mul (ops.ofInt (-1)) xi)) meanVec inpVec)
            (lshInstance.Planes[i]).Coefs).foldl ops.add (ops.ofInt 0)) := by
      simp only [fp.blasDot, hp, if_true]
    refine ⟨_, hdot, ?_⟩
    rw [hbits i]
    simp [List.getElem?_eq_getElem hi, hi64, hdot]

end VectorSearch

namespace VectorSearch

/-- The exact value of the float64 `m * 2 ^ e`. -/
theorem binary64.toRat_lit (m e : Int) (he : -1074 ≤ e) :
    binary64.toRat (binary64.lit m e) = (m : ℚ) * (2 : ℚ) ^ e := by
  obtain ⟨n, hn⟩ : ∃ n : Nat, (n : Int) = 1074 + e := ⟨(1074 + e).toNat, Int.toNat_of_nonneg (by omega)⟩
  have hn2 : (1074 + e).toNat = n := by rw [← hn]; simp
  have he2 : e = (n : Int) - 1074 := by omega
  unfold binary64.toRat binary64.lit
  rw [hn2, he2, zpow_sub₀ (by norm_num : (2 : ℚ) ≠ 0)]
  push_cast
  simp only [zpow_natCast]
  have h1074 : ((2 : ℚ) ^ (1074 : Int)) = (2 : ℚ) ^ (1074 : Nat) := by
    rw [← zpow_natCast]
    rfl
  rw [h1074]
  ring

theorem C1_getHash_bit_iff_computed_sign_witness :
    ∃ shiftedVec h,
      fp.blasAxpy binary64.ops (binary64.ops.ofInt (-1)) [0, 0, 0] binary64.cancellingInput
        = some shiftedVec ∧
      fp.lsh.HasherInstance.GetHash binary64.ops binary64.cancellingInstance
        binary64.cancellingInput [0, 0, 0] = some h ∧
      ∀ (i : Nat) (hi : i < binary64.cancellingInstance.Planes.length),
        ∃ dot, fp.blasDot binary64.ops shiftedVec (binary64.cancellingInstance.Planes[i]).Coefs
            = some dot ∧
          (h.testBit i = true ↔
            binary64.ops.signbit
              (binary64.ops.sub dot (binary64.cancellingInstance.Planes[i]).D) = false) :=
  C1_getHash_bit_iff_computed_sign binary64.ops binary64.cancellingInstance
    binary64.cancellingInput [0, 0, 0] (by decide) (by decide) (by decide)

/-- C1 as stated fails: for the plane `c = (1, 1, 1)`, `d = 0.5`, the float64
vector `x = (1e16, 1, -1e16)` and `mu = 0`, the exact value
`c · (x − mu) − d` is `1/2 ≥ 0`, but the float64 sum `1e16 + 1` rounds to
`1e16`, the computed value is `-0.5` and `GetHash` returns 0: bit 0 is
clear. -/
theorem C1_counterexample :
    fp.lsh.HasherInstance.GetHash binary64.ops binary64.cancellingInstance
      binary64.cancellingInput [0, 0, 0] = some 0 ∧
    fp.blasDot binary64.ops binary64.cancellingInput [binary64.lit 1 0, binary64.lit 1 0,
      binary64.lit 1 0] = some 0 ∧
    binary64.ops.sub 0 (binary64.lit 1 (-1)) = binary64.lit (-1) (-1) ∧
    dot ([binary64.lit 1 0, binary64.lit 1 0, binary64.lit 1 0].map binary64.toRat)
        (vsub (binary64.cancellingInput.map binary64.toRat) [0, 0, 0])
      - binary64.toRat (binary64.lit 1 (-1)) = 1 / 2 := by
  refine ⟨by decide!, by decide!, by decide!, ?_⟩
  simp only [binary64.cancellingInput, List.map_cons, List.map_nil,
    binary64.toRat_lit _ _ (by decide : (-1074 : Int) ≤ 0),
    binary64.toRat_lit _ _ (by decide : (-1074 : Int) ≤ -1)]
  norm_num [dot, vsub]

end VectorSearch

namespace VectorSearch

/-! ## Vector operations over float64: claims C19, C20 and C23 -/

theorem foldl_range_congr {σ : Type} (n : Nat) (f g : σ → Nat → σ) (init : σ)
    (h : ∀ i s, i < n → f s i = g s i) :
    (List.range n).foldl f init = (List.range n).foldl g init := by
  induction n with
  | zero => rfl
  | succ n ih =>
    simp only [List.range_succ, List.foldl_append, List.foldl_cons, List.foldl_nil]
    rw [ih (fun i s hi => h i s (Nat.lt_succ_of_lt hi)), h n _ (Nat.lt_succ_self n)]

theorem foldl_range_fixed {σ : Type} (n : Nat) (f : σ → Nat → σ) (init : σ)
    (h : ∀ i, i < n → f init i = init) : (List.range n).foldl f init = init := by
  induction n with
  | zero => rfl
  | succ n ih =>
    simp only [List.range_succ, List.foldl_append, List.foldl_cons, List.foldl_nil]
    rw [ih (fun i hi => h i (Nat.lt_succ_of_lt hi)), h n (Nat.lt_succ_self n)]

namespace fp

namespace algorithm

open VectorSearch.algorithm

theorem makeSlice_natCast {F : Type} (ops : FloatOps F) (n : Nat) :
    makeSlice ops (n : Int) = some (List.replicate n (ops.ofInt 0)) := by
  simp [makeSlice]

/-- The float64 sum that `DotProd` accumulates, in index order. -/
theorem Vector.DotProd_fold {F : Type} (ops : FloatOps F) (vec inpVec : Vector F)
    (hlen : vec.Values.length ≤ inpVec.Values.length) :
    Vector.DotProd ops vec inpVec
      = some ((List.range vec.Values.length).foldl (fun s i =>
          ops.add s (ops.mul (vec.Values[i]?.getD (ops.ofInt 0))
            (inpVec.Values[i]?.getD (ops.ofInt 0)))) (ops.ofInt 0)) := by
  unfold Vector.DotProd
  apply forRange_eq_foldl
  intro i s hi
  have hi2 : i < inpVec.Values.length := by omega
  simp [List.getElem?_eq_getElem, hi, hi2]

/-- The float64 sum of squared differences that `L2` accumulates. -/
theorem Vector.L2_fold {F : Type} (ops : FloatOps F) (vec inpVec : Vector F)
    (hlen : vec.Values.length ≤ inpVec.Values.length) :
    Vector.L2 ops vec inpVec
      = some (ops.sqrt ((List.range vec.Values.length).foldl (fun s i =>
          ops.add s (ops.mul
            (ops.sub (vec.Values[i]?.getD (ops.ofInt 0)) (inpVec.Values[i]?.getD (ops.ofInt 0)))
            (ops.sub (vec.Values[i]?.getD (ops.ofInt 0)) (inpVec.Values[i]?.getD (ops.ofInt 0)))))
          (ops.ofInt 0))) := by
  unfold Vector.L2
  rw [forRange_eq_foldl vec.Values.length _ (fun s i =>
          ops.add s (ops.mul
            (ops.sub (vec.Values[i]?.getD (ops.ofInt 0)) (inpVec.Values[i]?.getD (ops.ofInt 0)))
            (ops.sub (vec.Values[i]?.getD (ops.ofInt 0)) (inpVec.Values[i]?.getD (ops.ofInt 0)))))]
  · rfl
  · intro i s hi
    have hi2 : i < inpVec.Values.length := by omega
    simp [List.getElem?_eq_getElem, hi, hi2]

/-- The distance to a slice of zeros is `math.Sqrt` of the dot product with
itself, when `v - 0 = v` for the values of the vector. -/
theorem Vector.L2_zeros {F : Type} (ops : FloatOps F) (vec : Vector F) (n : Nat) (size : Int)
    (hlen : vec.Values.length ≤ n)
    (hsub0 : ∀ v ∈ vec.Values, ops.sub v (ops.ofInt 0) = v) :
    ∃ dp, Vector.DotProd ops vec vec = some dp ∧
      Vector.L2 ops vec { Values := List.replicate n (ops.ofInt 0), Size := size }
        = some (ops.sqrt dp) := by
  refine ⟨_, Vector.DotProd_fold ops vec vec (le_refl _), ?_⟩
  rw [Vector.L2_fold ops vec _ (by simpa using hlen)]
  congr 2
  apply foldl_range_congr
  intro i s hi
  have hi2 : i < n := by omega
  have hmem : vec.Values[i] ∈ vec.Values := List.getElem_mem _
  simp [List.getElem?_eq_getElem, hi, hi2, hsub0 _ hmem]

end algorithm

end fp

/-- C20 (amended): for all float64 vectors `x` and `y` of equal length, `L2`
returns and `L2(x, y) = L2(y, x)` and `L2(x, x) = 0`; for the zero vector of
the same length, `L2(x, 0)` is `math.Sqrt(DotProd(x, x))`, the float64 norm of
`x` (its square is `DotProd(x, x)` only up to the rounding of the square root
and of the product).  The hypotheses are the facts of float64 arithmetic used,
at the values of `x` and `y`: `(a - b)² = (b - a)²`, `a - a = 0`, `a - 0 = a`,
`0 * 0 = 0`, `0 + 0 = 0` and `Sqrt(0) = 0`. -/
theorem C20_l2_symmetric_zero_sqrt_dot {F : Type} (ops : FloatOps F) (x y : List F)
    (hlen : x.length = y.length)
    (hsym : ∀ a ∈ x, ∀ b ∈ y,
      ops.mul (ops.sub a b) (ops.sub a b) = ops.mul (ops.sub b a) (ops.sub b a))
    (hself : ∀ a ∈ x, ops.sub a a = ops.ofInt 0)
    (hsub0 : ∀ a ∈ x, ops.sub a (ops.ofInt 0) = a)
    (hmul0 : ops.mul (ops.ofInt 0) (ops.ofInt 0) = ops.ofInt 0)
    (hadd0 : ops.add (ops.ofInt 0) (ops.ofInt 0) = ops.ofInt 0)
    (hsqrt0 : ops.sqrt (ops.ofInt 0) = ops.ofInt 0) :
    (∃ d, fp.algorithm.Vector.L2 ops (algorithm.NewVector x) (algorithm.NewVector y) = some d ∧
      fp.algorithm.Vector.L2 ops (algorithm.NewVector y) (algorithm.NewVector x) = some d) ∧
    fp.algorithm.Vector.L2 ops (algorithm.NewVector x) (algorithm.NewVector x)
      = some (ops.ofInt 0) ∧
    ∃ dp, fp.algorithm.Vector.DotProd ops (algorithm.NewVector x) (algorithm.NewVector x)
        = some dp ∧
      fp.algorithm.Vector.L2 ops (algorithm.NewVector x)
        (algorithm.NewVector (List.replicate x.length (ops.ofInt 0))) = some (ops.sqrt dp) := by
  refine ⟨⟨_, fp.algorithm.Vector.L2_fold ops _ _ (le_of_eq hlen), ?_⟩, ?_, ?_⟩
  · rw [fp.algorithm.Vector.L2_fold ops _ _ (le_of_eq hlen.symm)]
    simp only [algorithm.NewVector]
    rw [← hlen]
    congr 2
    apply foldl_range_congr
    intro i s hi
    have hi2 : i < y.length := by omega
    simp only [List.getElem?_eq_getElem, hi, hi2, Option.getD_some]
    rw [hsym _ (List.getElem_mem _) _ (List.getElem_mem _)]
  · rw [fp.algorithm.Vector.L2_fold ops _ _ (le_refl _)]
    simp only [algorithm.NewVector]
    rw [foldl_range_fixed, hsqrt0]
    intro i hi
    simp only [List.getElem?_eq_getElem, hi, Option.getD_some]
    rw [hself _ (List.getElem_mem _), hmul0, hadd0]
  · exact fp.algorithm.Vector.L2_zeros ops (algorithm.NewVector x) x.length _ (le_refl _)
      hsub0

end VectorSearch

namespace VectorSearch

theorem C20_l2_symmetric_zero_sqrt_dot_witness :
    (∃ d, fp.algorithm.Vector.L2 binary64.ops
          (algorithm.NewVector [binary64.lit 1 0, binary64.lit 1 0])
          (algorithm.NewVector [binary64.lit 3 0, binary64.lit 1 (-1)]) = some d ∧
      fp.algorithm.Vector.L2 binary64.ops
          (algorithm.NewVector [binary64.lit 3 0, binary64.lit 1 (-1)])
          (algorithm.NewVector [binary64.lit 1 0, binary64.lit 1 0]) = some d) ∧
    fp.algorithm.Vector.L2 binary64.ops (algorithm.NewVector [binary64.lit 1 0, binary64.lit 1 0])
        (algorithm.NewVector [binary64.lit 1 0, binary64.lit 1 0])
      = some (binary64.ops.ofInt 0) ∧
    ∃ dp, fp.algorithm.Vector.DotProd binary64.ops
          (algorithm.NewVector [binary64.lit 1 0, binary64.lit 1 0])
          (algorithm.NewVector [binary64.lit 1 0, binary64.lit 1 0]) = some dp ∧
      fp.algorithm.Vector.L2 binary64.ops (algorithm.NewVector [binary64.lit 1 0, binary64.lit 1 0])
        (algorithm.NewVector
          (List.replicate [binary64.lit 1 0, binary64.lit 1 0].length (binary64.ops.ofInt 0)))
        = some (binary64.ops.sqrt dp) :=
  C20_l2_symmetric_zero_sqrt_dot binary64.ops [binary64.lit 1 0, binary64.lit 1 0]
    [binary64.lit 3 0, binary64.lit 1 (-1)] (by simp) (by decide!) (by decide!) (by decide!)
    (by decide!) (by decide!) (by decide!)

/-- C20 as stated fails in its last part: for the float64 vector `x = (1, 1)`,
`DotProd(x, x) = 2` and `L2(x, 0) = math.Sqrt(2) = 1.4142135623730951`, whose
float64 square is `2.0000000000000004` and whose exact square is not 2
either. -/
theorem C20_counterexample :
    fp.algorithm.Vector.DotProd binary64.ops
        (algorithm.NewVector [binary64.lit 1 0, binary64.lit 1 0])
        (algorithm.NewVector [binary64.lit 1 0, binary64.lit 1 0]) = some (binary64.lit 2 0) ∧
    fp.algorithm.Vector.L2 binary64.ops (algorithm.NewVector [binary64.lit 1 0, binary64.lit 1 0])
        (algorithm.NewVector [0, 0]) = some (binary64.lit 6369051672525773 (-52)) ∧
    binary64.ops.mul (binary64.lit 6369051672525773 (-52)) (binary64.lit 6369051672525773 (-52))
      = binary64.lit 4503599627370497 (-51) ∧
    binary64.lit 4503599627370497 (-51) ≠ binary64.lit 2 0 ∧
    binary64.toRat (binary64.lit 6369051672525773 (-52))
      * binary64.toRat (binary64.lit 6369051672525773 (-52)) ≠ 2 := by
  refine ⟨by decide!, by decide!, by decide!, by decide!, ?_⟩
  rw [binary64.toRat_lit _ _ (by decide : (-1074 : Int) ≤ -52)]
  norm_num

end VectorSearch

namespace VectorSearch

/-- C19 (amended): for all float64 vectors `a` and `b` of equal length,
`Vector.CosineSim(a, b)` returns the float64 quotient
`DotProd(a, b) / (Sqrt(DotProd(a, a)) * Sqrt(DotProd(b, b)))`: the cosine
similarity itself, with no subtraction from 1 (1 and not 0 for `a = b = (1)`,
0 and not 1 for `(1, 0)` and `(0, 1)`), each operation rounded.  The
hypotheses are the fact `v - 0 = v` of float64 arithmetic at the values of
`a` and `b`. -/
theorem C19_cosineSim_is_cosine_quotient {F : Type} (ops : FloatOps F) (a b : List F)
    (hlen : a.length = b.length)
    (ha0 : ∀ v ∈ a, ops.sub v (ops.ofInt 0) = v)
    (hb0 : ∀ v ∈ b, ops.sub v (ops.ofInt 0) = v) :
    ∃ dp daa dbb,
      fp.algorithm.Vector.DotProd ops (algorithm.NewVector a) (algorithm.NewVector b) = some dp ∧
      fp.algorithm.Vector.DotProd ops (algorithm.NewVector a) (algorithm.NewVector a)
        = some daa ∧
      fp.algorithm.Vector.DotProd ops (algorithm.NewVector b) (algorithm.NewVector b)
        = some dbb ∧
      fp.algorithm.Vector.CosineSim ops (algorithm.NewVector a) (algorithm.NewVector b)
        = some (ops.div dp (ops.mul (ops.sqrt daa) (ops.sqrt dbb))) := by
  obtain ⟨daa, hdaa, hna⟩ := fp.algorithm.Vector.L2_zeros ops (algorithm.NewVector a) a.length 0
    (le_refl _) ha0
  obtain ⟨dbb, hdbb, hnb⟩ := fp.algorithm.Vector.L2_zeros ops (algorithm.NewVector b) a.length 0
    (by simp [algorithm.NewVector, hlen]) hb0
  have hdp := fp.algorithm.Vector.DotProd_fold ops (algorithm.NewVector a) (algorithm.NewVector b)
    (le_of_eq hlen)
  refine ⟨_, daa, dbb, hdp, hdaa, hdbb, ?_⟩
  unfold fp.algorithm.Vector.CosineSim
  have hsize : (algorithm.NewVector a).Size = (a.length : Int) := rfl
  rw [hsize, fp.algorithm.makeSlice_natCast]
  simp only [Option.some_bind]
  rw [hdp, hna, hnb]
  rfl

theorem C19_cosineSim_is_cosine_quotient_witness :
    ∃ dp daa dbb,
      fp.algorithm.Vector.DotProd binary64.ops
          (algorithm.NewVector [binary64.lit 1 0, binary64.lit 5 0])
          (algorithm.NewVector [binary64.lit 1 0, binary64.lit 5 0]) = some dp ∧
      fp.algorithm.Vector.DotProd binary64.ops
          (algorithm.NewVector [binary64.lit 1 0, binary64.lit 5 0])
          (algorithm.NewVector [binary64.lit 1 0, binary64.lit 5 0]) = some daa ∧
      fp.algorithm.Vector.DotProd binary64.ops
          (algorithm.NewVector [binary64.lit 1 0, binary64.lit 5 0])
          (algorithm.NewVector [binary64.lit 1 0, binary64.lit 5 0]) = some dbb ∧
      fp.algorithm.Vector.CosineSim binary64.ops
          (algorithm.NewVector [binary64.lit 1 0, binary64.lit 5 0])
          (algorithm.NewVector [binary64.lit 1 0, binary64.lit 5 0])
        = some (binary64.ops.div dp
            (binary64.ops.mul (binary64.ops.sqrt daa) (binary64.ops.sqrt dbb))) :=
  C19_cosineSim_is_cosine_quotient binary64.ops [binary64.lit 1 0, binary64.lit 5 0]
    [binary64.lit 1 0, binary64.lit 5 0] (by simp) (by decide!) (by decide!)

/-- The float64 cosine of a vector with itself need not be 1:
`CosineSim((1, 5), (1, 5)) = 1.0000000000000002` and
`CosineSim((1, 1), (1, 1)) = 0.9999999999999998`. -/
theorem cosineSim_rounding_example :
    fp.algorithm.Vector.CosineSim binary64.ops
        (algorithm.NewVector [binary64.lit 1 0, binary64.lit 5 0])
        (algorithm.NewVector [binary64.lit 1 0, binary64.lit 5 0])
      = some (binary64.lit 4503599627370497 (-52)) ∧
    fp.algorithm.Vector.CosineSim binary64.ops
        (algorithm.NewVector [binary64.lit 1 0, binary64.lit 1 0])
        (algorithm.NewVector [binary64.lit 1 0, binary64.lit 1 0])
      = some (binary64.lit 9007199254740990 (-53)) := by
  refine ⟨by decide!, by decide!⟩

/-- C23 (amended): for every float64 plane coefficient vector `(c, d)`,
`GetPointPlaneDist` returns the vector of the float64 quotients
`(c_i * d) / DotProd(c, c)`, of the length of `c`: the rounded form of the
point `c * d / ‖c‖²`, which need not lie on the plane exactly. -/
theorem C23_inner_point_rounded_quotients {F : Type} (ops : FloatOps F) (cf : List F) (d : F) :
    ∃ denom,
      fp.algorithm.Vector.DotProd ops (algorithm.NewVector cf) (algorithm.NewVector cf)
        = some denom ∧
      fp.algorithm.GetPointPlaneDist ops (algorithm.NewVector (cf ++ [d]))
        = some { Values := cf.map (fun ci => ops.div (ops.mul ci d) denom),
                 Size := cf.length } := by
  refine ⟨_, fp.algorithm.Vector.DotProd_fold ops _ _ (le_refl _), ?_⟩
  unfold fp.algorithm.GetPointPlaneDist
  have hsz : (algorithm.NewVector (cf ++ [d])).Size - 1 = (cf.length : Int) := by
    simp [algorithm.NewVector]
  rw [hsz, fp.algorithm.makeSlice_natCast]
  have hidx : idxInt (algorithm.NewVector (cf ++ [d])).Values (cf.length : Int) = some d := by
    simp [idxInt, algorithm.NewVector]
  simp only [Option.some_bind, hidx, List.length_replicate]
  have hget : ∀ i, i < cf.length →
      (algorithm.NewVector (cf ++ [d])).Values[i]? = some (cf[i]?.getD (ops.ofInt 0)) := by
    intro i hi
    simp [algorithm.NewVector, List.getElem?_append_left hi, List.getElem?_eq_getElem hi]
  rw [forRange_eq_foldl cf.length _ (fun s i =>
      ops.add s (ops.mul (cf[i]?.getD (ops.ofInt 0)) (cf[i]?.getD (ops.ofInt 0))))]
  · simp only [Option.some_bind]
    rw [forRange_store cf.length _ (fun i => ops.div (ops.mul (cf[i]?.getD (ops.ofInt 0)) d)
        ((List.range cf.length).foldl (fun s i =>
          ops.add s (ops.mul (cf[i]?.getD (ops.ofInt 0)) (cf[i]?.getD (ops.ofInt 0))))
          (ops.ofInt 0))) _ (by simp)]
    · simp only [Option.some_bind, List.drop_replicate, Nat.sub_self, List.replicate_zero,
        List.append_nil, List.length_map, List.length_range, algorithm.NewVector]
      rw [range_map_getD (fun ci => ops.div (ops.mul ci d)
        ((List.range cf.length).foldl (fun s i =>
          ops.add s (ops.mul (cf[i]?.getD (ops.ofInt 0)) (cf[i]?.getD (ops.ofInt 0))))
          (ops.ofInt 0))) cf (ops.ofInt 0)]
    · intro i s hi
      rw [hget i hi]
      rfl
  · intro i s hi
    rw [hget i hi]
    rfl

/-- C23 as stated fails: for `c = (3, 4)` and `d = 10`, `GetPointPlaneDist`
returns the float64 values `1.2` and `1.6`, which are not `6/5` and `8/5`, and
the returned point is not on the plane: `c · p ≠ 10` exactly. -/
theorem C23_counterexample :
    (fp.algorithm.GetPointPlaneDist binary64.ops
        (algorithm.NewVector [binary64.lit 3 0, binary64.lit 4 0, binary64.lit 10 0])).map
        (fun p => (p.Values, p.Size))
      = some ([binary64.lit 5404319552844595 (-52), binary64.lit 7205759403792794 (-52)], 2) ∧
    binary64.toRat (binary64.lit 5404319552844595 (-52)) ≠ 3 * 10 / (3 * 3 + 4 * 4) ∧
    binary64.toRat (binary64.lit 7205759403792794 (-52)) ≠ 4 * 10 / (3 * 3 + 4 * 4) ∧
    3 * binary64.toRat (binary64.lit 5404319552844595 (-52))
      + 4 * binary64.toRat (binary64.lit 7205759403792794 (-52)) ≠ 10 := by
  refine ⟨by decide!, ?_, ?_, ?_⟩
  · rw [binary64.toRat_lit _ _ (by decide : (-1074 : Int) ≤ -52)]
    norm_num
  · rw [binary64.toRat_lit _ _ (by decide : (-1074 : Int) ≤ -52)]
    norm_num
  · rw [binary64.toRat_lit _ _ (by decide : (-1074 : Int) ≤ -52),
      binary64.toRat_lit _ _ (by decide : (-1074 : Int) ≤ -52)]
    norm_num

end VectorSearch

namespace VectorSearch

/-! ## Random planes over float64: claim C7 -/

namespace fp

/-- The coefficient that `getRandomPlane` computes from the draw `r`:
`-1.0 + r * 2`. -/
theorem coefLoop_rounded {F : Type} (ops : FloatOps F) (rnd : Rand F) (D n : Nat) (hn : n ≤ D) :
    forRange n (fun i (st : List F × F × Rand F) =>
        let draw := Float64 st.2.2
        (setIdx st.1 i (ops.add (ops.ofInt (-1)) (ops.mul draw.1 (ops.ofInt 2)))).bind
          fun coefs =>
        coefs[i]?.bind fun ci =>
        some (coefs, ops.add st.2.1 (ops.mul ci ci), draw.2))
        (List.replicate (D + 1) (ops.ofInt 0), ops.ofInt 0, rnd)
      = some ((List.range n).map (fun i => ops.add (ops.ofInt (-1)) (ops.mul (rnd i) (ops.ofInt 2)))
            ++ List.replicate (D + 1 - n) (ops.ofInt 0),
          (List.range n).foldl (fun s i => ops.add s
            (ops.mul (ops.add (ops.ofInt (-1)) (ops.mul (rnd i) (ops.ofInt 2)))
              (ops.add (ops.ofInt (-1)) (ops.mul (rnd i) (ops.ofInt 2))))) (ops.ofInt 0),
          fun k => rnd (k + n)) := by
  induction n with
  | zero => simp [forRange_zero]
  | succ n ih =>
    rw [forRange_succ, ih (by omega)]
    have hlen : n < ((List.range n).map
          (fun i => ops.add (ops.ofInt (-1)) (ops.mul (rnd i) (ops.ofInt 2)))
        ++ List.replicate (D + 1 - n) (ops.ofInt 0)).length := by
      simp; omega
    have hrep : List.replicate (D + 1 - n) (ops.ofInt 0)
        = ops.ofInt 0 :: List.replicate (D + 1 - (n + 1)) (ops.ofInt 0) := by
      rw [show D + 1 - n = (D + 1 - (n + 1)) + 1 by omega, List.replicate_succ]
    have hset : (List.map (fun i => ops.add (ops.ofInt (-1)) (ops.mul (rnd i) (ops.ofInt 2)))
            (List.range n)
          ++ List.replicate (D + 1 - n) (ops.ofInt 0)).set n
            (ops.add (ops.ofInt (-1)) (ops.mul (rnd n) (ops.ofInt 2)))
        = List.map (fun i => ops.add (ops.ofInt (-1)) (ops.mul (rnd i) (ops.ofInt 2)))
            (List.range (n + 1))
          ++ List.replicate (D + 1 - (n + 1)) (ops.ofInt 0) := by
      rw [List.set_append_right _ _ (by simp), hrep]
      simp [List.range_succ]
    have hget : (List.map (fun i => ops.add (ops.ofInt (-1)) (ops.mul (rnd i) (ops.ofInt 2)))
            (List.range (n + 1))
          ++ List.replicate (D + 1 - (n + 1)) (ops.ofInt 0))[n]?
        = some (ops.add (ops.ofInt (-1)) (ops.mul (rnd n) (ops.ofInt 2))) := by
      rw [List.getElem?_append_left (by simp)]
      simp [List.range_succ]
    simp only [Option.some_bind, Float64, setIdx, if_pos hlen, zero_add, hset, hget]
    congr 1
    refine Prod.ext rfl (Prod.ext ?_ ?_)
    · simp [List.range_succ, List.foldl_append]
    · funext k
      simp only
      congr 1
      omega

/-- The plane that both `getRandomPlane` functions compute from the draws:
the coefficients, the float64 sum of their squares and the offset. -/
theorem randomPlane_values {F : Type} (ops : FloatOps F) (bias : F) (rnd : Rand F) (D : Nat) :
    ∃ c sumsq,
      c = (List.range D).map
        (fun i => ops.add (ops.ofInt (-1)) (ops.mul (rnd i) (ops.ofInt 2))) ∧
      algorithm.Vector.DotProd ops (VectorSearch.algorithm.NewVector c)
        (VectorSearch.algorithm.NewVector c) = some sumsq ∧
      (∀ (lshIndex : VectorSearch.lsh.Hasher F), lshIndex.Config.Dims = D →
        lshIndex.Config.Bias = bias →
        lsh.Hasher.getRandomPlane ops lshIndex rnd
          = some (c ++ [ops.add (ops.mul (ops.ofInt (-1)) (ops.mul (ops.sqrt sumsq) bias))
              (ops.mul (ops.mul (rnd D) (ops.mul (ops.sqrt sumsq) bias)) (ops.ofInt 2))],
            fun k => rnd (k + (D + 1)))) ∧
      (∀ (index : VectorSearch.algorithm.LSHIndex F), index.dims = D → index.bias = bias →
        algorithm.LSHIndex.getRandomPlane ops index rnd
          = some ({ Values := c ++ [ops.add (ops.mul (ops.ofInt (-1))
                (ops.mul (ops.sqrt sumsq) bias))
              (ops.mul (ops.mul (rnd D) (ops.mul (ops.sqrt sumsq) bias)) (ops.ofInt 2))],
                    Size := (D : Int) + 1 },
            fun k => rnd (k + (D + 1)))) := by
  have hfold : algorithm.Vector.DotProd ops
      (VectorSearch.algorithm.NewVector ((List.range D).map
        (fun i => ops.add (ops.ofInt (-1)) (ops.mul (rnd i) (ops.ofInt 2)))))
      (VectorSearch.algorithm.NewVector ((List.range D).map
        (fun i => ops.add (ops.ofInt (-1)) (ops.mul (rnd i) (ops.ofInt 2)))))
      = some ((List.range D).foldl (fun s i => ops.add s
            (ops.mul (ops.add (ops.ofInt (-1)) (ops.mul (rnd i) (ops.ofInt 2)))
              (ops.add (ops.ofInt (-1)) (ops.mul (rnd i) (ops.ofInt 2))))) (ops.ofInt 0)) := by
    rw [algorithm.Vector.DotProd_fold ops _ _ (le_refl _)]
    simp only [VectorSearch.algorithm.NewVector, List.length_map, List.length_range]
    congr 1
    apply foldl_range_congr
    intro i s hi
    simp [List.getElem?_eq_getElem, hi]
  refine ⟨_, _, rfl, hfold, ?_, ?_⟩
  · intro lshIndex hD hb
    unfold lsh.Hasher.getRandomPlane
    rw [hD, hb, show ((D : Int) + 1) = ((D + 1 : Nat) : Int) by push_cast; rfl,
      algorithm.makeSlice_natCast]
    simp only [Option.some_bind, Int.toNat_ofNat]
    rw [coefLoop_rounded ops rnd D D (le_refl D)]
    simp only [Option.some_bind, Float64]
    have hlen : ((List.map (fun i => ops.add (ops.ofInt (-1)) (ops.mul (rnd i) (ops.ofInt 2)))
          (List.range D)
        ++ List.replicate (D + 1 - D) (ops.ofInt 0)).length : Int) - 1 = (D : Int) := by
      simp
    rw [hlen]
    simp only [setIdxInt, setIdx, Int.toNat_ofNat, Int.natCast_nonneg, if_true]
    rw [if_pos (by simp)]
    simp only [Option.some_bind]
    rw [List.set_append_right _ _ (by simp)]
    simp only [List.length_map, List.length_range, Nat.sub_self, Nat.add_sub_cancel_left,
      List.replicate_one, List.set_cons_zero, zero_add]
    congr 1
    refine Prod.ext rfl ?_
    funext k
    simp only
    congr 1
    omega
  · intro index hD hb
    unfold algorithm.LSHIndex.getRandomPlane
    rw [hD, hb, show ((D : Int) + 1) = ((D + 1 : Nat) : Int) by push_cast; rfl,
      algorithm.makeSlice_natCast]
    simp only [Option.some_bind, Int.toNat_ofNat]
    rw [coefLoop_rounded ops rnd D D (le_refl D)]
    simp only [Option.some_bind, Float64]
    have hsz : ((D + 1 : Nat) : Int) - 1 = (D : Int) := by
      push_cast; ring
    rw [hsz]
    simp only [setIdxInt, setIdx, Int.toNat_ofNat, Int.natCast_nonneg, if_true]
    rw [if_pos (by simp)]
    simp only [Option.some_bind]
    rw [List.set_append_right _ _ (by simp)]
    simp only [List.length_map, List.length_range, Nat.sub_self, Nat.add_sub_cancel_left,
      List.replicate_one, List.set_cons_zero, zero_add]
    congr 1
    refine Prod.ext ?_ ?_
    · simp
    · funext k
      simp only
      congr 1
      omega

end fp

end VectorSearch

namespace VectorSearch

/-- C7 (amended): in float64 arithmetic (each operation rounded to nearest by
`fl`), for `Bias ≥ 0` and float64 draws in `[0, 1)`, both `getRandomPlane`
functions return the same plane; each coefficient lies in `[-1, 1]`, and the
offset `d` satisfies `|d| ≤ fl (l2 * Bias)`, the float64 product that the code
computes from `l2 = Sqrt(DotProd(c, c))`.  This product can exceed the exact
`‖c‖ * Bias` by the rounding, and `|d| / ‖c‖` can exceed `Bias` by as much.
The hypotheses on `fl` are facts of rounding to nearest: it is monotone, keeps
`-1`, `0`, `1`, `2` and every rounded value, and negating or doubling a
float64 is exact. -/
theorem C7_random_plane_computed_bound {F : Type} [LinearOrderedField F] (fl sqrt : F → F)
    (lshIndex : lsh.Hasher F) (index : algorithm.LSHIndex F) (rnd : Rand F) (D : Nat) (bias : F)
    (hmono : ∀ x y, x ≤ y → fl x ≤ fl y)
    (h0 : fl 0 = 0) (h1 : fl 1 = 1) (hneg1 : fl (-1) = -1) (h2 : fl 2 = 2)
    (hidem : ∀ x, fl (fl x) = fl x)
    (hneg : ∀ x, fl (-1 * fl x) = -fl x)
    (hdouble : ∀ x, fl (fl x * 2) = fl x * 2)
    (hsqrt : ∀ x, 0 ≤ sqrt x)
    (hD1 : lshIndex.Config.Dims = D) (hD2 : index.dims = D)
    (hB1 : lshIndex.Config.Bias = bias) (hB2 : index.bias = bias) (hbias : 0 ≤ bias)
    (hrnd : ∀ k, 0 ≤ rnd k ∧ rnd k < 1 ∧ fl (rnd k) = rnd k) :
    ∃ c d sumsq rnd1,
      fp.algorithm.Vector.DotProd (roundedOps fl sqrt) (algorithm.NewVector c)
        (algorithm.NewVector c) = some sumsq ∧
      fp.lsh.Hasher.getRandomPlane (roundedOps fl sqrt) lshIndex rnd = some (c ++ [d], rnd1) ∧
      fp.algorithm.LSHIndex.getRandomPlane (roundedOps fl sqrt) index rnd
        = some ({ Values := c ++ [d], Size := (D : Int) + 1 }, rnd1) ∧
      c.length = D ∧ (∀ ci ∈ c, -1 ≤ ci ∧ ci ≤ 1) ∧
      |d| ≤ fl (sqrt sumsq * bias) := by
  obtain ⟨c, sumsq, hc, hdot, hlsh, halg⟩ :=
    fp.randomPlane_values (roundedOps fl sqrt) bias rnd D
  refine ⟨c, _, sumsq, _, hdot, hlsh lshIndex hD1 hB1, halg index hD2 hB2, ?_, ?_, ?_⟩
  · rw [hc]
    simp
  · intro ci hci
    rw [hc] at hci
    obtain ⟨i, _, hi⟩ := List.mem_map.1 hci
    obtain ⟨hr0, hr1, hrfl⟩ := hrnd i
    have hmul : fl (rnd i * 2) = rnd i * 2 := by
      have := hdouble (rnd i)
      rwa [hrfl] at this
    have hval : ci = fl (-1 + rnd i * 2) := by
      rw [← hi]
      simp [roundedOps, hneg1, h2, hmul]
    rw [hval]
    constructor
    · have := hmono (-1) (-1 + rnd i * 2) (by linarith)
      rwa [hneg1] at this
    · have := hmono (-1 + rnd i * 2) 1 (by linarith)
      rwa [h1] at this
  · obtain ⟨hr0, hr1, hrfl⟩ := hrnd D
    have hb0 : 0 ≤ fl (sqrt sumsq * bias) := by
      have := hmono 0 (sqrt sumsq * bias) (mul_nonneg (hsqrt _) hbias)
      rwa [h0] at this
    have hy0 : 0 ≤ fl (rnd D * fl (sqrt sumsq * bias)) := by
      have := hmono 0 (rnd D * fl (sqrt sumsq * bias)) (mul_nonneg hr0 hb0)
      rwa [h0] at this
    have hyb : fl (rnd D * fl (sqrt sumsq * bias)) ≤ fl (sqrt sumsq * bias) := by
      have := hmono (rnd D * fl (sqrt sumsq * bias)) (fl (sqrt sumsq * bias))
        (by nlinarith)
      rwa [hidem] at this
    have hnegb : fl (-fl (sqrt sumsq * bias)) = -fl (sqrt sumsq * bias) := by
      have := hneg (sqrt sumsq * bias)
      rwa [neg_one_mul] at this
    have hval : (roundedOps fl sqrt).add
          ((roundedOps fl sqrt).mul ((roundedOps fl sqrt).ofInt (-1))
            ((roundedOps fl sqrt).mul ((roundedOps fl sqrt).sqrt sumsq) bias))
          ((roundedOps fl sqrt).mul
            ((roundedOps fl sqrt).mul (rnd D)
              ((roundedOps fl sqrt).mul ((roundedOps fl sqrt).sqrt sumsq) bias))
            ((roundedOps fl sqrt).ofInt 2))
        = fl (-fl (sqrt sumsq * bias) + fl (rnd D * fl (sqrt sumsq * bias)) * 2) := by
      simp [roundedOps, hneg1, h2, hdouble, hneg, hnegb]
    rw [hval, abs_le]
    constructor
    · have := hmono (-fl (sqrt sumsq * bias))
        (-fl (sqrt sumsq * bias) + fl (rnd D * fl (sqrt sumsq * bias)) * 2) (by linarith)
      rwa [hnegb] at this
    · have := hmono (-fl (sqrt sumsq * bias) + fl (rnd D * fl (sqrt sumsq * bias)) * 2)
        (fl (sqrt sumsq * bias)) (by linarith)
      rwa [hidem] at this

end VectorSearch

namespace VectorSearch

theorem roundDownQuarter_fixed (n : Int) : roundDownQuarter ((n : ℚ) / 4) = (n : ℚ) / 4 := by
  unfold roundDownQuarter
  rw [div_mul_cancel₀ _ (by norm_num : (4 : ℚ) ≠ 0), Int.floor_intCast]

theorem roundDownQuarter_mono (x y : ℚ) (h : x ≤ y) : roundDownQuarter x ≤ roundDownQuarter y := by
  unfold roundDownQuarter
  have h4 : x * 4 ≤ y * 4 := by linarith
  have := Int.floor_le_floor h4
  have hc : ((⌊x * 4⌋ : Int) : ℚ) ≤ ((⌊y * 4⌋ : Int) : ℚ) := by exact_mod_cast this
  linarith

theorem roundDownQuarter_eq (x : ℚ) (n : Int) (h1 : (n : ℚ) ≤ x * 4) (h2 : x * 4 < (n : ℚ) + 1) :
    roundDownQuarter x = (n : ℚ) / 4 := by
  unfold roundDownQuarter
  have : ⌊x * 4⌋ = n := by rw [Int.floor_eq_iff]; exact ⟨h1, h2⟩
  rw [this]

theorem C7_random_plane_computed_bound_witness :
    ∃ c d sumsq rnd1,
      fp.algorithm.Vector.DotProd (roundedOps roundDownQuarter Rat.sqrt) (algorithm.NewVector c)
        (algorithm.NewVector c) = some sumsq ∧
      fp.lsh.Hasher.getRandomPlane (roundedOps roundDownQuarter Rat.sqrt) lsh.exampleHasher
        (fun _ => 1 / 2) = some (c ++ [d], rnd1) ∧
      fp.algorithm.LSHIndex.getRandomPlane (roundedOps roundDownQuarter Rat.sqrt)
        algorithm.exampleIndex (fun _ => 1 / 2)
        = some ({ Values := c ++ [d], Size := ((1 : Nat) : Int) + 1 }, rnd1) ∧
      c.length = 1 ∧ (∀ ci ∈ c, -1 ≤ ci ∧ ci ≤ 1) ∧
      |d| ≤ roundDownQuarter (Rat.sqrt sumsq * 1) :=
  C7_random_plane_computed_bound roundDownQuarter Rat.sqrt lsh.exampleHasher
    algorithm.exampleIndex (fun _ => 1 / 2) 1 1 roundDownQuarter_mono
    (by simpa using roundDownQuarter_fixed 0)
    (by simpa using roundDownQuarter_fixed 4)
    (by have := roundDownQuarter_fixed (-4); norm_num at this; exact this)
    (by have := roundDownQuarter_fixed 8; norm_num at this; exact this)
    (fun x => roundDownQuarter_fixed _)
    (fun x => by
      have := roundDownQuarter_fixed (-⌊x * 4⌋)
      simp only [Int.cast_neg, neg_div] at this
      rw [neg_one_mul]
      exact this)
    (fun x => by
      have := roundDownQuarter_fixed (⌊x * 4⌋ * 2)
      simp only [Int.cast_mul, Int.cast_ofNat] at this
      rw [show roundDownQuarter x * 2 = ((⌊x * 4⌋ : Int) : ℚ) * 2 / 4 by
        unfold roundDownQuarter; ring]
      exact this)
    Rat.sqrt_nonneg rfl rfl rfl rfl (by norm_num)
    (fun _ => ⟨by norm_num, by norm_num, by
      have := roundDownQuarter_fixed 2
      norm_num at this
      exact this⟩)

set_option maxRecDepth 100000 in
/-- C7 as stated fails: with `Dims = 9`, `Bias = 0.1` and every draw 0, all
coefficients are `-1`, `‖c‖ = 3` exactly, and the offset is
`d = -0.30000000000000004`: the float64 product `3 * 0.1` is rounded up, so
`|d| > ‖c‖ * Bias`. -/
theorem C7_counterexample :
    (fp.lsh.Hasher.getRandomPlane binary64.ops binary64.tenthBiasHasher (fun _ => 0)).map
        (fun r => r.1)
      = some (List.replicate 9 (binary64.lit (-1) 0) ++ [binary64.lit (-5404319552844596) (-54)]) ∧
    binary64.ops.sqrt (binary64.lit 9 0) = binary64.lit 3 0 ∧
    |binary64.toRat (binary64.lit (-5404319552844596) (-54))|
      > 3 * binary64.toRat binary64.tenthBiasHasher.Config.Bias := by
  refine ⟨by decide!, by decide!, ?_⟩
  simp only [binary64.tenthBiasHasher,
    binary64.toRat_lit _ _ (by decide : (-1074 : Int) ≤ -54),
    binary64.toRat_lit _ _ (by decide : (-1074 : Int) ≤ -55)]
  norm_num [abs_of_neg]

end VectorSearch

namespace VectorSearch

/-! ## float64 against exact arithmetic: claims C3, C12 and C13 -/

namespace fp

theorem blasAxpy_exact {F : Type} [LinearOrderedField F] (sqrt : F → F) (alpha : F)
    (x y : List F) : blasAxpy (exactOps sqrt) alpha x y = VectorSearch.blasAxpy alpha x y := by
  simp [blasAxpy, VectorSearch.blasAxpy, exactOps]

theorem foldl_add_eq_sum {F : Type} [LinearOrderedField F] (l : List F) (init : F) :
    l.foldl (fun a b => a + b) init = init + l.sum := by
  induction l generalizing init with
  | nil => simp
  | cons a l ih => simp [ih, add_assoc]

theorem blasDot_exact {F : Type} [LinearOrderedField F] (sqrt : F → F) (x y : List F) :
    blasDot (exactOps sqrt) x y = VectorSearch.blasDot x y := by
  simp only [blasDot, VectorSearch.blasDot, exactOps]
  split
  · rw [foldl_add_eq_sum]
    simp only [Int.cast_zero, zero_add]
    have hfun : (fun xi yi : F => yi * xi) = fun xi yi => xi * yi := by
      funext a b
      ring
    rw [hfun]
  · rfl

theorem lsh.getHashLoop_exact {F : Type} [LinearOrderedField F] (sqrt : F → F)
    (shiftedVec : List F) (planes : List (VectorSearch.lsh.Plane F)) (i : Nat) (vec : List F)
    (hash : Nat) :
    lsh.getHashLoop (exactOps sqrt) shiftedVec planes i vec hash
      = VectorSearch.lsh.getHashLoop shiftedVec planes i vec hash := by
  induction planes generalizing i vec hash with
  | nil => rfl
  | cons plane rest ih =>
    simp only [lsh.getHashLoop, VectorSearch.lsh.getHashLoop, blasDot_exact, ih]
    rfl

/-- With exact operations the float64 embedding of `HasherInstance.GetHash`
is the exact one. -/
theorem lsh.HasherInstance.GetHash_exact {F : Type} [LinearOrderedField F] (sqrt : F → F)
    (lshInstance : VectorSearch.lsh.HasherInstance F) (inpVec meanVec : List F) :
    lsh.HasherInstance.GetHash (exactOps sqrt) lshInstance inpVec meanVec
      = lshInstance.GetHash inpVec meanVec := by
  simp only [lsh.HasherInstance.GetHash, VectorSearch.lsh.HasherInstance.GetHash, blasAxpy_exact,
    lsh.getHashLoop_exact]
  simp [exactOps]

end fp

/-- C13 (amended): for an instance and vectors `x`, `mu`, `delta` of the
planes' dimension, replacing the mean `mu` by `mu + delta` and simultaneously
replacing every plane offset `d_i` by `d_i − c_i · delta` leaves
`HasherInstance.GetHash(x, ·)` unchanged on every input on which float64
rounding changes neither of the two codes, that is, on which each float64
code is the code of exact arithmetic; with rounding the two codes can
differ. -/
theorem C13_mean_shift_keeps_hash_unless_rounded {F : Type} [LinearOrderedField F]
    (ops : FloatOps F) (lshInstance : lsh.HasherInstance F) (x mu delta : List F)
    (hmu : mu.length = x.length) (hdelta : delta.length = x.length)
    (hdim : ∀ p ∈ lshInstance.Planes, p.Coefs.length = x.length)
    (hbefore : fp.lsh.HasherInstance.GetHash ops lshInstance x mu = lshInstance.GetHash x mu)
    (hafter : fp.lsh.HasherInstance.GetHash ops
          { Planes := lshInstance.Planes.map fun p =>
              { Coefs := p.Coefs, D := p.D - dot p.Coefs delta } }
          x (List.zipWith (fun m e => m + e) mu delta)
        = lsh.HasherInstance.GetHash
          { Planes := lshInstance.Planes.map fun p =>
              { Coefs := p.Coefs, D := p.D - dot p.Coefs delta } }
          x (List.zipWith (fun m e => m + e) mu delta)) :
    ∃ h, fp.lsh.HasherInstance.GetHash ops
          { Planes := lshInstance.Planes.map fun p =>
              { Coefs := p.Coefs, D := p.D - dot p.Coefs delta } }
          x (List.zipWith (fun m e => m + e) mu delta) = some h ∧
      fp.lsh.HasherInstance.GetHash ops lshInstance x mu = some h := by
  rw [hbefore, hafter]
  exact mean_shift_keeps_hash_exact lshInstance x mu delta hmu hdelta hdim

theorem C13_mean_shift_keeps_hash_unless_rounded_witness :
    ∃ h, fp.lsh.HasherInstance.GetHash (roundedOps roundDownQuarter Rat.sqrt)
          { Planes := ({ Planes := [{ Coefs := [1], D := 0 }] } : lsh.HasherInstance ℚ).Planes.map
              fun p => { Coefs := p.Coefs, D := p.D - dot p.Coefs [2] } }
          [9 / 8] (List.zipWith (fun m e => m + e) [0] [2]) = some h ∧
      fp.lsh.HasherInstance.GetHash (roundedOps roundDownQuarter Rat.sqrt)
        ({ Planes := [{ Coefs := [1], D := 0 }] } : lsh.HasherInstance ℚ) [9 / 8] [0] = some h := by
  have h0 : roundDownQuarter 0 = 0 := by
    have := roundDownQuarter_eq 0 0 (by norm_num) (by norm_num); simpa using this
  have h1 : roundDownQuarter 1 = 1 := by
    have := roundDownQuarter_eq 1 4 (by norm_num) (by norm_num); norm_num at this; exact this
  have hm1 : roundDownQuarter (-1) = -1 := by
    have := roundDownQuarter_eq (-1) (-4) (by norm_num) (by norm_num); norm_num at this; exact this
  have hm2 : roundDownQuarter (-2) = -2 := by
    have := roundDownQuarter_eq (-2) (-8) (by norm_num) (by norm_num); norm_num at this; exact this
  have hx : roundDownQuarter (9 / 8) = 1 := by
    have := roundDownQuarter_eq (9 / 8) 4 (by norm_num) (by norm_num); norm_num at this; exact this
  have hy : roundDownQuarter (-(7 / 8)) = -1 := by
    have := roundDownQuarter_eq (-(7 / 8)) (-4) (by norm_num) (by norm_num)
    norm_num at this; exact this
  exact C13_mean_shift_keeps_hash_unless_rounded (roundedOps roundDownQuarter Rat.sqrt)
    { Planes := [{ Coefs := [1], D := 0 }] } [9 / 8] [0] [2] rfl rfl (by simp)
    (by
      norm_num [fp.lsh.HasherInstance.GetHash, lsh.HasherInstance.GetHash, blasCopy, fp.blasAxpy,
        blasAxpy, fp.lsh.getHashLoop, lsh.getHashLoop, fp.blasDot, blasDot, roundedOps, setBit64,
        Signbit, h0, h1, hx])
    (by
      norm_num [fp.lsh.HasherInstance.GetHash, lsh.HasherInstance.GetHash, blasCopy, fp.blasAxpy,
        blasAxpy, fp.lsh.getHashLoop, lsh.getHashLoop, fp.blasDot, blasDot, roundedOps, setBit64,
        Signbit, dot, h0, h1, hm1, hm2, hx, hy])

/-- The proviso of C13 is needed: in binary64, for `c = (1)`, `d = 0`,
`x = (-1)`, `mu = (0)` and `delta = (1e16)`, the code is 0 before the shift
and 1 after it, with the mean `1e16` and the offset `-1e16`: `x - mu` rounds
to `-1e16`. -/
theorem mean_shift_rounding_example :
    fp.lsh.HasherInstance.GetHash binary64.ops
        { Planes := [{ Coefs := [binary64.lit 1 0], D := 0 }] }
        [binary64.lit (-1) 0] [0] = some 0 ∧
    fp.lsh.HasherInstance.GetHash binary64.ops
        { Planes := [{ Coefs := [binary64.lit 1 0], D := binary64.lit (-10000000000000000) 0 }] }
        [binary64.lit (-1) 0] [binary64.lit 10000000000000000 0] = some 1 := by
  refine ⟨by decide!, by decide!⟩

/-- C12 (amended): multiplying all coefficients of a single plane and its
offset `D` by the same positive constant, everything else of the hasher left
as it is, does not change the result of `HasherInstance.GetHash(x, mu)` on
every input on which float64 rounding changes neither of the two codes, that
is, on which each float64 code is the code of exact arithmetic; with rounding
a bit can flip. -/
theorem C12_scaling_plane_keeps_hash_unless_rounded {F : Type} [LinearOrderedField F]
    (ops : FloatOps F) (a : F) (ha : 0 < a)
    (pre post : List (lsh.Plane F)) (p : lsh.Plane F) (x mu : List F)
    (hbefore : fp.lsh.HasherInstance.GetHash ops { Planes := pre ++ p :: post } x mu
      = lsh.HasherInstance.GetHash { Planes := pre ++ p :: post } x mu)
    (hafter : fp.lsh.HasherInstance.GetHash ops
        { Planes := pre ++ { Coefs := p.Coefs.map (fun ci => a * ci), D := a * p.D } :: post }
        x mu
      = lsh.HasherInstance.GetHash
        { Planes := pre ++ { Coefs := p.Coefs.map (fun ci => a * ci), D := a * p.D } :: post }
        x mu) :
    fp.lsh.HasherInstance.GetHash ops
        { Planes := pre ++ { Coefs := p.Coefs.map (fun ci => a * ci), D := a * p.D } :: post }
        x mu
      = fp.lsh.HasherInstance.GetHash ops { Planes := pre ++ p :: post } x mu := by
  rw [hbefore, hafter]
  exact (scaling_plane_keeps_hash_exact a ha pre post p x mu
    ⟨0, 0, 0, [⟨⟨[], 0⟩, ⟨[], 0⟩⟩], ⟨[], 0⟩⟩ [] [] ⟨⟨[], 0⟩, ⟨[], 0⟩⟩ ⟨[], 0⟩ rfl).1

theorem C12_scaling_plane_keeps_hash_unless_rounded_witness :
    fp.lsh.HasherInstance.GetHash (roundedOps roundDownQuarter Rat.sqrt)
        { Planes := [] ++ { Coefs := ([1] : List ℚ).map (fun ci => 2 * ci), D := 2 * 1 } :: [] }
        [13 / 8] [0]
      = fp.lsh.HasherInstance.GetHash (roundedOps roundDownQuarter Rat.sqrt)
        { Planes := [] ++ { Coefs := [1], D := 1 } :: [] } [13 / 8] [0] := by
  have h0 : roundDownQuarter 0 = 0 := by
    have := roundDownQuarter_eq 0 0 (by norm_num) (by norm_num); simpa using this
  have h1 : roundDownQuarter 1 = 1 := by
    have := roundDownQuarter_eq 1 4 (by norm_num) (by norm_num); norm_num at this; exact this
  have h3 : roundDownQuarter 3 = 3 := by
    have := roundDownQuarter_eq 3 12 (by norm_num) (by norm_num); norm_num at this; exact this
  have hh : roundDownQuarter (1 / 2) = 1 / 2 := by
    have := roundDownQuarter_eq (1 / 2) 2 (by norm_num) (by norm_num); norm_num at this; exact this
  have hs : roundDownQuarter (3 / 2) = 3 / 2 := by
    have := roundDownQuarter_eq (3 / 2) 6 (by norm_num) (by norm_num); norm_num at this; exact this
  have hx : roundDownQuarter (13 / 8) = 3 / 2 := by
    have := roundDownQuarter_eq (13 / 8) 6 (by norm_num) (by norm_num); norm_num at this; exact this
  exact C12_scaling_plane_keeps_hash_unless_rounded (roundedOps roundDownQuarter Rat.sqrt) (2 : ℚ)
    (by norm_num) [] [] { Coefs := [1], D := 1 } [13 / 8] [0]
    (by
      norm_num [fp.lsh.HasherInstance.GetHash, lsh.HasherInstance.GetHash, blasCopy, fp.blasAxpy,
        blasAxpy, fp.lsh.getHashLoop, lsh.getHashLoop, fp.blasDot, blasDot, roundedOps, setBit64,
        Signbit, h0, h1, h3, hh, hs, hx])
    (by
      norm_num [fp.lsh.HasherInstance.GetHash, lsh.HasherInstance.GetHash, blasCopy, fp.blasAxpy,
        blasAxpy, fp.lsh.getHashLoop, lsh.getHashLoop, fp.blasDot, blasDot, roundedOps, setBit64,
        Signbit, h0, h1, h3, hh, hs, hx])

/-- The proviso of C12 is needed: in binary64, for `c = (0.6, 1.8)`,
`d = -1.8`, `x = (-1.5, -0.5)` and `mu = 0`, the code is 1, and it is 0 once
`c` and `d` are multiplied by 7. -/
theorem scaling_rounding_example :
    fp.lsh.HasherInstance.GetHash binary64.ops
        { Planes := [{ Coefs := [binary64.lit 5404319552844595 (-53),
                                 binary64.lit 8106479329266893 (-52)],
                       D := binary64.lit (-8106479329266893) (-52) }] }
        [binary64.lit (-3) (-1), binary64.lit (-1) (-1)] [0, 0] = some 1 ∧
    fp.lsh.HasherInstance.GetHash binary64.ops
        { Planes := [{ Coefs := [binary64.ops.mul (binary64.lit 7 0)
                                   (binary64.lit 5404319552844595 (-53)),
                                 binary64.ops.mul (binary64.lit 7 0)
                                   (binary64.lit 8106479329266893 (-52))],
                       D := binary64.ops.mul (binary64.lit 7 0)
                              (binary64.lit (-8106479329266893) (-52)) }] }
        [binary64.lit (-3) (-1), binary64.lit (-1) (-1)] [0, 0] = some 0 := by
  refine ⟨by decide!, by decide!⟩

end VectorSearch

namespace VectorSearch

namespace fp

namespace algorithm

open VectorSearch.algorithm

theorem makeSlice_exact {F : Type} [LinearOrderedField F] (sqrt : F → F) (n : Int) :
    fp.makeSlice (exactOps sqrt) n = VectorSearch.makeSlice (F := F) n := by
  simp [fp.makeSlice, VectorSearch.makeSlice, exactOps]

theorem Vector.Add_exact {F : Type} [LinearOrderedField F] (sqrt : F → F)
    (vec rvec : Vector F) : Vector.Add (exactOps sqrt) vec rvec = vec.Add rvec := by
  simp only [Vector.Add, VectorSearch.algorithm.Vector.Add, makeSlice_exact]
  rfl

theorem Vector.ConstMul_exact {F : Type} [LinearOrderedField F] (sqrt : F → F)
    (vec : Vector F) (constant : F) :
    Vector.ConstMul (exactOps sqrt) vec constant = vec.ConstMul constant := by
  simp only [Vector.ConstMul, VectorSearch.algorithm.Vector.ConstMul, makeSlice_exact]
  rfl

theorem Vector.DotProd_exact {F : Type} [LinearOrderedField F] (sqrt : F → F)
    (vec inpVec : Vector F) :
    Vector.DotProd (exactOps sqrt) vec inpVec = vec.DotProd inpVec := by
  simp [Vector.DotProd, VectorSearch.algorithm.Vector.DotProd, exactOps]

theorem GetPointPlaneDist_exact {F : Type} [LinearOrderedField F] (sqrt : F → F)
    (planeCoefs : Vector F) :
    GetPointPlaneDist (exactOps sqrt) planeCoefs
      = VectorSearch.algorithm.GetPointPlaneDist planeCoefs := by
  simp only [GetPointPlaneDist, VectorSearch.algorithm.GetPointPlaneDist, makeSlice_exact]
  simp [exactOps]

theorem newPlane_exact {F : Type} [LinearOrderedField F] (sqrt : F → F) (coefs : Vector F) :
    newPlane (exactOps sqrt) coefs = VectorSearch.algorithm.newPlane coefs := by
  simp only [newPlane, VectorSearch.algorithm.newPlane, GetPointPlaneDist_exact]

/-- With exact operations the float64 embedding of `LSHIndex.GetHash` is the
exact one. -/
theorem LSHIndex.GetHash_of_exactOps {F : Type} [LinearOrderedField F] (sqrt : F → F)
    (lsh : LSHIndex F) (inpVec : Vector F) :
    LSHIndex.GetHash (exactOps sqrt) lsh inpVec = lsh.GetHash inpVec := by
  simp only [LSHIndex.GetHash, VectorSearch.algorithm.LSHIndex.GetHash, Vector.Add_exact,
    Vector.ConstMul_exact, Vector.DotProd_exact]
  simp [exactOps, Signbit]

end algorithm

end fp

/-- C3 (amended): for plane coefficient vectors `(c, d)` with `c` non-zero and
vectors of dimension `D`, `LSHIndex.GetHash` over the planes that `Build`
stores (inner point `GetPointPlaneDist (c, d)`) returns the same code as
`HasherInstance.GetHash` over the planes with `Coefs = c` and `D = d` on every
input on which float64 rounding changes neither the inner points nor the two
codes, that is, on which they are those of exact arithmetic; the rounding of
an inner point can make the two codes differ. -/
theorem C3_getHash_implementations_agree_unless_rounded {F : Type} [LinearOrderedField F]
    (ops : FloatOps F) (coefs : List (List F × F)) (mu x : List F) (b : F)
    (hmu : mu.length = x.length)
    (hc : ∀ cd ∈ coefs, cd.1.length = x.length ∧ ∃ ci ∈ cd.1, ci ≠ 0)
    (hpoints : coefs.map (fun cd => fp.algorithm.newPlane ops
          (algorithm.NewVector (cd.1 ++ [cd.2])))
        = coefs.map (fun cd => algorithm.newPlane (algorithm.NewVector (cd.1 ++ [cd.2]))))
    (hindex : ∀ planes,
      coefs.map (fun cd => algorithm.newPlane (algorithm.NewVector (cd.1 ++ [cd.2])))
        = planes.map some →
      fp.algorithm.LSHIndex.GetHash ops
          { dims := x.length, nPlanes := coefs.length, bias := b, Planes := planes,
            MeanVec := algorithm.NewVector mu } (algorithm.NewVector x)
        = algorithm.LSHIndex.GetHash
          { dims := x.length, nPlanes := coefs.length, bias := b, Planes := planes,
            MeanVec := algorithm.NewVector mu } (algorithm.NewVector x))
    (hhasher : fp.lsh.HasherInstance.GetHash ops
          { Planes := coefs.map fun cd => { Coefs := cd.1, D := cd.2 } } x mu
        = lsh.HasherInstance.GetHash
          { Planes := coefs.map fun cd => { Coefs := cd.1, D := cd.2 } } x mu) :
    ∃ planes h,
      coefs.map (fun cd => fp.algorithm.newPlane ops (algorithm.NewVector (cd.1 ++ [cd.2])))
        = planes.map some ∧
      fp.algorithm.LSHIndex.GetHash ops
        { dims := x.length, nPlanes := coefs.length, bias := b, Planes := planes,
          MeanVec := algorithm.NewVector mu } (algorithm.NewVector x) = some h ∧
      fp.lsh.HasherInstance.GetHash ops
        { Planes := coefs.map fun cd => { Coefs := cd.1, D := cd.2 } } x mu = some h := by
  obtain ⟨planes, h, hplanes, hA, hB⟩ := getHash_implementations_agree_exact coefs mu x b hmu hc
  refine ⟨planes, h, ?_, ?_, ?_⟩
  · rw [hpoints, hplanes]
  · rw [hindex planes hplanes, hA]
  · rw [hhasher, hB]

theorem C3_getHash_implementations_agree_unless_rounded_witness :
    ∃ planes h,
      ([([1], 1)] : List (List ℚ × ℚ)).map
          (fun cd => fp.algorithm.newPlane (roundedOps roundDownQuarter Rat.sqrt)
            (algorithm.NewVector (cd.1 ++ [cd.2])))
        = planes.map some ∧
      fp.algorithm.LSHIndex.GetHash (roundedOps roundDownQuarter Rat.sqrt)
        { dims := ([17 / 8] : List ℚ).length, nPlanes := ([([1], 1)] : List (List ℚ × ℚ)).length,
          bias := 1, Planes := planes,
          MeanVec := algorithm.NewVector [0] } (algorithm.NewVector [17 / 8]) = some h ∧
      fp.lsh.HasherInstance.GetHash (roundedOps roundDownQuarter Rat.sqrt)
        { Planes := ([([1], 1)] : List (List ℚ × ℚ)).map
            fun cd => { Coefs := cd.1, D := cd.2 } } [17 / 8] [0] = some h := by
  have h0 : roundDownQuarter 0 = 0 := by
    have := roundDownQuarter_eq 0 0 (by norm_num) (by norm_num); simpa using this
  have h1 : roundDownQuarter 1 = 1 := by
    have := roundDownQuarter_eq 1 4 (by norm_num) (by norm_num); norm_num at this; exact this
  have h2 : roundDownQuarter 2 = 2 := by
    have := roundDownQuarter_eq 2 8 (by norm_num) (by norm_num); norm_num at this; exact this
  have hm1 : roundDownQuarter (-1) = -1 := by
    have := roundDownQuarter_eq (-1) (-4) (by norm_num) (by norm_num); norm_num at this; exact this
  have hx : roundDownQuarter (17 / 8) = 2 := by
    have := roundDownQuarter_eq (17 / 8) 8 (by norm_num) (by norm_num); norm_num at this; exact this
  have hP : algorithm.newPlane (algorithm.NewVector ([1, 1] : List ℚ))
      = some ⟨⟨[1, 1], 2⟩, ⟨[1], 1⟩⟩ := by
    norm_num [algorithm.newPlane, algorithm.GetPointPlaneDist, algorithm.NewVector, makeSlice,
      idxInt, forRange, setIdx, List.range, List.range.loop]
  refine C3_getHash_implementations_agree_unless_rounded (roundedOps roundDownQuarter Rat.sqrt)
    [([1], 1)] [0] [17 / 8] 1 rfl (by simp) ?_ ?_ ?_
  · simp only [List.map, List.cons_append, List.nil_append, hP]
    norm_num [fp.algorithm.newPlane, fp.algorithm.GetPointPlaneDist, algorithm.NewVector,
      fp.makeSlice, idxInt, forRange, setIdx, List.range, List.range.loop, roundedOps, h0, h1]
  · intro planes hp
    have hpl : planes = [⟨⟨[1, 1], 2⟩, ⟨[1], 1⟩⟩] := by
      simp only [List.map, List.cons_append, List.nil_append, hP] at hp
      have hq : List.map some [(⟨⟨[1, 1], 2⟩, ⟨[1], 1⟩⟩ : algorithm.Plane ℚ)]
          = List.map some planes := by simpa using hp
      exact ((List.map_injective_iff.mpr (Option.some_injective _)) hq).symm
    subst hpl
    norm_num [fp.algorithm.LSHIndex.GetHash, algorithm.LSHIndex.GetHash,
      fp.algorithm.Vector.ConstMul, algorithm.Vector.ConstMul, fp.algorithm.Vector.Add,
      algorithm.Vector.Add, fp.algorithm.Vector.DotProd, algorithm.Vector.DotProd,
      algorithm.NewVector, fp.makeSlice, makeSlice, idxInt, forRange, setIdx, List.range,
      List.range.loop, roundedOps, setBit64, Signbit, h0, h1, h2, hm1, hx]
  · norm_num [fp.lsh.HasherInstance.GetHash, lsh.HasherInstance.GetHash, blasCopy, fp.blasAxpy,
      blasAxpy, fp.lsh.getHashLoop, lsh.getHashLoop, fp.blasDot, blasDot, roundedOps, setBit64,
      Signbit, h0, h1, h2, hm1, hx]

/-- C3 as stated fails: in binary64, for `c = (-3, -1)`, `d = -4`,
`x = (1, 1)` and `mu = 0`, `GetPointPlaneDist` returns the rounded inner point
`(1.2, 0.4)`, `LSHIndex.GetHash` over it returns 0, and
`HasherInstance.GetHash` over `(c, d)` returns 1. -/
theorem C3_counterexample :
    (fp.algorithm.newPlane binary64.ops
        (algorithm.NewVector [binary64.lit (-3) 0, binary64.lit (-1) 0, binary64.lit (-4) 0])).map
        (fun p => (p.Coefs.Values, p.InnerPoint.Values, p.InnerPoint.Size))
      = some ([binary64.lit (-3) 0, binary64.lit (-1) 0, binary64.lit (-4) 0],
          [binary64.lit 5404319552844595 (-52), binary64.lit 7205759403792794 (-54)], 2) ∧
    fp.algorithm.LSHIndex.GetHash binary64.ops
        { dims := 2, nPlanes := 1, bias := binary64.lit 1 0,
          Planes := [{ Coefs := { Values := [binary64.lit (-3) 0, binary64.lit (-1) 0,
                                             binary64.lit (-4) 0], Size := 3 },
                       InnerPoint := { Values := [binary64.lit 5404319552844595 (-52),
                                                  binary64.lit 7205759403792794 (-54)],
                                       Size := 2 } }],
          MeanVec := algorithm.NewVector [0, 0] }
        (algorithm.NewVector [binary64.lit 1 0, binary64.lit 1 0]) = some 0 ∧
    fp.lsh.HasherInstance.GetHash binary64.ops
        { Planes := [{ Coefs := [binary64.lit (-3) 0, binary64.lit (-1) 0],
                       D := binary64.lit (-4) 0 }] }
        [binary64.lit 1 0, binary64.lit 1 0] [0, 0] = some 1 := by
  refine ⟨by decide!, by decide!, by decide!⟩

end VectorSearch
